import Mathlib

/-!
# esp8266-mqtt-min: a shallow embedding of `mqtt.c`

The client keeps all of its state in file-level globals (`state`, `pt`, `rxbuf`,
`sendQ`, `nextId`, the two timers and the statics of `recv_pt`).  The embedding
gathers them in one record, `Client`, and every C function becomes a function
from `Client` to `Client` (paired with the return value when the C function
returns one).

Calls that leave the module are recorded in the record as well:

* `sent`       every `espconn_send(&conn, data, len)`, in call order;
* `scheduled`  every `sched(...)`, `sched_espconn_disconnect`, `sched_espconn_delete`;
* `published`  every `mqtt_publish_cb(topic, msg, qos, retain)`;
* `connects`   the number of `espconn_connect(&conn)` calls;
* `rxlog`      every `handle_rxbuf(type, len)` call made by `recv_pt`, with the
               first `len` bytes of `rxbuf` at the time of the call.

Machine integers are natural numbers, reduced modulo `2^8` or `2^16` where the C
code can overflow.  Byte buffers and C strings are lists of natural numbers.
-/

namespace Mqtt

/-! ## Constants of `mqtt.c` -/

def CONNECT : Nat := 0x10
def CONNACK : Nat := 0x20
def PUBLISH : Nat := 0x30
def PUBACK : Nat := 0x40
def PUBREC : Nat := 0x50
def PUBREL : Nat := 0x60
def PUBCOMP : Nat := 0x70
def SUBSCRIBE : Nat := 0x80
def SUBACK : Nat := 0x90
def UNSUBSCRIBE : Nat := 0xA0
def UNSUBACK : Nat := 0xB0
def PINGREQ : Nat := 0xC0
def PINGRESP : Nat := 0xD0
def DISCONNECT : Nat := 0xE0

/-- The anonymous `enum` of connection states (`static uint8_t state`). -/
inductive ConnState where
  | CLOSED
  | CONNECTING
  | OPEN
  | DATA_SENT
  | CLOSING
deriving DecidableEq, Repr

open ConnState

/-- One cell of the send queue, `struct Q` without its `next` pointer: the linked
list itself is a Lean list. The same record logs an `espconn_send(data, len)`. -/
structure Q where
  data : List Nat
  len : Nat
deriving DecidableEq, Repr

/-- The configuration record `struct mqtt_config`; a `char *` that may be null is an
`Option`. -/
structure mqtt_config where
  host : List Nat
  port : Nat
  keepalive : Nat
  q_max : Nat
  client : Option (List Nat)
  user : Option (List Nat)
  pass : Option (List Nat)
  will_topic : Option (List Nat)
  will_message : Option (List Nat)
  will_qos : Nat
  will_retain : Nat
deriving DecidableEq, Repr

/-- What `sched.c` is asked to run later: `sched(mqtt_open_cb, 0)`,
`sched(mqtt_error_cb, 0)`, `sched_espconn_disconnect(&conn)` and
`sched_espconn_delete(&conn)`. -/
inductive Sched where
  | mqtt_open_cb
  | mqtt_error_cb
  | espconn_disconnect
  | espconn_delete
deriving DecidableEq, Repr

/-- The arguments of one `mqtt_publish_cb(topic, msg, qos, retain)` call; the two
strings are what the callee reads up to the terminating zero byte. -/
structure PublishCall where
  topic : List Nat
  msg : List Nat
  qos : Nat
  retain : Nat
deriving DecidableEq, Repr

/-- The local continuation of the protothread `pt`: where `recv_pt` resumes.
`start` is the value after `PT_INIT`; the others are the four `PT_YIELD` places:
inside `BYTE(type)`, the first `BYTE(b)`, the second `BYTE(b)` and the copy loop. -/
inductive LC where
  | start
  | y_type
  | y_len1
  | y_len2
  | y_data
deriving DecidableEq, Repr

/-- One `handle_rxbuf(type, len)` call as seen from `recv_pt`. -/
structure RxCall where
  type : Nat
  len : Nat
  payload : List Nat
deriving DecidableEq, Repr

/-- All globals of `mqtt.c` and the record of the calls leaving the module. -/
structure Client where
  cfg : mqtt_config
  state : ConnState
  lc : LC
  b : Nat
  type : Nat
  len : Nat
  pos : Nat
  rxbuf : Option (List Nat)
  sendQ : List Q
  nextId : Nat
  tmr_timeout : Option Nat
  tmr_keepalive : Option Nat
  sent : List Q
  scheduled : List Sched
  published : List PublishCall
  connects : Nat
  rxlog : List RxCall
deriving DecidableEq, Repr

/-- The globals as the C runtime initialises them, for a given configuration. -/
def Client.init (cfg : mqtt_config) : Client :=
  { cfg := cfg, state := CLOSED, lc := LC.start, b := 0, type := 0, len := 0, pos := 0,
    rxbuf := none, sendQ := [], nextId := 0, tmr_timeout := none, tmr_keepalive := none,
    sent := [], scheduled := [], published := [], connects := 0, rxlog := [] }

/-! ## Memory helpers -/

/-- Read `buf[i]`; outside the modelled memory the byte read is 0. -/
def rd (buf : List Nat) (i : Nat) : Nat := buf.getD i 0

/-- The library call `os_memcpy(dst + p, src, n)`: `n` single byte stores. -/
def memcpy : List Nat → Nat → List Nat → Nat → List Nat
  | dst, _, _, 0 => dst
  | dst, p, src, n + 1 => memcpy (dst.set p (src.headD 0)) (p + 1) src.tail n

/-- The C string that starts at `buf + off`: the bytes before the first zero. -/
def cstr (buf : List Nat) (off : Nat) : List Nat :=
  (buf.drop off).takeWhile (fun c => c != 0)

/-- The library call `os_strlen(s)`. -/
def os_strlen (s : List Nat) : Nat := (cstr s 0).length

/-! ## The send queue -/

/-- Source function `sendFromQ`. -/
def sendFromQ (s : Client) : Client :=
  match s.sendQ with
  | [] => s
  | q :: next =>
    if s.state ≠ OPEN then s
    else
      { s with
        sent := s.sent ++ [q]
        sendQ := next
        state := DATA_SENT
        tmr_keepalive := some (s.cfg.keepalive * 1000) }

/-- The `while (*l)` loop of `enQ` followed by the store through `l`: `none` when the
loop returns 0, otherwise the list with the new cell linked at its end. -/
def enQ_walk (q_max force : Nat) (e : Q) : List Q → Nat → Option (List Q)
  | [], _ => some [e]
  | x :: rest, count =>
    if force = 0 ∧ count + 1 ≥ q_max then none
    else (enQ_walk q_max force e rest (count + 1)).map (fun l => x :: l)

/-- Source function `enQ`. -/
def enQ (s : Client) (data : List Nat) (len force : Nat) : Nat × Client :=
  match enQ_walk s.cfg.q_max force (Q.mk data len) s.sendQ 0 with
  | none => (0, s)
  | some l => (1, sendFromQ { s with sendQ := l })

/-- Source function `removeQ`. -/
def removeQ (s : Client) : Client := { s with sendQ := [] }

/-! ## Encoders -/

/-- Source function `put_header`, writing at `buf + p`; the second component is the
return value. -/
def put_header (buf : List Nat) (p type len : Nat) : List Nat × Nat :=
  let buf := buf.set p type
  if len > 127 then
    let buf := buf.set (p + 1) (0x80 + (len &&& 0x7f))
    let len := len >>> 7
    let buf := buf.set (p + 2) (len % 256)
    (buf, 3)
  else
    (buf.set (p + 1) len, 2)

/-- Source function `put_u16`. -/
def put_u16 (buf : List Nat) (p value : Nat) : List Nat × Nat :=
  let buf := buf.set p (value >>> 8)
  let buf := buf.set (p + 1) (value &&& 0xff)
  (buf, 2)

/-- Source function `put_string`; `l` and the return value are `uint16_t`. -/
def put_string (buf : List Nat) (p : Nat) (s : List Nat) : List Nat × Nat :=
  let l := os_strlen s % 65536
  let buf := buf.set p (l >>> 8)
  let buf := buf.set (p + 1) (l &&& 0xff)
  let buf := memcpy buf (p + 2) s l
  (buf, (2 + l) % 65536)

/-! ## Inbound frames -/

/-- Source function `handle_rxbuf`. A null `rxbuf` reads as an empty buffer. -/
def handle_rxbuf (s : Client) (type len : Nat) : Nat × Client :=
  let s := { s with tmr_timeout := some (s.cfg.keepalive * 1500) }
  let rxbuf := s.rxbuf.getD []
  let t := type &&& 0xF0
  if t = CONNACK then
    if s.state = CONNECTING ∧ len = 2 ∧ rd rxbuf 1 = 0 then
      (1, { s with
            state := OPEN
            scheduled := s.scheduled ++ [Sched.mqtt_open_cb]
            tmr_keepalive := some (s.cfg.keepalive * 1000) })
    else (0, s)
  else if t = PUBLISH then
    if (s.state ≠ OPEN ∧ s.state ≠ DATA_SENT) ∨ len < 4 then (0, s)
    else if type &&& 0x08 ≠ 0 then (1, s)
    else
      let qos := (type >>> 1) &&& 0x03
      let retain := type &&& 0x01
      let topic_len := ((rd rxbuf 0 <<< 8) ||| rd rxbuf 1) % 65536
      let p := 2
      let len := len - 2
      if topic_len > len then (0, s)
      else
        let topic := p
        let topic_end := p + topic_len
        let p := p + topic_len
        let len := len - topic_len
        if qos > 0 ∧ len < 2 then (0, s)
        else
          let id := if qos > 0 then ((rd rxbuf p <<< 8) ||| rd rxbuf (p + 1)) % 65536 else 0
          let len := if qos > 0 then len - 2 else len
          let p := if qos > 0 then p + 2 else p
          let msg := p
          let msg_end := p + len
          let rxbuf := (rxbuf.set topic_end 0).set msg_end 0
          let s := { s with
                     rxbuf := s.rxbuf.map (fun _ => rxbuf)
                     published := s.published ++
                       [PublishCall.mk (cstr rxbuf topic) (cstr rxbuf msg) qos retain] }
          if qos > 0 then
            (1, (enQ s [if qos = 1 then PUBACK else PUBREC, 2, id >>> 8, id &&& 0xff] 4 1).2)
          else (1, s)
  else if t = PUBREC ∨ t = PUBREL then
    if len = 2 then
      (1, (enQ s [if t = PUBREC then PUBREL else PUBCOMP, 2, rd rxbuf 0, rd rxbuf 1] 4 1).2)
    else (0, s)
  else if t = PUBACK ∨ t = PUBCOMP ∨ t = SUBACK ∨ t = UNSUBACK ∨ t = PINGRESP then (1, s)
  else (0, s)

/-- The `error:` label of `recv_pt` up to `PT_END`, which re-initialises `pt`. -/
def recv_error (s : Client) : Client :=
  { s with
    state := CLOSING
    rxbuf := none
    tmr_timeout := none
    tmr_keepalive := none
    scheduled := s.scheduled ++ [Sched.espconn_disconnect]
    lc := LC.start }

/-- Lines 361-370 of `recv_pt`: the call of `handle_rxbuf`, then either `goto error`
or the release of `rxbuf` and `goto again`, which is the continuation `k`. -/
def recv_handle (k : Client → List Nat → Nat → Client) (s : Client) (data : List Nat)
    (size : Nat) : Client :=
  let s := { s with rxlog := s.rxlog ++ [RxCall.mk s.type s.len ((s.rxbuf.getD []).take s.len)] }
  let r := handle_rxbuf s s.type s.len
  if r.1 = 0 then recv_error r.2
  else k { r.2 with rxbuf := none } data size

/-- The body of the copy loop after its yield place (lines 351-357). -/
def recv_copy (s : Client) (data : List Nat) (size : Nat) : Client :=
  let l := min (s.len - s.pos) size
  { s with rxbuf := s.rxbuf.map (fun buf => memcpy buf s.pos data l), pos := s.pos + l }

/-- The loop `while (pos < len)` of `recv_pt`, entered at its test; the first argument
bounds the number of iterations. -/
def recv_loop (k : Client → List Nat → Nat → Client) :
    Nat → Client → List Nat → Nat → Client
  | 0, s, _, _ => s
  | n + 1, s, data, size =>
    if s.pos < s.len then
      if size = 0 then { s with lc := LC.y_data }
      else
        let l := min (s.len - s.pos) size
        recv_loop k n (recv_copy s data size) (data.drop l) (size - l)
    else recv_handle k s data size

/-- Lines 329-359 of `recv_pt`: the size check and the allocation of `rxbuf`. -/
def recv_body (k : Client → List Nat → Nat → Client) (n : Nat) (s : Client)
    (data : List Nat) (size : Nat) : Client :=
  if s.len ≥ 256 then recv_error s
  else if s.len > 0 then
    recv_loop k n { s with rxbuf := some (List.replicate (s.len + 1) 0), pos := 0 } data size
  else recv_handle k s data size

/-- Line 327 of `recv_pt`, after the second `BYTE(b)`. -/
def recv_len2 (k : Client → List Nat → Nat → Client) (n : Nat) (s : Client)
    (data : List Nat) (size : Nat) : Client :=
  recv_body k n { s with len := (s.len ||| (s.b <<< 7)) % 65536 } data size

/-- Lines 323-326 of `recv_pt`, after the first `BYTE(b)`. -/
def recv_len1 (k : Client → List Nat → Nat → Client) (n : Nat) (s : Client)
    (data : List Nat) (size : Nat) : Client :=
  if s.b &&& 0x80 = 0 then recv_body k n { s with len := s.b } data size
  else
    let s := { s with len := s.b &&& 0x7f }
    if size = 0 then { s with lc := LC.y_len2 }
    else recv_len2 k n { s with b := data.headD 0 } data.tail (size - 1)

/-- Lines 304-322 of `recv_pt`, after `BYTE(type)`. -/
def recv_type (k : Client → List Nat → Nat → Client) (n : Nat) (s : Client)
    (data : List Nat) (size : Nat) : Client :=
  let s := { s with b := s.type &&& 0xF0 }
  if s.b ≠ CONNACK ∧ s.b ≠ PUBLISH ∧ s.b ≠ PUBACK ∧ s.b ≠ PUBREC ∧ s.b ≠ PUBREL ∧
      s.b ≠ PUBCOMP ∧ s.b ≠ SUBACK ∧ s.b ≠ UNSUBACK ∧ s.b ≠ PINGRESP then
    recv_error s
  else if size = 0 then { s with lc := LC.y_len1 }
  else recv_len1 k n { s with b := data.headD 0 } data.tail (size - 1)

/-- The label `again:` of `recv_pt`; every `goto again` uses up one unit of the first
argument. -/
def recv_again : Nat → Client → List Nat → Nat → Client
  | 0, s, _, _ => s
  | n + 1, s, data, size =>
    if size = 0 then { s with lc := LC.y_type }
    else recv_type (recv_again n) n { s with type := data.headD 0 } data.tail (size - 1)

/-- The statement `size--` on an `unsigned short`. -/
def dec16 (size : Nat) : Nat := if size = 0 then 65535 else size - 1

/-- Source function `recv_pt`. `data` is the memory at the pointer `data`, of which the
caller announces `size` bytes; `PT_BEGIN` jumps to the place stored in `pt`, and a
resumed `BYTE` reads its byte without looking at `size` again. -/
def recv_pt (s : Client) (data : List Nat) (size : Nat) : Client :=
  match s.lc with
  | LC.start => recv_again (size + 1) s data size
  | LC.y_type =>
    recv_type (recv_again (dec16 size + 1)) (dec16 size + 1)
      { s with type := data.headD 0 } data.tail (dec16 size)
  | LC.y_len1 =>
    recv_len1 (recv_again (dec16 size + 1)) (dec16 size + 1)
      { s with b := data.headD 0 } data.tail (dec16 size)
  | LC.y_len2 =>
    recv_len2 (recv_again (dec16 size + 1)) (dec16 size + 1)
      { s with b := data.headD 0 } data.tail (dec16 size)
  | LC.y_data =>
    let l := min (s.len - s.pos) size
    recv_loop (recv_again (size - l + 1)) (size - l + 1) (recv_copy s data size)
      (data.drop l) (size - l)

/-- Source function `recv_cb`. -/
def recv_cb (s : Client) (data : List Nat) (size : Nat) : Client :=
  if s.state ≠ CONNECTING ∧ s.state ≠ OPEN ∧ s.state ≠ DATA_SENT then s
  else recv_pt s data size

/-! ## Transport and timer callbacks -/

/-- Source function `sent_cb`. -/
def sent_cb (s : Client) : Client :=
  if s.state = DATA_SENT then sendFromQ { s with state := OPEN } else s

/-- The macro `mstrlen` of `connect_cb`. -/
def mstrlen (s : Option (List Nat)) : Nat :=
  match s with
  | some x => 2 + os_strlen x
  | none => 0

/-- The connect-flags expression of `connect_cb` (lines 448-454), stored in a byte. -/
def connect_flags (cfg : mqtt_config) : Nat :=
  ((if cfg.user.isSome then 0x80 else 0) |||
   (if cfg.pass.isSome then 0x40 else 0) |||
   (if cfg.will_retain ≠ 0 then 0x20 else 0) |||
   (cfg.will_qos <<< 3) |||
   (if cfg.will_topic.isSome then 0x08 else 0) |||
   0x02) % 256

/-- The bytes `connect_cb` writes into its buffer, with the buffer length. Passing a
null `client` or `will_message` to `put_string` is undefined in C; here it writes the
empty string. -/
def connect_buf (cfg : mqtt_config) : List Nat × Nat :=
  let len := (6 + 1 + 1 + 2 + mstrlen cfg.client + mstrlen cfg.will_topic +
    mstrlen cfg.will_message + mstrlen cfg.user + mstrlen cfg.pass) % 65536
  let buflen := (1 + (if len < 128 then 1 else 2) + len) % 65536
  let buf := List.replicate buflen 0
  let p := 0
  let r := put_header buf p CONNECT len
  let buf := r.1
  let p := p + r.2
  let r := put_string buf p [77, 81, 84, 84]
  let buf := r.1
  let p := p + r.2
  let buf := buf.set p 4
  let p := p + 1
  let buf := buf.set p (connect_flags cfg)
  let p := p + 1
  let r := put_u16 buf p cfg.keepalive
  let buf := r.1
  let p := p + r.2
  let r := put_string buf p (cfg.client.getD [])
  let buf := r.1
  let p := p + r.2
  let r :=
    match cfg.will_topic with
    | some t =>
      let r1 := put_string buf p t
      let r2 := put_string r1.1 (p + r1.2) (cfg.will_message.getD [])
      (r2.1, p + r1.2 + r2.2)
    | none => (buf, p)
  let buf := r.1
  let p := r.2
  let r :=
    match cfg.user with
    | some u => let r1 := put_string buf p u; (r1.1, p + r1.2)
    | none => (buf, p)
  let buf := r.1
  let p := r.2
  let r :=
    match cfg.pass with
    | some u => let r1 := put_string buf p u; (r1.1, p + r1.2)
    | none => (buf, p)
  (r.1, buflen)

/-- Source function `connect_cb`. -/
def connect_cb (s : Client) : Client :=
  let s := { s with state := CONNECTING }
  let r := connect_buf s.cfg
  { s with sent := s.sent ++ [Q.mk r.1 r.2], tmr_timeout := some 10000 }

/-- Source function `discon_cb`. -/
def discon_cb (s : Client) : Client :=
  let s := removeQ { s with state := CLOSED, rxbuf := none }
  { s with
    tmr_timeout := none
    tmr_keepalive := none
    scheduled := s.scheduled ++ [Sched.espconn_delete, Sched.mqtt_error_cb] }

/-- Source function `recon_cb`. -/
def recon_cb (s : Client) : Client := discon_cb s

/-- Source function `timeout_cb`. -/
def timeout_cb (s : Client) : Client :=
  { s with
    state := CLOSING
    rxbuf := none
    tmr_timeout := none
    tmr_keepalive := none
    scheduled := s.scheduled ++ [Sched.espconn_disconnect] }

/-- Source function `keepalive_cb`. -/
def keepalive_cb (s : Client) : Client :=
  { s with
    sent := s.sent ++ [Q.mk [PINGREQ, 0] 2]
    tmr_keepalive := some (s.cfg.keepalive * 1000) }

/-- Source function `dns_cb`; `ipaddr` tells whether the address pointer is non-null. -/
def dns_cb (s : Client) (ipaddr : Bool) : Client :=
  if ipaddr = false then { s with scheduled := s.scheduled ++ [Sched.mqtt_error_cb] }
  else { s with state := CLOSED, lc := LC.start, connects := s.connects + 1 }

/-- What `espconn_gethostbyname` answers in `mqtt_connect`. -/
inductive DnsAnswer where
  | ESPCONN_OK
  | ESPCONN_INPROGRESS
  | other
deriving DecidableEq, Repr

/-- Source function `mqtt_connect`, given the answer of `espconn_gethostbyname`. -/
def mqtt_connect (s : Client) (r : DnsAnswer) : Nat × Client :=
  if s.state ≠ CLOSED then (0, s)
  else
    match r with
    | DnsAnswer.ESPCONN_OK => (1, dns_cb s true)
    | DnsAnswer.ESPCONN_INPROGRESS => (1, s)
    | DnsAnswer.other => (0, s)

/-! ## The publishing API -/

/-- The statements `nextId++; if (nextId == 0) nextId=1;` on the `uint16_t` counter. -/
def next_id (nextId : Nat) : Nat :=
  let nextId := (nextId + 1) % 65536
  if nextId = 0 then 1 else nextId

/-- Lines 610-626 of `mqtt_publish`: the buffer that is built, its length `buflen`, and
the client with the packet-id counter advanced when `qos > 0`. -/
def mqtt_publish_buf (s : Client) (topic msg : List Nat) (qos retain : Nat) :
    List Nat × Nat × Client :=
  let len := (2 + os_strlen topic + (if qos > 0 then 2 else 0) + os_strlen msg) % 65536
  let buflen := (1 + (if len < 128 then 1 else 2) + len) % 65536
  let buf := List.replicate buflen 0
  let p := 0
  let r := put_header buf p ((PUBLISH ||| (qos <<< 1) ||| (if retain ≠ 0 then 0x01 else 0)) % 256) len
  let buf := r.1
  let p := p + r.2
  let r := put_string buf p topic
  let buf := r.1
  let p := p + r.2
  let s := if qos > 0 then { s with nextId := next_id s.nextId } else s
  let r := if qos > 0 then put_u16 buf p s.nextId else (buf, 0)
  let buf := r.1
  let p := p + r.2
  let buf := memcpy buf p msg (os_strlen msg)
  (buf, buflen, s)

/-- Source function `mqtt_publish`. -/
def mqtt_publish (s : Client) (topic msg : List Nat) (qos retain : Nat) : Nat × Client :=
  if s.state ≠ OPEN ∧ s.state ≠ DATA_SENT then (0, s)
  else
    let r := mqtt_publish_buf s topic msg qos retain
    enQ r.2.2 r.1 r.2.1 0

/-- Lines 639-652 of `mqtt_subscribe`: buffer, `buflen` and the client with the
packet-id counter advanced. -/
def mqtt_subscribe_buf (s : Client) (topic : List Nat) (qos : Nat) : List Nat × Nat × Client :=
  let len := (2 + 2 + os_strlen topic + 1) % 65536
  let buflen := (1 + (if len < 128 then 1 else 2) + len) % 65536
  let buf := List.replicate buflen 0
  let p := 0
  let r := put_header buf p (SUBSCRIBE ||| 0x02) len
  let buf := r.1
  let p := p + r.2
  let s := { s with nextId := next_id s.nextId }
  let r := put_u16 buf p s.nextId
  let buf := r.1
  let p := p + r.2
  let r := put_string buf p topic
  let buf := r.1
  let p := p + r.2
  let buf := buf.set p qos
  (buf, buflen, s)

/-- Source function `mqtt_subscribe`. -/
def mqtt_subscribe (s : Client) (topic : List Nat) (qos : Nat) : Nat × Client :=
  if s.state ≠ OPEN ∧ s.state ≠ DATA_SENT then (0, s)
  else
    let r := mqtt_subscribe_buf s topic qos
    enQ r.2.2 r.1 r.2.1 0

/-- Lines 665-676 of `mqtt_unsubscribe`: buffer, `buflen` and the client with the
packet-id counter advanced. -/
def mqtt_unsubscribe_buf (s : Client) (topic : List Nat) : List Nat × Nat × Client :=
  let len := (2 + 2 + os_strlen topic) % 65536
  let buflen := (1 + (if len < 128 then 1 else 2) + len) % 65536
  let buf := List.replicate buflen 0
  let p := 0
  let r := put_header buf p (UNSUBSCRIBE ||| 0x02) len
  let buf := r.1
  let p := p + r.2
  let s := { s with nextId := next_id s.nextId }
  let r := put_u16 buf p s.nextId
  let buf := r.1
  let p := p + r.2
  let r := put_string buf p topic
  (r.1, buflen, s)

/-- Source function `mqtt_unsubscribe`. -/
def mqtt_unsubscribe (s : Client) (topic : List Nat) : Nat × Client :=
  if s.state ≠ OPEN ∧ s.state ≠ DATA_SENT then (0, s)
  else
    let r := mqtt_unsubscribe_buf s topic
    enQ r.2.2 r.1 r.2.1 0

/-! ## Auxiliary notions used in the proofs -/

/-- Two clients that differ at most in the protothread continuation `lc`. -/
def same_but_lc (s s' : Client) : Prop := { s with lc := LC.start } = { s' with lc := LC.start }

/-- Two continuations that agree on clients equal up to `lc`, for at most `z` bytes. -/
def agree_upto (z : Nat) (k k' : Client → List Nat → Nat → Client) : Prop :=
  ∀ s s' d z', z' ≤ z → same_but_lc s s' → k s d z' = k' s' d z'

/-- What the next `recv_pt` call makes of the client a previous call returned: nothing
after the error exit (where `recv_cb` no longer calls `recv_pt`), a resumption otherwise. -/
def recv_next (s : Client) (c : List Nat) : Client :=
  if s.lc = LC.start then s else recv_pt s c c.length

/-- The continuation `recv_again nk`, fed `d ++ c` at once, does what `recv_again nk1` does
on `d` followed by a second call on `c`, for every `d` of at most `L` bytes. -/
def split_ok (L : Nat) (c : List Nat) (nk nk1 : Nat) : Prop :=
  ∀ (s : Client) (d : List Nat), d.length ≤ L →
    recv_again nk s (d ++ c) (d.length + c.length) = recv_next (recv_again nk1 s d d.length) c

/-- A precondition on the client at the start of a `recv_pt` call, and what it ensures at
every exit of the call: `Pre` survives the receiver's own bookkeeping and every accepted
frame, and each of the three exits (rejected frame, bad header, yield) establishes `Post`. -/
structure recv_spec (Pre Post : Client → Prop) : Prop where
  upd : ∀ (s : Client) (b type len pos : Nat) (rxbuf : Option (List Nat)) (rxlog : List RxCall),
    Pre s → Pre { s with b := b, type := type, len := len, pos := pos, rxbuf := rxbuf,
                         rxlog := rxlog }
  handle : ∀ (s : Client) (t l : Nat), Pre s → (handle_rxbuf s t l).1 ≠ 0 →
    Pre (handle_rxbuf s t l).2
  reject : ∀ (s : Client) (t l : Nat), Pre s → (handle_rxbuf s t l).1 = 0 →
    Post (recv_error (handle_rxbuf s t l).2)
  error : ∀ s : Client, Pre s → Post (recv_error s)
  yield : ∀ (s : Client) (y : LC), Pre s → y ≠ LC.start → Post { s with lc := y }

/-- The states in which `recv_cb` hands its chunk to `recv_pt`. -/
def conn_open (s : Client) : Prop :=
  s.state = CONNECTING ∨ s.state = OPEN ∨ s.state = DATA_SENT

/-- How a `recv_pt` call started with the connection up can end: through the error exit,
with `pt` re-initialised and the state `CLOSING`, or by a yield with the connection up. -/
def recv_exit (r : Client) : Prop :=
  (r.lc = LC.start ∧ r.state = CLOSING) ∨ (r.lc ≠ LC.start ∧ conn_open r)

/-- Chunks handed to `recv_pt` one call after the other. -/
def feed (s : Client) (chunks : List (List Nat)) : Client :=
  chunks.foldl (fun s c => recv_pt s c c.length) s

/-- Chunks delivered to `recv_cb` one call after the other. -/
def feed_cb (s : Client) (chunks : List (List Nat)) : Client :=
  chunks.foldl (fun s c => recv_cb s c c.length) s

/-- The nine packet types `recv_pt` lets through (lines 306-314). -/
def known_type (t : Nat) : Prop :=
  t &&& 0xF0 = CONNACK ∨ t &&& 0xF0 = PUBLISH ∨ t &&& 0xF0 = PUBACK ∨ t &&& 0xF0 = PUBREC ∨
  t &&& 0xF0 = PUBREL ∨ t &&& 0xF0 = PUBCOMP ∨ t &&& 0xF0 = SUBACK ∨ t &&& 0xF0 = UNSUBACK ∨
  t &&& 0xF0 = PINGRESP

/-- The statics of `recv_pt` and the receive buffer at the moment a frame with type byte
`t`, last length byte `b` and payload `pl` is complete and `handle_rxbuf` is about to run. -/
def frame_state (s : Client) (t b : Nat) (pl : List Nat) : Client :=
  if pl.length = 0 then { s with type := t, b := b, len := 0 }
  else { s with type := t, b := b, len := pl.length, pos := pl.length, rxbuf := some (pl ++ [0]) }

/-- A configuration used in the worked examples: keepalive 60 s, room for one queued frame. -/
def cfg_demo : mqtt_config :=
  { host := [], port := 1883, keepalive := 60, q_max := 1, client := some [0x63],
    user := none, pass := none, will_topic := none, will_message := none,
    will_qos := 0, will_retain := 0 }

/-- A fresh client of configuration `cfg_demo` put in connection state `st`. -/
def demo (st : ConnState) : Client := { Client.init cfg_demo with state := st }

/-- A client in state `DATA_SENT` whose queue already holds one PINGREQ-sized entry, with
`q_max = 1`. -/
def demo_queued : Client := { demo DATA_SENT with sendQ := [Q.mk [0xC0, 0] 2] }

/-- A client in state `DATA_SENT` with an empty queue and `q_max = 0`. -/
def demo_q0 : Client := { demo DATA_SENT with cfg := { cfg_demo with q_max := 0 } }

/-- The bytes `put_header` stores: the type byte and the one- or two-byte length. -/
def header_bytes (type len : Nat) : List Nat :=
  if len > 127 then [type, 0x80 + (len &&& 0x7f), (len >>> 7) % 256] else [type, len]

/-- The bytes `put_string` stores for a string of `l` bytes `t`. -/
def string_bytes (t : List Nat) : List Nat :=
  [t.length >>> 8, t.length &&& 0xff] ++ t

/-- A call of one of the three API functions that issue a packet identifier. -/
inductive ApiCall where
  | publish (topic msg : List Nat) (qos retain : Nat)
  | subscribe (topic : List Nat) (qos : Nat)
  | unsubscribe (topic : List Nat)
deriving DecidableEq, Repr

/-- The call itself. -/
def ApiCall.run (s : Client) : ApiCall → Nat × Client
  | ApiCall.publish topic msg qos retain => mqtt_publish s topic msg qos retain
  | ApiCall.subscribe topic qos => mqtt_subscribe s topic qos
  | ApiCall.unsubscribe topic => mqtt_unsubscribe s topic

/-- The buffer the call builds when the state lets it through. -/
def ApiCall.frame (s : Client) : ApiCall → List Nat
  | ApiCall.publish topic msg qos retain => (mqtt_publish_buf s topic msg qos retain).1
  | ApiCall.subscribe topic qos => (mqtt_subscribe_buf s topic qos).1
  | ApiCall.unsubscribe topic => (mqtt_unsubscribe_buf s topic).1

/-- Where in its buffer the call stores the packet identifier: behind the header, and for
a publish behind the topic string as well. -/
def ApiCall.id_pos : ApiCall → Nat
  | ApiCall.publish topic msg _ _ =>
    (if 2 + os_strlen topic + 2 + os_strlen msg > 127 then 3 else 2) + (2 + os_strlen topic)
  | ApiCall.subscribe topic _ => if 2 + 2 + os_strlen topic + 1 > 127 then 3 else 2
  | ApiCall.unsubscribe topic => if 2 + 2 + os_strlen topic > 127 then 3 else 2

/-- The identifier read back, big-endian, from the buffer the call builds. -/
def ApiCall.written_id (s : Client) (c : ApiCall) : Nat :=
  rd (c.frame s) c.id_pos * 256 + rd (c.frame s) (c.id_pos + 1)

/-- The calls that issue an identifier: a publish has `qos > 0`, and the strings are short
enough for the 16-bit lengths of the code (longer ones overflow the buffer). -/
def ApiCall.fits : ApiCall → Prop
  | ApiCall.publish topic msg qos _ => qos > 0 ∧ os_strlen topic + os_strlen msg ≤ 65528
  | ApiCall.subscribe topic _ => os_strlen topic ≤ 65527
  | ApiCall.unsubscribe topic => os_strlen topic ≤ 65528

/-- The identifiers written by a sequence of calls, each made on the client the previous
one left. -/
def issued_ids : Client → List ApiCall → List Nat
  | _, [] => []
  | s, c :: cs => c.written_id s :: issued_ids (c.run s).2 cs

/-- A client in state `OPEN` whose packet-id counter stands at 65534. -/
def demo_wrap : Client := { demo OPEN with nextId := 65534 }

/-- What can happen to the client: the four API calls, the transport callbacks registered
in `dns_cb`, the answer of the resolver, and the expiry of the two one-shot timers. -/
inductive Event where
  | connect (r : DnsAnswer)
  | dns (ipaddr : Bool)
  | connected
  | received (data : List Nat) (size : Nat)
  | sent
  | disconnected
  | reconnect_failed
  | timeout
  | keepalive
  | publish (topic msg : List Nat) (qos retain : Nat)
  | subscribe (topic : List Nat) (qos : Nat)
  | unsubscribe (topic : List Nat)
deriving DecidableEq, Repr

/-- The client after one event. A timer event does something only while that timer is
armed, and a timer armed without repeat is no longer armed when its callback runs. -/
def step (s : Client) : Event → Client
  | Event.connect r => (mqtt_connect s r).2
  | Event.dns ipaddr => dns_cb s ipaddr
  | Event.connected => connect_cb s
  | Event.received data size => recv_cb s data size
  | Event.sent => sent_cb s
  | Event.disconnected => discon_cb s
  | Event.reconnect_failed => recon_cb s
  | Event.timeout =>
    match s.tmr_timeout with
    | none => s
    | some _ => timeout_cb { s with tmr_timeout := none }
  | Event.keepalive =>
    match s.tmr_keepalive with
    | none => s
    | some _ => keepalive_cb { s with tmr_keepalive := none }
  | Event.publish topic msg qos retain => (mqtt_publish s topic msg qos retain).2
  | Event.subscribe topic qos => (mqtt_subscribe s topic qos).2
  | Event.unsubscribe topic => (mqtt_unsubscribe s topic).2

/-- The client after a sequence of events. -/
def run (s : Client) (es : List Event) : Client := es.foldl step s

/-- The number of `sched(mqtt_open_cb, 0)` calls made so far. -/
def opened (s : Client) : Nat := s.scheduled.count Sched.mqtt_open_cb

/-- The connection is past `CONNECTING` and `mqtt_open_cb` was scheduled `c` times. -/
def opened_is (c : Nat) (s : Client) : Prop := s.state ≠ CONNECTING ∧ opened s = c

/-- The length field `hdr` (one byte, or two with the continuation bit set in the first)
is one that `recv_pt` decodes to `L` (lines 322-328). -/
def length_field (hdr : List Nat) (L : Nat) : Prop :=
  (hdr = [L] ∧ L < 128) ∨
  (∃ b1 b2, hdr = [b1, b2] ∧ b1 &&& 0x80 ≠ 0 ∧ ((b1 &&& 0x7f) ||| (b2 <<< 7)) % 65536 = L)

/-- What the error exit of `recv_pt` leaves of a client `s`: state `CLOSING`, no receive
buffer, both timers disarmed, one `sched_espconn_disconnect` more, and the queue, the frames
sent and the two host callbacks' records as they were. -/
def closed_by_error (s r : Client) : Prop :=
  r.state = CLOSING ∧ r.rxbuf = none ∧ r.tmr_timeout = none ∧ r.tmr_keepalive = none ∧
  r.scheduled = s.scheduled ++ [Sched.espconn_disconnect] ∧ r.published = s.published ∧
  r.sendQ = s.sendQ ∧ r.sent = s.sent ∧ r.nextId = s.nextId

/-- The sends the transport has not confirmed yet, oldest first, after event `e` happened
to client `s`: `true` marks a queue entry handed over by `sendFromQ`, `false` a frame that
`connect_cb` or `keepalive_cb` passed to `espconn_send` directly. A send-complete event
confirms the oldest send, a disconnect drops them all. -/
def unconfirmed (s : Client) (e : Event) (pending : List Bool) : List Bool :=
  let kept :=
    match e with
    | Event.sent => pending.tail
    | Event.disconnected => []
    | Event.reconnect_failed => []
    | _ => pending
  let direct :=
    match e with
    | Event.connected => true
    | Event.keepalive => true
    | _ => false
  kept ++ List.replicate ((step s e).sent.length - s.sent.length) (!direct)

/-- The unconfirmed sends after a sequence of events. -/
def in_flight : Client → List Bool → List Event → List Bool
  | _, p, [] => p
  | s, p, e :: es => in_flight (step s e) (unconfirmed s e p) es

/-- Every send-complete event of the sequence has a send to confirm. -/
def confirms_own : Client → List Bool → List Event → Bool
  | _, _, [] => true
  | s, p, e :: es =>
    (decide (e ≠ Event.sent) || !p.isEmpty) && confirms_own (step s e) (unconfirmed s e p) es

/-- A session in which the keepalive timer expires just before two publishes: connect,
CONNECT confirmed, CONNACK, PINGREQ, publish "1", publish "2", PINGREQ confirmed. -/
def ping_race : List Event :=
  [Event.connect DnsAnswer.ESPCONN_OK, Event.connected, Event.sent,
   Event.received [0x20, 2, 0, 0] 4, Event.keepalive,
   Event.publish [0x74] [0x31] 0 0, Event.publish [0x74] [0x32] 0 0, Event.sent]

/-- What the send queue sees within one connection: a frame offered to `enQ`, or the
transport reporting a send as complete (`sent_cb`). -/
inductive QOp where
  | enq (data : List Nat) (len force : Nat)
  | sent
deriving DecidableEq, Repr

/-- The client after one queue operation. -/
def QOp.step (s : Client) : QOp → Client
  | QOp.enq data len force => (enQ s data len force).2
  | QOp.sent => sent_cb s

/-- The client after a sequence of queue operations. -/
def qrun (s : Client) (ops : List QOp) : Client := ops.foldl QOp.step s

/-- The frames for which `enQ` returned 1, in the order of the calls. -/
def accepted : Client → List QOp → List Q
  | _, [] => []
  | s, QOp.enq data len force :: ops =>
    (if (enQ s data len force).1 = 1 then [Q.mk data len] else []) ++
      accepted (enQ s data len force).2 ops
  | s, QOp.sent :: ops => accepted (sent_cb s) ops

/-- The remaining length `recv_pt` decodes from the length field of a frame (lines 322-328):
the second byte, or, when its bit 7 is set, its low seven bits and the third byte above. -/
def decoded_len (frame : List Nat) : Nat :=
  if rd frame 1 &&& 0x80 = 0 then rd frame 1
  else ((rd frame 1 &&& 0x7f) ||| (rd frame 2 <<< 7)) % 65536

/-- The `len` the call computes for its frame (lines 610-613, 639-642, 665-667). -/
def ApiCall.len : ApiCall → Nat
  | ApiCall.publish topic msg qos _ =>
    2 + os_strlen topic + (if qos > 0 then 2 else 0) + os_strlen msg
  | ApiCall.subscribe topic _ => 2 + 2 + os_strlen topic + 1
  | ApiCall.unsubscribe topic => 2 + 2 + os_strlen topic

/-- The `buflen` the call allocates and passes to `enQ`. -/
def ApiCall.buflen (s : Client) : ApiCall → Nat
  | ApiCall.publish topic msg qos retain => (mqtt_publish_buf s topic msg qos retain).2.1
  | ApiCall.subscribe topic qos => (mqtt_subscribe_buf s topic qos).2.1
  | ApiCall.unsubscribe topic => (mqtt_unsubscribe_buf s topic).2.1

/-- The client the call passes on to `enQ`: `s` with the packet-id counter advanced when
the call issues an identifier. -/
def ApiCall.after (s : Client) : ApiCall → Client
  | ApiCall.publish topic msg qos retain => (mqtt_publish_buf s topic msg qos retain).2.2
  | ApiCall.subscribe topic qos => (mqtt_subscribe_buf s topic qos).2.2
  | ApiCall.unsubscribe topic => (mqtt_unsubscribe_buf s topic).2.2

/-- The configuration `cfg_demo` with a will: topic "w", message "m", and the given QoS. -/
def cfg_will (will_qos : Nat) : mqtt_config :=
  { cfg_demo with will_topic := some [0x77], will_message := some [0x6D], will_qos := will_qos }

/-- The offsets from `rxbuf` at which the PUBLISH case of `handle_rxbuf` (lines 197-243)
touches the receive buffer, in program order: the reads `p[0]`, `p[1]` of the topic length,
the reads `p[0]`, `p[1]` of the packet id when `qos > 0`, and the stores through
`topic_end` and `msg_end`. Each early `return` of the case comes before the accesses that
follow it in the source. -/
def handle_rxbuf_accesses (s : Client) (type len : Nat) : List Nat :=
  let rxbuf := s.rxbuf.getD []
  if (s.state ≠ OPEN ∧ s.state ≠ DATA_SENT) ∨ len < 4 then []
  else if type &&& 0x08 ≠ 0 then []
  else
    let qos := (type >>> 1) &&& 0x03
    let topic_len := ((rd rxbuf 0 <<< 8) ||| rd rxbuf 1) % 65536
    let p := 2
    let len := len - 2
    if topic_len > len then [0, 1]
    else
      let topic_end := p + topic_len
      let p := p + topic_len
      let len := len - topic_len
      if qos > 0 ∧ len < 2 then [0, 1]
      else
        let id := if qos > 0 then [p, p + 1] else []
        let len := if qos > 0 then len - 2 else len
        let p := if qos > 0 then p + 2 else p
        let msg_end := p + len
        [0, 1] ++ id ++ [topic_end, msg_end]

end Mqtt

namespace Mqtt

open ConnState

/-! # Lemmas -/

theorem enQ_walk_eq (q_max force : Nat) (e : Q) (l : List Q) (c : Nat) :
    enQ_walk q_max force e l c =
      if force = 0 ∧ l ≠ [] ∧ c + l.length ≥ q_max then none else some (l ++ [e]) := by
  induction l generalizing c with
  | nil => simp [enQ_walk]
  | cons x rest ih =>
    rw [enQ_walk, ih]
    by_cases hf : force = 0
    · by_cases h1 : c + 1 ≥ q_max
      · have : c + (rest.length + 1) ≥ q_max := by omega
        simp [hf, h1, this]
      · by_cases h2 : rest = []
        · subst h2; simp [hf, h1]
        · by_cases h3 : c + 1 + rest.length ≥ q_max
          · have : c + (rest.length + 1) ≥ q_max := by omega
            simp [hf, h1, h2, h3, this]
          · have : ¬ c + (rest.length + 1) ≥ q_max := by omega
            simp only [hf, h1, h2, h3, this, List.length_cons]
            simp
    · simp [hf]

theorem enQ_eq (s : Client) (data : List Nat) (len force : Nat) :
    enQ s data len force =
      if force = 0 ∧ 1 ≤ s.sendQ.length ∧ s.cfg.q_max ≤ s.sendQ.length then (0, s)
      else (1, sendFromQ { s with sendQ := s.sendQ ++ [Q.mk data len] }) := by
  unfold enQ
  rw [enQ_walk_eq]
  have h : s.sendQ ≠ [] ↔ 1 ≤ s.sendQ.length := by
    cases s.sendQ <;> simp
  by_cases hc : force = 0 ∧ 1 ≤ s.sendQ.length ∧ s.cfg.q_max ≤ s.sendQ.length
  · have : force = 0 ∧ s.sendQ ≠ [] ∧ 0 + s.sendQ.length ≥ s.cfg.q_max := by
      refine ⟨hc.1, h.2 hc.2.1, ?_⟩; omega
    rw [if_pos this, if_pos hc]
  · have : ¬ (force = 0 ∧ s.sendQ ≠ [] ∧ 0 + s.sendQ.length ≥ s.cfg.q_max) := by
      rintro ⟨a, b, c⟩; exact hc ⟨a, h.1 b, by omega⟩
    rw [if_neg this, if_neg hc]

theorem sendFromQ_outflow (s : Client) :
    (sendFromQ s).sent ++ (sendFromQ s).sendQ = s.sent ++ s.sendQ := by
  unfold sendFromQ
  split
  · rfl
  · rename_i q next h
    split
    · rfl
    · simp [h]

theorem be16_eq (x : Nat) (h : x < 65536) : ((x / 256) <<< 8 ||| (x % 256)) % 65536 = x := by
  have h1 : x % 256 < 2 ^ 8 := by have := Nat.mod_lt x (show 256 > 0 by decide); omega
  have h2 := Nat.mul_add_lt_is_or h1 (x / 256)
  rw [Nat.shiftLeft_eq, Nat.mul_comm, ← h2]
  have : 2 ^ 8 * (x / 256) + x % 256 = x := by
    have := Nat.div_add_mod x 256
    omega
  rw [this]; exact Nat.mod_eq_of_lt h

theorem rd_append_right (l1 l2 : List Nat) (i : Nat) : rd (l1 ++ l2) (l1.length + i) = rd l2 i := by
  unfold rd
  induction l1 with
  | nil => simp
  | cons x l ih =>
    have : (x :: l).length + i = (l.length + i) + 1 := by simp; omega
    rw [this]; simpa using ih

theorem rd_append_left (l1 l2 : List Nat) (i : Nat) (h : i < l1.length) :
    rd (l1 ++ l2) i = rd l1 i := by
  unfold rd
  simp [List.getD_eq_getElem?_getD, List.getElem?_append_left h]

theorem enQ_forced (s : Client) (data : List Nat) (len : Nat) :
    enQ s data len 1 = (1, sendFromQ { s with sendQ := s.sendQ ++ [Q.mk data len] }) := by
  rw [enQ_eq]; simp

theorem rd_skip (a b : Nat) (topic rest : List Nat) (j : Nat) :
    rd (a :: b :: (topic ++ rest)) (2 + topic.length + j) = rd rest j := by
  have h := rd_append_right ([a, b] ++ topic) rest j
  have e : ([a, b] ++ topic).length + j = 2 + topic.length + j := by simp; omega
  rw [e] at h
  simpa using h

theorem same_but_lc_elim {s s' : Client} (h : same_but_lc s s') : s' = { s with lc := s'.lc } := by
  obtain ⟨cfg, state, lc, b, type, len, pos, rxbuf, sendQ, nextId, t1, t2, sent, sch, pub, con, rxl⟩ := s
  obtain ⟨cfg', state', lc', b', type', len', pos', rxbuf', sendQ', nextId', t1', t2', sent', sch', pub', con', rxl'⟩ := s'
  simp only [same_but_lc, Client.mk.injEq] at h
  obtain ⟨rfl, rfl, -, rfl, rfl, rfl, rfl, rfl, rfl, rfl, rfl, rfl, rfl, rfl, rfl, rfl, rfl⟩ := h
  rfl

theorem same_but_lc_set (s : Client) (x : LC) : same_but_lc s { s with lc := x } := rfl

theorem sendFromQ_lc (s : Client) (x : LC) :
    sendFromQ { s with lc := x } = { sendFromQ s with lc := x } := by
  obtain ⟨cfg, state, lc, b, type, len, pos, rxbuf, sendQ, nextId, t1, t2, sent, sch, pub, con, rxl⟩ := s
  cases sendQ with
  | nil => rfl
  | cons q next =>
    simp only [sendFromQ]
    split_ifs <;> rfl

theorem sendFromQ_sbl {s s' : Client} (h : same_but_lc s s') :
    same_but_lc (sendFromQ s) (sendFromQ s') := by
  obtain ⟨x, rfl⟩ : ∃ x, s' = { s with lc := x } := ⟨_, same_but_lc_elim h⟩
  rw [sendFromQ_lc s x]
  rfl

theorem enQ_sbl {s s' : Client} (h : same_but_lc s s') (data : List Nat) (len force : Nat) :
    (enQ s data len force).1 = (enQ s' data len force).1 ∧
    same_but_lc (enQ s data len force).2 (enQ s' data len force).2 := by
  obtain ⟨x, rfl⟩ : ∃ x, s' = { s with lc := x } := ⟨_, same_but_lc_elim h⟩
  unfold enQ
  show (match enQ_walk s.cfg.q_max force (Q.mk data len) s.sendQ 0 with
    | none => (0, s)
    | some l => (1, sendFromQ { s with sendQ := l })).1 =
    (match enQ_walk s.cfg.q_max force (Q.mk data len) s.sendQ 0 with
    | none => (0, { s with lc := x })
    | some l => (1, sendFromQ { { s with lc := x } with sendQ := l })).1 ∧ same_but_lc
    (match enQ_walk s.cfg.q_max force (Q.mk data len) s.sendQ 0 with
    | none => (0, s)
    | some l => (1, sendFromQ { s with sendQ := l })).2
    (match enQ_walk s.cfg.q_max force (Q.mk data len) s.sendQ 0 with
    | none => (0, { s with lc := x })
    | some l => (1, sendFromQ { { s with lc := x } with sendQ := l })).2
  cases enQ_walk s.cfg.q_max force (Q.mk data len) s.sendQ 0 with
  | none => exact ⟨rfl, rfl⟩
  | some l => exact ⟨rfl, sendFromQ_sbl rfl⟩

theorem handle_rxbuf_sbl {s s' : Client} (h : same_but_lc s s') (type len : Nat) :
    (handle_rxbuf s type len).1 = (handle_rxbuf s' type len).1 ∧
    same_but_lc (handle_rxbuf s type len).2 (handle_rxbuf s' type len).2 := by
  obtain ⟨x, rfl⟩ : ∃ x, s' = { s with lc := x } := ⟨_, same_but_lc_elim h⟩
  unfold handle_rxbuf
  simp only []
  by_cases h1 : type &&& 0xF0 = CONNACK
  · simp only [if_pos h1]
    by_cases h2 : s.state = CONNECTING ∧ len = 2 ∧ rd (s.rxbuf.getD []) 1 = 0
    · simp only [if_pos h2]; exact ⟨trivial, rfl⟩
    · simp only [if_neg h2]; exact ⟨trivial, rfl⟩
  · simp only [if_neg h1]
    by_cases h2 : type &&& 0xF0 = PUBLISH
    · simp only [if_pos h2]
      by_cases h3 : (s.state ≠ OPEN ∧ s.state ≠ DATA_SENT) ∨ len < 4
      · simp only [if_pos h3]; exact ⟨trivial, rfl⟩
      · simp only [if_neg h3]
        by_cases h4 : type &&& 0x08 ≠ 0
        · simp only [if_pos h4]; exact ⟨trivial, rfl⟩
        · simp only [if_neg h4]
          by_cases h5 : ((rd (s.rxbuf.getD []) 0 <<< 8) ||| rd (s.rxbuf.getD []) 1) % 65536 > len - 2
          · simp only [if_pos h5]; exact ⟨trivial, rfl⟩
          · simp only [if_neg h5]
            by_cases h6 : (type >>> 1) &&& 0x03 > 0 ∧
                len - 2 - ((rd (s.rxbuf.getD []) 0 <<< 8) ||| rd (s.rxbuf.getD []) 1) % 65536 < 2
            · simp only [if_pos h6]; exact ⟨trivial, rfl⟩
            · simp only [if_neg h6]
              by_cases h7 : (type >>> 1) &&& 0x03 > 0
              · simp only [if_pos h7]
                first | exact ⟨trivial, rfl⟩ | exact ⟨rfl, rfl⟩ | exact ⟨trivial, (enQ_sbl (same_but_lc_set _ x) _ _ _).2⟩
              · simp only [if_neg h7]; exact ⟨trivial, rfl⟩
    · simp only [if_neg h2]
      by_cases h3 : type &&& 0xF0 = PUBREC ∨ type &&& 0xF0 = PUBREL
      · simp only [if_pos h3]
        by_cases h4 : len = 2
        · simp only [if_pos h4]
          first | exact ⟨trivial, rfl⟩ | exact ⟨rfl, rfl⟩ | exact ⟨trivial, (enQ_sbl (same_but_lc_set _ x) _ _ _).2⟩
        · simp only [if_neg h4]; exact ⟨trivial, rfl⟩
      · simp only [if_neg h3]
        split_ifs <;> first | exact ⟨trivial, rfl⟩ | exact ⟨rfl, rfl⟩

theorem agree_upto_mono {z z' : Nat} {k k' : Client → List Nat → Nat → Client}
    (h : agree_upto z k k') (hz : z' ≤ z) : agree_upto z' k k' :=
  fun s s' d z'' hz'' hs => h s s' d z'' (Nat.le_trans hz'' hz) hs

theorem recv_error_sbl {s s' : Client} (h : same_but_lc s s') : recv_error s = recv_error s' := by
  obtain ⟨x, rfl⟩ : ∃ x, s' = { s with lc := x } := ⟨_, same_but_lc_elim h⟩
  rfl

theorem same_but_lc_free {s s' : Client} (h : same_but_lc s s') :
    same_but_lc { s with rxbuf := none } { s' with rxbuf := none } := by
  obtain ⟨x, rfl⟩ : ∃ x, s' = { s with lc := x } := ⟨_, same_but_lc_elim h⟩
  rfl

theorem recv_handle_congr {z : Nat} {k k' : Client → List Nat → Nat → Client}
    (hk : agree_upto z k k') {s s' : Client} (h : same_but_lc s s') (d : List Nat) :
    recv_handle k s d z = recv_handle k' s' d z := by
  obtain ⟨x, rfl⟩ : ∃ x, s' = { s with lc := x } := ⟨_, same_but_lc_elim h⟩
  unfold recv_handle
  simp only []
  have hr := handle_rxbuf_sbl (same_but_lc_set
    { s with rxlog := s.rxlog ++ [RxCall.mk s.type s.len ((s.rxbuf.getD []).take s.len)] } x)
    s.type s.len
  obtain ⟨h1, h2⟩ := hr
  rw [← h1]
  split_ifs
  · exact recv_error_sbl h2
  · exact hk _ _ _ _ (Nat.le_refl _) (same_but_lc_free h2)

theorem recv_copy_sbl {s s' : Client} (h : same_but_lc s s') (d : List Nat) (z : Nat) :
    same_but_lc (recv_copy s d z) (recv_copy s' d z) := by
  obtain ⟨x, rfl⟩ : ∃ x, s' = { s with lc := x } := ⟨_, same_but_lc_elim h⟩
  rfl

theorem recv_loop_congr {k k' : Client → List Nat → Nat → Client} (n : Nat) :
    ∀ (n' z : Nat) (s s' : Client) (d : List Nat), agree_upto z k k' → z + 1 ≤ n → z + 1 ≤ n' →
      same_but_lc s s' → recv_loop k n s d z = recv_loop k' n' s' d z := by
  induction n with
  | zero => intro n' z s s' d _ h; omega
  | succ n ih =>
    intro n' z s s' d hk hn hn' h
    obtain ⟨m, rfl⟩ : ∃ m, n' = m + 1 := ⟨n' - 1, by omega⟩
    have hc := recv_copy_sbl h d z
    obtain ⟨x, rfl⟩ : ∃ x, s' = { s with lc := x } := ⟨_, same_but_lc_elim h⟩
    simp only [recv_loop]
    by_cases h1 : s.pos < s.len
    · simp only [if_pos h1]
      by_cases h2 : z = 0
      · simp only [if_pos h2]
      · simp only [if_neg h2]
        have hl : 1 ≤ min (s.len - s.pos) z := by
          have : 1 ≤ s.len - s.pos := by omega
          exact Nat.le_min.2 ⟨this, by omega⟩
        have hl2 : min (s.len - s.pos) z ≤ z := Nat.min_le_right _ _
        exact ih m (z - min (s.len - s.pos) z) _ _ _
          (agree_upto_mono hk (Nat.sub_le _ _)) (by omega) (by omega) hc
    · simp only [if_neg h1]
      exact recv_handle_congr hk (same_but_lc_set s x) d

theorem recv_body_congr {z n n' : Nat} {k k' : Client → List Nat → Nat → Client}
    (hk : agree_upto z k k') (hn : z + 1 ≤ n) (hn' : z + 1 ≤ n') {s s' : Client}
    (h : same_but_lc s s') (d : List Nat) :
    recv_body k n s d z = recv_body k' n' s' d z := by
  obtain ⟨x, rfl⟩ : ∃ x, s' = { s with lc := x } := ⟨_, same_but_lc_elim h⟩
  unfold recv_body
  simp only []
  split_ifs
  · rfl
  · exact recv_loop_congr n n' z _ _ d hk hn hn' (same_but_lc_set _ x)
  · exact recv_handle_congr hk (same_but_lc_set s x) d

theorem recv_len2_congr {z n n' : Nat} {k k' : Client → List Nat → Nat → Client}
    (hk : agree_upto z k k') (hn : z + 1 ≤ n) (hn' : z + 1 ≤ n') {s s' : Client}
    (h : same_but_lc s s') (d : List Nat) :
    recv_len2 k n s d z = recv_len2 k' n' s' d z := by
  obtain ⟨x, rfl⟩ : ∃ x, s' = { s with lc := x } := ⟨_, same_but_lc_elim h⟩
  unfold recv_len2
  exact recv_body_congr hk hn hn' (same_but_lc_set _ x) d

theorem recv_len1_congr {z n n' : Nat} {k k' : Client → List Nat → Nat → Client}
    (hk : agree_upto z k k') (hn : z + 1 ≤ n) (hn' : z + 1 ≤ n') {s s' : Client}
    (h : same_but_lc s s') (d : List Nat) :
    recv_len1 k n s d z = recv_len1 k' n' s' d z := by
  obtain ⟨x, rfl⟩ : ∃ x, s' = { s with lc := x } := ⟨_, same_but_lc_elim h⟩
  unfold recv_len1
  simp only []
  split_ifs
  · exact recv_body_congr hk hn hn' (same_but_lc_set _ x) d
  · rfl
  · exact recv_len2_congr (agree_upto_mono hk (Nat.sub_le _ _)) (by omega) (by omega)
      (same_but_lc_set _ x) _

theorem recv_type_congr {z n n' : Nat} {k k' : Client → List Nat → Nat → Client}
    (hk : agree_upto z k k') (hn : z + 1 ≤ n) (hn' : z + 1 ≤ n') {s s' : Client}
    (h : same_but_lc s s') (d : List Nat) :
    recv_type k n s d z = recv_type k' n' s' d z := by
  obtain ⟨x, rfl⟩ : ∃ x, s' = { s with lc := x } := ⟨_, same_but_lc_elim h⟩
  unfold recv_type
  simp only []
  split_ifs
  · rfl
  · rfl
  · exact recv_len1_congr (agree_upto_mono hk (Nat.sub_le _ _)) (by omega) (by omega)
      (same_but_lc_set _ x) _

theorem recv_again_congr (n : Nat) :
    ∀ (n' z : Nat) (s s' : Client) (d : List Nat), z + 1 ≤ n → z + 1 ≤ n' →
      same_but_lc s s' → recv_again n s d z = recv_again n' s' d z := by
  induction n with
  | zero => intro n' z s s' d h; omega
  | succ n ih =>
    intro n' z s s' d hn hn' h
    obtain ⟨m, rfl⟩ : ∃ m, n' = m + 1 := ⟨n' - 1, by omega⟩
    obtain ⟨x, rfl⟩ : ∃ x, s' = { s with lc := x } := ⟨_, same_but_lc_elim h⟩
    simp only [recv_again]
    by_cases h2 : z = 0
    · simp only [if_pos h2]
    · simp only [if_neg h2]
      have hk : agree_upto (z - 1) (recv_again n) (recv_again m) :=
        fun a a' d' z' hz' ha => ih m z' a a' d' (by omega) (by omega) ha
      exact recv_type_congr hk (by omega) (by omega) (same_but_lc_set _ x) _

theorem memcpy_append_left (l : Nat) : ∀ (dst : List Nat) (p : Nat) (a b : List Nat),
    l ≤ a.length → memcpy dst p (a ++ b) l = memcpy dst p a l := by
  induction l with
  | zero => intro dst p a b _; rfl
  | succ l ih =>
    intro dst p a b h
    cases a with
    | nil => simp at h
    | cons x a =>
      simp only [memcpy, List.cons_append, List.headD_cons, List.tail_cons]
      exact ih _ _ _ _ (by simpa using h)

theorem memcpy_append (a : List Nat) : ∀ (dst : List Nat) (p : Nat) (b : List Nat) (m : Nat),
    memcpy dst p (a ++ b) (a.length + m) = memcpy (memcpy dst p a a.length) (p + a.length) b m := by
  induction a with
  | nil => intro dst p b m; simp [memcpy]
  | cons x a ih =>
    intro dst p b m
    have e : (x :: a).length + m = (a.length + m) + 1 := by simp; omega
    rw [e]
    simp only [memcpy, List.cons_append, List.headD_cons, List.tail_cons, List.length_cons]
    rw [ih]
    have e2 : p + 1 + a.length = p + (a.length + 1) := by omega
    rw [e2]

theorem recv_copy_zero (s : Client) (d : List Nat) : recv_copy s d 0 = s := by
  obtain ⟨cfg, state, lc, b, type, len, pos, rxbuf, sendQ, nextId, t1, t2, sent, sch, pub, con, rxl⟩ := s
  cases rxbuf <;> simp [recv_copy, memcpy]

theorem recv_copy_append_left (s : Client) (d1 c2 : List Nat) (h : s.len - s.pos ≤ d1.length) :
    recv_copy s (d1 ++ c2) (d1.length + c2.length) = recv_copy s d1 d1.length := by
  unfold recv_copy
  have e1 : min (s.len - s.pos) (d1.length + c2.length) = s.len - s.pos := by omega
  have e2 : min (s.len - s.pos) d1.length = s.len - s.pos := by omega
  simp only [e1, e2]
  congr 1
  cases s.rxbuf with
  | none => rfl
  | some buf => simp only [Option.map_some']; rw [memcpy_append_left _ _ _ _ _ h]

theorem recv_copy_append (s : Client) (d1 c2 : List Nat) (h : d1.length < s.len - s.pos) :
    recv_copy s (d1 ++ c2) (d1.length + c2.length) =
      recv_copy (recv_copy s d1 d1.length) c2 c2.length := by
  unfold recv_copy
  have e1 : min (s.len - s.pos) (d1.length + c2.length) =
      d1.length + min (s.len - (s.pos + d1.length)) c2.length := by omega
  have e2 : min (s.len - s.pos) d1.length = d1.length := by omega
  simp only [e1, e2]
  obtain ⟨cfg, state, lc, b, type, len, pos, rxbuf, sendQ, nextId, t1, t2, sent, sch, pub, con, rxl⟩ := s
  cases rxbuf with
  | none => simp [Nat.add_assoc]
  | some buf => simp [Nat.add_assoc, memcpy_append]

theorem recv_copy_pos (s : Client) (d : List Nat) (z : Nat) :
    (recv_copy s d z).pos = s.pos + min (s.len - s.pos) z := rfl

theorem recv_copy_len (s : Client) (d : List Nat) (z : Nat) : (recv_copy s d z).len = s.len := rfl

theorem recv_loop_succ (k : Client → List Nat → Nat → Client) (n : Nat) (s : Client)
    (d : List Nat) (z : Nat) :
    recv_loop k (n + 1) s d z =
      if s.pos < s.len then
        if z = 0 then { s with lc := LC.y_data }
        else recv_loop k n (recv_copy s d z) (d.drop (min (s.len - s.pos) z))
          (z - min (s.len - s.pos) z)
      else recv_handle k s d z := rfl

theorem recv_loop_two (k : Client → List Nat → Nat → Client) (n : Nat) (s : Client)
    (d : List Nat) (z : Nat) :
    recv_loop k (n + 2) s d z =
      if s.pos < s.len then
        if z = 0 then { s with lc := LC.y_data }
        else if s.len - s.pos ≤ z then
          recv_handle k (recv_copy s d z) (d.drop (s.len - s.pos)) (z - (s.len - s.pos))
        else { recv_copy s d z with lc := LC.y_data }
      else recv_handle k s d z := by
  simp only [recv_loop]
  by_cases h1 : s.pos < s.len
  · simp only [if_pos h1]
    by_cases h2 : z = 0
    · simp only [if_pos h2]
    · simp only [if_neg h2]
      by_cases h3 : s.len - s.pos ≤ z
      · have e : min (s.len - s.pos) z = s.len - s.pos := by omega
        have h4 : ¬ (recv_copy s d z).pos < (recv_copy s d z).len := by
          rw [recv_copy_pos, recv_copy_len]; omega
        simp only [if_pos h3, if_neg h4, e]
      · have e : min (s.len - s.pos) z = z := by omega
        have h4 : (recv_copy s d z).pos < (recv_copy s d z).len := by
          rw [recv_copy_pos, recv_copy_len]; omega
        simp only [if_neg h3, if_pos h4, e, Nat.sub_self, if_true]
  · simp only [if_neg h1]

theorem same_but_lc_yield {s s' : Client} (h : same_but_lc s s') (y : LC) :
    ({ s with lc := y } : Client) = { s' with lc := y } := by
  obtain ⟨x, rfl⟩ : ∃ x, s' = { s with lc := x } := ⟨_, same_but_lc_elim h⟩
  rfl

theorem recv_next_error (s : Client) (c : List Nat) : recv_next (recv_error s) c = recv_error s := by
  simp [recv_next, recv_error]

theorem agree_again {z n n' : Nat} (hn : z + 1 ≤ n) (hn' : z + 1 ≤ n') :
    agree_upto z (recv_again n) (recv_again n') :=
  fun s s' d z' hz hs => recv_again_congr n n' z' s s' d (by omega) (by omega) hs

theorem length_pos_of_ne_nil {c : List Nat} (hc : c ≠ []) : 1 ≤ c.length := by
  cases c with
  | nil => exact absurd rfl hc
  | cons x c => simp

theorem dec16_length {c : List Nat} (hc : c ≠ []) : dec16 c.length = c.length - 1 := by
  have := length_pos_of_ne_nil hc
  unfold dec16
  rw [if_neg (by omega)]

/-! ### Resuming after a yield -/

theorem recv_next_y_type (s : Client) {c : List Nat} (hc : c ≠ []) {nk n : Nat}
    (hnk : c.length ≤ nk) (hn : c.length ≤ n) :
    recv_next { s with lc := LC.y_type } c =
      recv_type (recv_again nk) n { s with type := c.headD 0 } c.tail (c.length - 1) := by
  have hl := length_pos_of_ne_nil hc
  have hlc : ({ s with lc := LC.y_type } : Client).lc ≠ LC.start := by simp
  simp only [recv_next, if_neg hlc, recv_pt, dec16_length hc]
  exact recv_type_congr (agree_again (by omega) (by omega)) (by omega) (by omega)
    (same_but_lc_set { s with type := c.headD 0 } LC.y_type).symm _

theorem recv_next_y_len1 (s : Client) {c : List Nat} (hc : c ≠ []) {nk n : Nat}
    (hnk : c.length ≤ nk) (hn : c.length ≤ n) :
    recv_next { s with lc := LC.y_len1 } c =
      recv_len1 (recv_again nk) n { s with b := c.headD 0 } c.tail (c.length - 1) := by
  have hl := length_pos_of_ne_nil hc
  have hlc : ({ s with lc := LC.y_len1 } : Client).lc ≠ LC.start := by simp
  simp only [recv_next, if_neg hlc, recv_pt, dec16_length hc]
  exact recv_len1_congr (agree_again (by omega) (by omega)) (by omega) (by omega)
    (same_but_lc_set { s with b := c.headD 0 } LC.y_len1).symm _

theorem recv_next_y_len2 (s : Client) {c : List Nat} (hc : c ≠ []) {nk n : Nat}
    (hnk : c.length ≤ nk) (hn : c.length ≤ n) :
    recv_next { s with lc := LC.y_len2 } c =
      recv_len2 (recv_again nk) n { s with b := c.headD 0 } c.tail (c.length - 1) := by
  have hl := length_pos_of_ne_nil hc
  have hlc : ({ s with lc := LC.y_len2 } : Client).lc ≠ LC.start := by simp
  simp only [recv_next, if_neg hlc, recv_pt, dec16_length hc]
  exact recv_len2_congr (agree_again (by omega) (by omega)) (by omega) (by omega)
    (same_but_lc_set { s with b := c.headD 0 } LC.y_len2).symm _

theorem recv_next_y_data (s : Client) {c : List Nat} (hc : c ≠ []) (hp : s.pos < s.len)
    {nk n : Nat} (hnk : c.length + 1 ≤ nk) (hn : c.length + 1 ≤ n) :
    recv_next { s with lc := LC.y_data } c = recv_loop (recv_again nk) n s c c.length := by
  have hl := length_pos_of_ne_nil hc
  have hlc : ({ s with lc := LC.y_data } : Client).lc ≠ LC.start := by simp
  obtain ⟨m, rfl⟩ : ∃ m, n = m + 1 := ⟨n - 1, by omega⟩
  have hz : ¬ c.length = 0 := by omega
  rw [recv_loop_succ (recv_again nk) m s c]
  simp only [recv_next, if_neg hlc, recv_pt, if_pos hp, if_neg hz]
  have hmin : 1 ≤ min (s.len - s.pos) c.length := by omega
  refine recv_loop_congr _ _ _ _ _ _ (agree_again ?_ ?_) ?_ ?_
    (recv_copy_sbl (same_but_lc_set s LC.y_data) c c.length).symm <;> omega

theorem split_ok_mono {L L' nk nk1 : Nat} {c : List Nat} (h : split_ok L c nk nk1)
    (hL : L' ≤ L) : split_ok L' c nk nk1 :=
  fun s d hd => h s d (Nat.le_trans hd hL)

theorem recv_handle_split {L nk nk1 : Nat} {c : List Nat} (hk : split_ok L c nk nk1)
    (s : Client) (d : List Nat) (hd : d.length ≤ L) :
    recv_handle (recv_again nk) s (d ++ c) (d.length + c.length) =
      recv_next (recv_handle (recv_again nk1) s d d.length) c := by
  unfold recv_handle
  simp only []
  split_ifs
  · rw [recv_next_error]
  · exact hk _ _ hd

theorem recv_loop_split {L nk nk1 : Nat} {c : List Nat} (hc : c ≠ [])
    (hk : split_ok L c nk nk1) (hnk : L + c.length + 1 ≤ nk)
    (n n1 : Nat) (s : Client) (d : List Nat) (hd : d.length ≤ L)
    (hn : d.length + c.length + 1 ≤ n) (hn1 : d.length + 1 ≤ n1) :
    recv_loop (recv_again nk) n s (d ++ c) (d.length + c.length) =
      recv_next (recv_loop (recv_again nk1) n1 s d d.length) c := by
  have hcl := length_pos_of_ne_nil hc
  by_cases h1 : s.pos < s.len
  · by_cases hd0 : d.length = 0
    · -- the first call yields at once, the second one resumes in the loop
      have hdnil : d = [] := List.length_eq_zero.1 hd0
      subst hdnil
      obtain ⟨m, rfl⟩ : ∃ m, n1 = m + 1 := ⟨n1 - 1, by omega⟩
      rw [recv_loop_succ (recv_again nk1) m s []]
      simp only [if_pos h1, List.length_nil, if_true, List.nil_append, Nat.zero_add]
      refine (recv_next_y_data s hc h1 ?_ ?_).symm <;> omega
    · obtain ⟨m, rfl⟩ : ∃ m, n1 = m + 2 := ⟨n1 - 2, by omega⟩
      rw [recv_loop_two (recv_again nk1) m s d]
      simp only [if_pos h1, if_neg hd0]
      by_cases h3 : s.len - s.pos ≤ d.length
      · -- the frame is completed inside `d`
        obtain ⟨m', rfl⟩ : ∃ m', n = m' + 2 := ⟨n - 2, by omega⟩
        rw [recv_loop_two (recv_again nk) m' s (d ++ c)]
        have hz : ¬ (d.length + c.length = 0) := by omega
        have h3' : s.len - s.pos ≤ d.length + c.length := by omega
        simp only [if_pos h1, if_neg hz, if_pos h3, if_pos h3']
        rw [recv_copy_append_left s d c h3]
        have e1 : (d ++ c).drop (s.len - s.pos) = d.drop (s.len - s.pos) ++ c := by
          rw [List.drop_append_of_le_length h3]
        have e2 : d.length + c.length - (s.len - s.pos) =
            (d.drop (s.len - s.pos)).length + c.length := by
          simp only [List.length_drop]; omega
        have e3 : d.length - (s.len - s.pos) = (d.drop (s.len - s.pos)).length := by
          simp only [List.length_drop]
        rw [e1, e2, e3]
        exact recv_handle_split hk _ _ (by simp only [List.length_drop]; omega)
      · -- `d` ends inside the payload: the first call yields in the loop
        have h3n : d.length < s.len - s.pos := by omega
        simp only [if_neg h3]
        have hp1 : (recv_copy s d d.length).pos < (recv_copy s d d.length).len := by
          rw [recv_copy_pos, recv_copy_len]; omega
        rw [recv_next_y_data (recv_copy s d d.length) hc hp1 (Nat.le_refl (c.length + 1))
          (Nat.le_refl (c.length + 1))]
        obtain ⟨m', rfl⟩ : ∃ m', n = m' + 1 := ⟨n - 1, by omega⟩
        rw [recv_loop_succ (recv_again nk) m' s (d ++ c)]
        have hz : ¬ (d.length + c.length = 0) := by omega
        simp only [if_pos h1, if_neg hz]
        have e0 : min (s.len - s.pos) (d.length + c.length) =
            d.length + min (s.len - (s.pos + d.length)) c.length := by omega
        rw [recv_loop_succ (recv_again (c.length + 1)) c.length (recv_copy s d d.length) c]
        have hz' : ¬ (c.length = 0) := by omega
        simp only [if_pos hp1, if_neg hz']
        rw [recv_copy_append s d c h3n, e0]
        have hpos : (recv_copy s d d.length).pos = s.pos + d.length := by
          rw [recv_copy_pos]; omega
        rw [recv_copy_len s d, hpos]
        have e1 : (d ++ c).drop (d.length + min (s.len - (s.pos + d.length)) c.length) =
            c.drop (min (s.len - (s.pos + d.length)) c.length) := by
          rw [← List.drop_drop, List.drop_left]
        have e2 : d.length + c.length - (d.length + min (s.len - (s.pos + d.length)) c.length) =
            c.length - min (s.len - (s.pos + d.length)) c.length := by omega
        rw [e1, e2]
        refine recv_loop_congr _ _ _ _ _ _ (agree_again ?_ ?_) ?_ ?_ rfl <;> omega
  · obtain ⟨m, rfl⟩ : ∃ m, n1 = m + 1 := ⟨n1 - 1, by omega⟩
    obtain ⟨m', rfl⟩ : ∃ m', n = m' + 1 := ⟨n - 1, by omega⟩
    rw [recv_loop_succ (recv_again nk1) m s d, recv_loop_succ (recv_again nk) m' s (d ++ c)]
    simp only [if_neg h1]
    exact recv_handle_split hk _ _ hd

theorem recv_body_split {L nk nk1 : Nat} {c : List Nat} (hc : c ≠ [])
    (hk : split_ok L c nk nk1) (hnk : L + c.length + 1 ≤ nk)
    (n n1 : Nat) (s : Client) (d : List Nat) (hd : d.length ≤ L)
    (hn : d.length + c.length + 1 ≤ n) (hn1 : d.length + 1 ≤ n1) :
    recv_body (recv_again nk) n s (d ++ c) (d.length + c.length) =
      recv_next (recv_body (recv_again nk1) n1 s d d.length) c := by
  unfold recv_body
  split_ifs
  · rw [recv_next_error]
  · exact recv_loop_split hc hk hnk n n1 _ d hd hn hn1
  · exact recv_handle_split hk _ _ hd

theorem recv_len2_split {L nk nk1 : Nat} {c : List Nat} (hc : c ≠ [])
    (hk : split_ok L c nk nk1) (hnk : L + c.length + 1 ≤ nk)
    (n n1 : Nat) (s : Client) (d : List Nat) (hd : d.length ≤ L)
    (hn : d.length + c.length + 1 ≤ n) (hn1 : d.length + 1 ≤ n1) :
    recv_len2 (recv_again nk) n s (d ++ c) (d.length + c.length) =
      recv_next (recv_len2 (recv_again nk1) n1 s d d.length) c :=
  recv_body_split hc hk hnk n n1 _ d hd hn hn1

theorem recv_len1_split {L nk nk1 : Nat} {c : List Nat} (hc : c ≠ [])
    (hk : split_ok L c nk nk1) (hnk : L + c.length + 1 ≤ nk)
    (n n1 : Nat) (s : Client) (d : List Nat) (hd : d.length ≤ L)
    (hn : d.length + c.length + 1 ≤ n) (hn1 : d.length + 1 ≤ n1) :
    recv_len1 (recv_again nk) n s (d ++ c) (d.length + c.length) =
      recv_next (recv_len1 (recv_again nk1) n1 s d d.length) c := by
  have hcl := length_pos_of_ne_nil hc
  unfold recv_len1
  by_cases h1 : s.b &&& 0x80 = 0
  · simp only [if_pos h1]
    exact recv_body_split hc hk hnk n n1 _ d hd hn hn1
  · simp only [if_neg h1]
    cases d with
    | nil =>
      simp only [List.length_nil, Nat.zero_add] at hn hn1 ⊢
      have hz : ¬ (c.length = 0) := by omega
      simp only [if_neg hz, if_true, List.nil_append]
      refine (recv_next_y_len2 { s with len := s.b &&& 0x7f } hc ?_ ?_).symm <;> omega
    | cons x d =>
      simp only [List.length_cons] at hd hn hn1 ⊢
      have hz : ¬ (d.length + 1 + c.length = 0) := by omega
      have hz1 : ¬ (d.length + 1 = 0) := by omega
      simp only [if_neg hz, if_neg hz1, List.cons_append, List.headD_cons, List.tail_cons]
      have e : d.length + 1 + c.length - 1 = d.length + c.length := by omega
      have e1 : d.length + 1 - 1 = d.length := by omega
      rw [e, e1]
      exact recv_len2_split hc hk hnk n n1 _ d (by omega) (by omega) (by omega)

theorem recv_type_split {L nk nk1 : Nat} {c : List Nat} (hc : c ≠ [])
    (hk : split_ok L c nk nk1) (hnk : L + c.length + 1 ≤ nk)
    (n n1 : Nat) (s : Client) (d : List Nat) (hd : d.length ≤ L)
    (hn : d.length + c.length + 1 ≤ n) (hn1 : d.length + 1 ≤ n1) :
    recv_type (recv_again nk) n s (d ++ c) (d.length + c.length) =
      recv_next (recv_type (recv_again nk1) n1 s d d.length) c := by
  have hcl := length_pos_of_ne_nil hc
  unfold recv_type
  simp only []
  by_cases h1 : s.type &&& 0xF0 ≠ CONNACK ∧ s.type &&& 0xF0 ≠ PUBLISH ∧
      s.type &&& 0xF0 ≠ PUBACK ∧ s.type &&& 0xF0 ≠ PUBREC ∧ s.type &&& 0xF0 ≠ PUBREL ∧
      s.type &&& 0xF0 ≠ PUBCOMP ∧ s.type &&& 0xF0 ≠ SUBACK ∧ s.type &&& 0xF0 ≠ UNSUBACK ∧
      s.type &&& 0xF0 ≠ PINGRESP
  · simp only [if_pos h1]
    rw [recv_next_error]
  · simp only [if_neg h1]
    cases d with
    | nil =>
      simp only [List.length_nil, Nat.zero_add] at hn hn1 ⊢
      have hz : ¬ (c.length = 0) := by omega
      simp only [if_neg hz, if_true, List.nil_append]
      refine (recv_next_y_len1 { s with b := s.type &&& 0xF0 } hc ?_ ?_).symm <;> omega
    | cons x d =>
      simp only [List.length_cons] at hd hn hn1 ⊢
      have hz : ¬ (d.length + 1 + c.length = 0) := by omega
      have hz1 : ¬ (d.length + 1 = 0) := by omega
      simp only [if_neg hz, if_neg hz1, List.cons_append, List.headD_cons, List.tail_cons]
      have e : d.length + 1 + c.length - 1 = d.length + c.length := by omega
      have e1 : d.length + 1 - 1 = d.length := by omega
      rw [e, e1]
      exact recv_len1_split hc hk hnk n n1 _ d (by omega) (by omega) (by omega)

theorem recv_again_split {c : List Nat} (hc : c ≠ []) (L : Nat) :
    ∀ (nk nk1 : Nat), L + c.length + 1 ≤ nk → L + 1 ≤ nk1 → split_ok L c nk nk1 := by
  have hcl := length_pos_of_ne_nil hc
  induction L with
  | zero =>
    intro nk nk1 hnk hnk1 s d hd
    have hdnil : d = [] := List.length_eq_zero.1 (by omega)
    subst hdnil
    obtain ⟨m, rfl⟩ : ∃ m, nk = m + 1 := ⟨nk - 1, by omega⟩
    obtain ⟨m1, rfl⟩ : ∃ m1, nk1 = m1 + 1 := ⟨nk1 - 1, by omega⟩
    have hz : ¬ (c.length = 0) := by omega
    simp only [recv_again, List.nil_append, List.length_nil, Nat.zero_add, if_neg hz, if_true]
    refine (recv_next_y_type s hc ?_ ?_).symm <;> omega
  | succ L ih =>
    intro nk nk1 hnk hnk1 s d hd
    obtain ⟨m, rfl⟩ : ∃ m, nk = m + 1 := ⟨nk - 1, by omega⟩
    obtain ⟨m1, rfl⟩ : ∃ m1, nk1 = m1 + 1 := ⟨nk1 - 1, by omega⟩
    cases d with
    | nil =>
      have hz : ¬ (c.length = 0) := by omega
      simp only [recv_again, List.nil_append, List.length_nil, Nat.zero_add, if_neg hz, if_true]
      refine (recv_next_y_type s hc ?_ ?_).symm <;> omega
    | cons x d =>
      simp only [List.length_cons] at hd ⊢
      have hz : ¬ (d.length + 1 + c.length = 0) := by omega
      have hz1 : ¬ (d.length + 1 = 0) := by omega
      simp only [recv_again, if_neg hz, if_neg hz1, List.cons_append, List.headD_cons,
        List.tail_cons]
      have e : d.length + 1 + c.length - 1 = d.length + c.length := by omega
      have e1 : d.length + 1 - 1 = d.length := by omega
      rw [e, e1]
      exact recv_type_split hc (ih m m1 (by omega) (by omega)) (by omega) m m1 _ d (by omega)
        (by omega) (by omega)

theorem recv_handle_spec {Pre Post : Client → Prop} (h : recv_spec Pre Post)
    {k : Client → List Nat → Nat → Client} {z : Nat}
    (hk : ∀ s d z', z' ≤ z → Pre s → Post (k s d z')) (s : Client) (d : List Nat) (hs : Pre s) :
    Post (recv_handle k s d z) := by
  unfold recv_handle
  simp only []
  have hs1 : Pre { s with rxlog := s.rxlog ++
      [RxCall.mk s.type s.len ((s.rxbuf.getD []).take s.len)] } := h.upd s _ _ _ _ _ _ hs
  split_ifs with h0
  · exact h.reject _ _ _ hs1 h0
  · exact hk _ _ _ (Nat.le_refl _) (h.upd _ _ _ _ _ _ _ (h.handle _ _ _ hs1 h0))

theorem recv_copy_spec {Pre Post : Client → Prop} (h : recv_spec Pre Post) (s : Client)
    (d : List Nat) (z : Nat) (hs : Pre s) : Pre (recv_copy s d z) :=
  h.upd s _ _ _ _ _ _ hs

theorem recv_loop_spec {Pre Post : Client → Prop} (h : recv_spec Pre Post)
    {k : Client → List Nat → Nat → Client} (n : Nat) :
    ∀ (z : Nat) (s : Client) (d : List Nat), (∀ s d z', z' ≤ z → Pre s → Post (k s d z')) →
      z + 1 ≤ n → Pre s → Post (recv_loop k n s d z) := by
  induction n with
  | zero => intro z s d _ hn; omega
  | succ n ih =>
    intro z s d hk hn hs
    rw [recv_loop_succ]
    by_cases h1 : s.pos < s.len
    · simp only [if_pos h1]
      by_cases h2 : z = 0
      · simp only [if_pos h2]
        exact h.yield s _ hs (by decide)
      · simp only [if_neg h2]
        have hl : 1 ≤ min (s.len - s.pos) z := by omega
        exact ih _ _ _ (fun s d z' hz' => hk s d z' (by omega)) (by omega)
          (recv_copy_spec h s d z hs)
    · simp only [if_neg h1]
      exact recv_handle_spec h hk s d hs

theorem recv_body_spec {Pre Post : Client → Prop} (h : recv_spec Pre Post)
    {k : Client → List Nat → Nat → Client} {n z : Nat}
    (hk : ∀ s d z', z' ≤ z → Pre s → Post (k s d z')) (hn : z + 1 ≤ n) (s : Client)
    (d : List Nat) (hs : Pre s) : Post (recv_body k n s d z) := by
  unfold recv_body
  split_ifs
  · exact h.error s hs
  · exact recv_loop_spec h n z _ d hk hn (h.upd s _ _ _ _ _ _ hs)
  · exact recv_handle_spec h hk s d hs

theorem recv_len2_spec {Pre Post : Client → Prop} (h : recv_spec Pre Post)
    {k : Client → List Nat → Nat → Client} {n z : Nat}
    (hk : ∀ s d z', z' ≤ z → Pre s → Post (k s d z')) (hn : z + 1 ≤ n) (s : Client)
    (d : List Nat) (hs : Pre s) : Post (recv_len2 k n s d z) :=
  recv_body_spec h hk hn _ d (h.upd s _ _ _ _ _ _ hs)

theorem recv_len1_spec {Pre Post : Client → Prop} (h : recv_spec Pre Post)
    {k : Client → List Nat → Nat → Client} {n z : Nat}
    (hk : ∀ s d z', z' ≤ z → Pre s → Post (k s d z')) (hn : z + 1 ≤ n) (s : Client)
    (d : List Nat) (hs : Pre s) : Post (recv_len1 k n s d z) := by
  unfold recv_len1
  simp only []
  have hs' : Pre { s with len := s.b &&& 0x7f } := h.upd s _ _ _ _ _ _ hs
  split_ifs
  · exact recv_body_spec h hk hn _ d (h.upd s _ _ _ _ _ _ hs)
  · exact h.yield _ LC.y_len2 hs' (by decide)
  · exact recv_len2_spec h (fun s d z' hz' => hk s d z' (by omega)) (by omega) _ _
      (h.upd s _ _ _ _ _ _ hs)

theorem recv_type_spec {Pre Post : Client → Prop} (h : recv_spec Pre Post)
    {k : Client → List Nat → Nat → Client} {n z : Nat}
    (hk : ∀ s d z', z' ≤ z → Pre s → Post (k s d z')) (hn : z + 1 ≤ n) (s : Client)
    (d : List Nat) (hs : Pre s) : Post (recv_type k n s d z) := by
  unfold recv_type
  simp only []
  have hs' : Pre { s with b := s.type &&& 0xF0 } := h.upd s _ _ _ _ _ _ hs
  split_ifs
  · exact h.error _ hs'
  · exact h.yield _ LC.y_len1 hs' (by decide)
  · exact recv_len1_spec h (fun s d z' hz' => hk s d z' (by omega)) (by omega) _ _
      (h.upd s _ _ _ _ _ _ hs)

theorem recv_again_spec {Pre Post : Client → Prop} (h : recv_spec Pre Post) (n : Nat) :
    ∀ (z : Nat) (s : Client) (d : List Nat), z + 1 ≤ n → Pre s → Post (recv_again n s d z) := by
  induction n with
  | zero => intro z s d hn; omega
  | succ n ih =>
    intro z s d hn hs
    simp only [recv_again]
    split_ifs with h2
    · exact h.yield s _ hs (by decide)
    · exact recv_type_spec h (fun s d z' hz' => ih z' s d (by omega)) (by omega) _ _
        (h.upd s _ _ _ _ _ _ hs)

theorem recv_pt_spec {Pre Post : Client → Prop} (h : recv_spec Pre Post) (s : Client)
    (d : List Nat) (z : Nat) (hs : Pre s) : Post (recv_pt s d z) := by
  unfold recv_pt
  split
  · exact recv_again_spec h _ _ _ _ (Nat.le_refl _) hs
  · exact recv_type_spec h (fun s d z' hz' => recv_again_spec h _ z' s d (by omega))
      (Nat.le_refl _) _ _ (h.upd s _ _ _ _ _ _ hs)
  · exact recv_len1_spec h (fun s d z' hz' => recv_again_spec h _ z' s d (by omega))
      (Nat.le_refl _) _ _ (h.upd s _ _ _ _ _ _ hs)
  · exact recv_len2_spec h (fun s d z' hz' => recv_again_spec h _ z' s d (by omega))
      (Nat.le_refl _) _ _ (h.upd s _ _ _ _ _ _ hs)
  · exact recv_loop_spec h _ _ _ _ (fun s d z' hz' => recv_again_spec h _ z' s d (by omega))
      (Nat.le_refl _) (recv_copy_spec h s d z hs)

/-- Case analysis on `handle_rxbuf`: a property of its result holds as soon as it holds
for a rejected frame, for a frame accepted without effect, for the accepted CONNACK, for a
delivered PUBLISH without and with acknowledgement, and for a PUBREC / PUBREL reply. -/
theorem handle_rxbuf_cases (P : Nat × Client → Prop) (s : Client) (type len : Nat)
    (h_rej : P (0, { s with tmr_timeout := some (s.cfg.keepalive * 1500) }))
    (h_acc : P (1, { s with tmr_timeout := some (s.cfg.keepalive * 1500) }))
    (h_connack : s.state = CONNECTING → type &&& 0xF0 = CONNACK →
      P (1, { s with
              tmr_timeout := some (s.cfg.keepalive * 1500)
              state := OPEN
              scheduled := s.scheduled ++ [Sched.mqtt_open_cb]
              tmr_keepalive := some (s.cfg.keepalive * 1000) }))
    (h_pub : ∀ (p : PublishCall) (buf : Option (List Nat)),
      (s.state = OPEN ∨ s.state = DATA_SENT) → type &&& 0xF0 = PUBLISH →
      P (1, { s with
              tmr_timeout := some (s.cfg.keepalive * 1500)
              rxbuf := buf
              published := s.published ++ [p] }))
    (h_puback : ∀ (p : PublishCall) (buf : Option (List Nat)) (reply : List Nat),
      (s.state = OPEN ∨ s.state = DATA_SENT) → type &&& 0xF0 = PUBLISH →
      P (1, sendFromQ { s with
              tmr_timeout := some (s.cfg.keepalive * 1500)
              rxbuf := buf
              published := s.published ++ [p]
              sendQ := s.sendQ ++ [Q.mk reply 4] }))
    (h_rel : ∀ reply : List Nat, (type &&& 0xF0 = PUBREC ∨ type &&& 0xF0 = PUBREL) →
      P (1, sendFromQ { s with
              tmr_timeout := some (s.cfg.keepalive * 1500)
              sendQ := s.sendQ ++ [Q.mk reply 4] })) :
    P (handle_rxbuf s type len) := by
  unfold handle_rxbuf
  simp only []
  by_cases h1 : type &&& 0xF0 = CONNACK
  · simp only [if_pos h1]
    by_cases h2 : s.state = CONNECTING ∧ len = 2 ∧ rd (s.rxbuf.getD []) 1 = 0
    · simp only [if_pos h2]; exact h_connack h2.1 h1
    · simp only [if_neg h2]; exact h_rej
  · simp only [if_neg h1]
    by_cases h2 : type &&& 0xF0 = PUBLISH
    · simp only [if_pos h2]
      by_cases h3 : (s.state ≠ OPEN ∧ s.state ≠ DATA_SENT) ∨ len < 4
      · simp only [if_pos h3]; exact h_rej
      · simp only [if_neg h3]
        have hst : s.state = OPEN ∨ s.state = DATA_SENT := by
          by_cases ho : s.state = OPEN
          · exact Or.inl ho
          · by_cases hd : s.state = DATA_SENT
            · exact Or.inr hd
            · exact absurd (Or.inl ⟨ho, hd⟩) h3
        by_cases h4 : type &&& 0x08 ≠ 0
        · simp only [if_pos h4]; exact h_acc
        · simp only [if_neg h4]
          by_cases h5 : ((rd (s.rxbuf.getD []) 0 <<< 8) ||| rd (s.rxbuf.getD []) 1) % 65536 > len - 2
          · simp only [if_pos h5]; exact h_rej
          · simp only [if_neg h5]
            by_cases h6 : (type >>> 1) &&& 0x03 > 0 ∧
                len - 2 - ((rd (s.rxbuf.getD []) 0 <<< 8) ||| rd (s.rxbuf.getD []) 1) % 65536 < 2
            · simp only [if_pos h6]; exact h_rej
            · simp only [if_neg h6]
              by_cases h7 : (type >>> 1) &&& 0x03 > 0
              · simp only [if_pos h7, enQ_forced]
                exact h_puback _ _ _ hst h2
              · simp only [if_neg h7]
                exact h_pub _ _ hst h2
    · simp only [if_neg h2]
      by_cases h3 : type &&& 0xF0 = PUBREC ∨ type &&& 0xF0 = PUBREL
      · simp only [if_pos h3]
        by_cases h4 : len = 2
        · simp only [if_pos h4, enQ_forced]
          exact h_rel _ h3
        · simp only [if_neg h4]; exact h_rej
      · simp only [if_neg h3]
        split_ifs
        · exact h_acc
        · exact h_rej

theorem sendFromQ_state (s : Client) :
    (sendFromQ s).state = s.state ∨ (s.state = OPEN ∧ (sendFromQ s).state = DATA_SENT) := by
  unfold sendFromQ
  split
  · exact Or.inl rfl
  · by_cases h : s.state = OPEN
    · rw [if_neg (by simp [h])]; exact Or.inr ⟨h, rfl⟩
    · rw [if_pos h]; exact Or.inl rfl

theorem conn_open_sendFromQ {s : Client} (h : conn_open s) : conn_open (sendFromQ s) := by
  rcases sendFromQ_state s with e | ⟨_, e⟩
  · unfold conn_open; rw [e]; exact h
  · exact Or.inr (Or.inr e)

theorem conn_open_handle (s : Client) (t l : Nat) (h : conn_open s) :
    conn_open (handle_rxbuf s t l).2 := by
  apply handle_rxbuf_cases (fun r => conn_open r.2)
  · exact h
  · exact h
  · intro _ _; exact Or.inr (Or.inl rfl)
  · intro _ _ _ _; exact h
  · intro _ _ _ _ _; exact conn_open_sendFromQ h
  · intro _ _; exact conn_open_sendFromQ h

theorem recv_spec_exit : recv_spec conn_open recv_exit where
  upd := fun _ _ _ _ _ _ _ h => h
  handle := fun s t l h _ => conn_open_handle s t l h
  reject := fun _ _ _ _ _ => Or.inl ⟨rfl, rfl⟩
  error := fun _ _ => Or.inl ⟨rfl, rfl⟩
  yield := fun _ _ h hy => Or.inr ⟨hy, h⟩

theorem recv_pt_exit (s : Client) (d : List Nat) (z : Nat) (h : conn_open s) :
    recv_exit (recv_pt s d z) :=
  recv_pt_spec recv_spec_exit s d z h

theorem recv_pt_append (s : Client) (hlc : s.lc = LC.start) (d c : List Nat) (hc : c ≠ []) :
    recv_pt s (d ++ c) (d.length + c.length) = recv_next (recv_pt s d d.length) c := by
  unfold recv_pt
  simp only [hlc]
  exact recv_again_split hc d.length _ _ (by omega) (by omega) s d (Nat.le_refl _)

theorem recv_cb_eq_of_open {s : Client} (h : conn_open s) (d : List Nat) (z : Nat) :
    recv_cb s d z = recv_pt s d z := by
  unfold recv_cb
  rw [if_neg]
  rcases h with h | h | h <;> simp [h]

theorem recv_cb_eq_of_not_open {s : Client} (h : ¬ conn_open s) (d : List Nat) (z : Nat) :
    recv_cb s d z = s := by
  unfold recv_cb
  rw [if_pos]
  unfold conn_open at h
  refine ⟨fun e => h (Or.inl e), fun e => h (Or.inr (Or.inl e)), fun e => h (Or.inr (Or.inr e))⟩

theorem not_conn_open_closing {s : Client} (h : s.state = CLOSING) : ¬ conn_open s := by
  unfold conn_open; rw [h]; decide

theorem recv_cb_next {r : Client} (h : recv_exit r) (c : List Nat) :
    recv_cb r c c.length = recv_next r c := by
  unfold recv_next
  rcases h with ⟨h1, h2⟩ | ⟨h1, h2⟩
  · rw [if_pos h1, recv_cb_eq_of_not_open (not_conn_open_closing h2)]
  · rw [if_neg h1, recv_cb_eq_of_open h2]

theorem recv_cb_append (s : Client) (hlc : s.lc = LC.start) (d c : List Nat) (hc : c ≠ []) :
    recv_cb (recv_cb s d d.length) c c.length = recv_cb s (d ++ c) (d.length + c.length) := by
  by_cases h : conn_open s
  · rw [recv_cb_eq_of_open h, recv_cb_eq_of_open h, recv_pt_append s hlc d c hc]
    exact recv_cb_next (recv_pt_exit s d _ h) c
  · rw [recv_cb_eq_of_not_open h, recv_cb_eq_of_not_open h, recv_cb_eq_of_not_open h]

/-- Delivering a byte stream to `recv_cb` in any number of non-empty chunks leaves the client
exactly as delivering it in one piece does, whatever the bytes are. -/
theorem feed_cb_flatten (s : Client) (hlc : s.lc = LC.start) (chunks : List (List Nat)) :
    chunks ≠ [] → (∀ c ∈ chunks, c ≠ []) →
      feed_cb s chunks = recv_cb s chunks.flatten chunks.flatten.length := by
  induction chunks using List.reverseRecOn with
  | nil => intro h; exact absurd rfl h
  | append_singleton cs c ih =>
    intro _ hne
    have hc : c ≠ [] := hne c (by simp)
    by_cases hcs : cs = []
    · subst hcs
      simp [feed_cb]
    · have ih' := ih hcs (fun x hx => hne x (by simp [hx]))
      have e : feed_cb s (cs ++ [c]) = recv_cb (feed_cb s cs) c c.length := by
        simp [feed_cb, List.foldl_append]
      rw [e, ih', recv_cb_append s hlc _ c hc]
      simp [List.flatten_append]

theorem recv_pt_state_lc {s : Client} (h : conn_open s) (d : List Nat) (z : Nat)
    (hok : (recv_pt s d z).state ≠ CLOSING) : (recv_pt s d z).lc ≠ LC.start := by
  rcases recv_pt_exit s d z h with ⟨_, h2⟩ | ⟨h1, _⟩
  · exact absurd h2 hok
  · exact h1

theorem feed_flatten (s : Client) (hlc : s.lc = LC.start) (hs : conn_open s)
    (chunks : List (List Nat)) :
    chunks ≠ [] → (∀ c ∈ chunks, c ≠ []) →
      (recv_pt s chunks.flatten chunks.flatten.length).state ≠ CLOSING →
      feed s chunks = recv_pt s chunks.flatten chunks.flatten.length := by
  induction chunks using List.reverseRecOn with
  | nil => intro h; exact absurd rfl h
  | append_singleton cs c ih =>
    intro _ hne hok
    have hc : c ≠ [] := hne c (by simp)
    by_cases hcs : cs = []
    · subst hcs
      simp [feed]
    · have e : feed s (cs ++ [c]) = recv_pt (feed s cs) c c.length := by
        simp [feed, List.foldl_append]
      have ej : (cs ++ [c]).flatten = cs.flatten ++ c := by simp [List.flatten_append]
      rw [ej, List.length_append] at hok ⊢
      rw [recv_pt_append s hlc _ c hc] at hok ⊢
      have hmid : (recv_pt s cs.flatten cs.flatten.length).lc ≠ LC.start := by
        intro hl
        have hx : recv_next (recv_pt s cs.flatten cs.flatten.length) c =
            recv_pt s cs.flatten cs.flatten.length := by
          unfold recv_next; rw [if_pos hl]
        rw [hx] at hok
        rcases recv_pt_exit s cs.flatten cs.flatten.length hs with ⟨_, h2⟩ | ⟨h1, _⟩
        · exact hok h2
        · exact h1 hl
      have hmid' : (recv_pt s cs.flatten cs.flatten.length).state ≠ CLOSING := by
        intro hcl
        rcases recv_pt_exit s cs.flatten cs.flatten.length hs with ⟨h1, _⟩ | ⟨_, h2⟩
        · exact hmid h1
        · exact not_conn_open_closing hcl h2
      rw [e, ih hcs (fun x hx => hne x (by simp [hx])) hmid']
      unfold recv_next
      rw [if_neg hmid]

theorem memcpy_fill (pl : List Nat) : ∀ (pre dst : List Nat), pl.length ≤ dst.length →
    memcpy (pre ++ dst) pre.length pl pl.length = pre ++ pl ++ dst.drop pl.length := by
  induction pl with
  | nil => intro pre dst _; simp [memcpy]
  | cons x pl ih =>
    intro pre dst h
    cases dst with
    | nil => simp at h
    | cons y dst =>
      simp only [memcpy, List.length_cons, List.headD_cons, List.tail_cons]
      have e : (pre ++ y :: dst).set pre.length x = (pre ++ [x]) ++ dst := by
        simp [List.set_append_right]
      have e2 : pre.length + 1 = (pre ++ [x]).length := by simp
      rw [e, e2, ih (pre ++ [x]) dst (by simpa using h)]
      simp

theorem memcpy_payload (pl rest : List Nat) :
    memcpy (List.replicate (pl.length + 1) 0) 0 (pl ++ rest) pl.length = pl ++ [0] := by
  rw [memcpy_append_left _ _ _ _ _ (Nat.le_refl _)]
  have h := memcpy_fill pl [] (List.replicate (pl.length + 1) 0) (by simp)
  simp only [List.nil_append, List.length_nil] at h
  rw [h]
  simp [List.drop_replicate]

theorem recv_body_frame (k : Client → List Nat → Nat → Client) (n : Nat) (s : Client)
    (pl rest : List Nat) (hlen : s.len = pl.length) (h256 : pl.length < 256) :
    recv_body k (n + 2) s (pl ++ rest) (pl.length + rest.length) =
      recv_handle k (frame_state s s.type s.b pl) rest rest.length := by
  obtain ⟨cfg, state, lc, b, type, len, pos, rxbuf, sendQ, nextId, t1, t2, sent, sch, pub, con, rxl⟩ := s
  simp only at hlen
  subst hlen
  unfold recv_body frame_state
  simp only []
  have h1 : ¬ pl.length ≥ 256 := by omega
  rw [if_neg h1]
  by_cases h0 : pl.length = 0
  · have h2 : ¬ pl.length > 0 := by omega
    have hpl : pl = [] := List.length_eq_zero.1 h0
    rw [if_neg h2, if_pos h0]
    subst hpl
    simp only [List.nil_append, List.length_nil, Nat.zero_add]
  · have h2 : pl.length > 0 := by omega
    rw [if_pos h2, if_neg h0, recv_loop_two]
    have h3 : (0 : Nat) < pl.length := h2
    have hz : ¬ (pl.length + rest.length = 0) := by omega
    have h4 : pl.length - 0 ≤ pl.length + rest.length := by omega
    simp only [if_pos h3, if_neg hz, if_pos h4]
    have e1 : (pl ++ rest).drop (pl.length - 0) = rest := by
      rw [Nat.sub_zero, List.drop_left]
    have e2 : pl.length + rest.length - (pl.length - 0) = rest.length := by omega
    rw [e1, e2]
    congr 1
    unfold recv_copy
    have e3 : min (pl.length - 0) (pl.length + rest.length) = pl.length := by omega
    simp only [e3, Option.map_some', memcpy_payload, Nat.zero_add]

theorem known_type_iff (t : Nat) : known_type t ↔
    ¬ (t &&& 0xF0 ≠ CONNACK ∧ t &&& 0xF0 ≠ PUBLISH ∧ t &&& 0xF0 ≠ PUBACK ∧
      t &&& 0xF0 ≠ PUBREC ∧ t &&& 0xF0 ≠ PUBREL ∧ t &&& 0xF0 ≠ PUBCOMP ∧
      t &&& 0xF0 ≠ SUBACK ∧ t &&& 0xF0 ≠ UNSUBACK ∧ t &&& 0xF0 ≠ PINGRESP) := by
  unfold known_type
  tauto

theorem and_128_of_lt : ∀ L : Nat, L < 128 → L &&& 0x80 = 0 := by decide

theorem recv_again_succ (n : Nat) (s : Client) (d : List Nat) (z : Nat) :
    recv_again (n + 1) s d z =
      if z = 0 then { s with lc := LC.y_type }
      else recv_type (recv_again n) n { s with type := d.headD 0 } d.tail (z - 1) := rfl

/-- After the type byte: a one-byte length `|pl|` and the payload `pl` take `recv_pt` to its
`handle_rxbuf` call, the bytes that follow still to be read. -/
theorem recv_type_frame (k : Client → List Nat → Nat → Client) (n : Nat) (s : Client)
    (ht : known_type s.type) (pl rest : List Nat) (hL : pl.length < 128) :
    recv_type k (n + 2) s (pl.length :: (pl ++ rest)) (pl.length + rest.length + 1) =
      recv_handle k (frame_state s s.type pl.length pl) rest rest.length := by
  unfold recv_type
  simp only []
  rw [if_neg ((known_type_iff s.type).1 ht)]
  have hz1 : ¬ (pl.length + rest.length + 1 = 0) := by omega
  rw [if_neg hz1]
  unfold recv_len1
  simp only [List.headD_cons, List.tail_cons]
  rw [if_pos (and_128_of_lt _ hL)]
  have e : pl.length + rest.length + 1 - 1 = pl.length + rest.length := by omega
  rw [e]
  have h := recv_body_frame k n { s with b := pl.length, len := pl.length } pl rest rfl
    (by omega)
  rw [h]
  unfold frame_state
  rfl

/-- After the type byte: a two-byte length that decodes to `|pl| < 256` and the payload
`pl` take `recv_pt` to its `handle_rxbuf` call. -/
theorem recv_type_frame2 (k : Client → List Nat → Nat → Client) (n : Nat) (s : Client)
    (ht : known_type s.type) (b1 b2 : Nat) (pl rest : List Nat) (hb1 : b1 &&& 0x80 ≠ 0)
    (hlen : ((b1 &&& 0x7f) ||| (b2 <<< 7)) % 65536 = pl.length) (hL : pl.length < 256) :
    recv_type k (n + 2) s (b1 :: b2 :: (pl ++ rest)) (pl.length + rest.length + 2) =
      recv_handle k (frame_state s s.type b2 pl) rest rest.length := by
  unfold recv_type
  simp only []
  rw [if_neg ((known_type_iff s.type).1 ht)]
  have hz1 : ¬ (pl.length + rest.length + 2 = 0) := by omega
  rw [if_neg hz1]
  unfold recv_len1
  simp only [List.headD_cons, List.tail_cons]
  rw [if_neg hb1]
  have hz2 : ¬ (pl.length + rest.length + 2 - 1 = 0) := by omega
  rw [if_neg hz2]
  unfold recv_len2
  simp only [hlen]
  have e : pl.length + rest.length + 2 - 1 - 1 = pl.length + rest.length := by omega
  rw [e]
  have h := recv_body_frame k n { s with b := b2, len := pl.length } pl rest rfl hL
  rw [h]
  unfold frame_state
  rfl

/-- After the type byte: a two-byte length that decodes to 256 or more takes `recv_pt` to
its error exit, before any payload byte is read. -/
theorem recv_type_oversize (k : Client → List Nat → Nat → Client) (n : Nat) (s : Client)
    (ht : known_type s.type) (b1 b2 : Nat) (rest : List Nat) (z : Nat) (hb1 : b1 &&& 0x80 ≠ 0)
    (hlen : 256 ≤ ((b1 &&& 0x7f) ||| (b2 <<< 7)) % 65536) :
    recv_type k n s (b1 :: b2 :: rest) (z + 2) =
      recv_error { s with b := b2, len := ((b1 &&& 0x7f) ||| (b2 <<< 7)) % 65536 } := by
  unfold recv_type
  simp only []
  rw [if_neg ((known_type_iff s.type).1 ht)]
  have hz1 : ¬ (z + 2 = 0) := by omega
  rw [if_neg hz1]
  unfold recv_len1
  simp only [List.headD_cons, List.tail_cons]
  rw [if_neg hb1]
  have hz2 : ¬ (z + 2 - 1 = 0) := by omega
  rw [if_neg hz2]
  unfold recv_len2 recv_body
  simp only []
  rw [if_pos hlen]

/-- At a frame boundary (first call, or a yield in `BYTE(type)`) `recv_pt` reads the
type byte of a non-empty chunk and goes on behind it. -/
theorem recv_pt_boundary (s : Client) (hlc : s.lc = LC.start ∨ s.lc = LC.y_type) (t : Nat)
    (d : List Nat) (z : Nat) :
    recv_pt s (t :: d) (z + 1) =
      recv_type (recv_again (z + 1)) (z + 1) { s with type := t } d z := by
  have e : dec16 (z + 1) = z := by unfold dec16; rw [if_neg (by omega)]; rfl
  unfold recv_pt
  split
  · rw [recv_again_succ, if_neg (by omega)]
    rfl
  · rw [e]
    rfl
  · rename_i h; rcases hlc with h' | h' <;> rw [h] at h' <;> exact absurd h' (by decide)
  · rename_i h; rcases hlc with h' | h' <;> rw [h] at h' <;> exact absurd h' (by decide)
  · rename_i h; rcases hlc with h' | h' <;> rw [h] at h' <;> exact absurd h' (by decide)

theorem recv_handle_reject (k : Client → List Nat → Nat → Client) (s : Client)
    (d : List Nat) (z : Nat)
    (h : (handle_rxbuf { s with rxlog := s.rxlog ++
        [RxCall.mk s.type s.len ((s.rxbuf.getD []).take s.len)] } s.type s.len).1 = 0) :
    recv_handle k s d z = recv_error (handle_rxbuf { s with rxlog := s.rxlog ++
        [RxCall.mk s.type s.len ((s.rxbuf.getD []).take s.len)] } s.type s.len).2 := by
  unfold recv_handle
  simp only []
  rw [if_pos h]

theorem recv_handle_accept (k : Client → List Nat → Nat → Client) (s : Client)
    (d : List Nat) (z : Nat)
    (h : (handle_rxbuf { s with rxlog := s.rxlog ++
        [RxCall.mk s.type s.len ((s.rxbuf.getD []).take s.len)] } s.type s.len).1 ≠ 0) :
    recv_handle k s d z = k { (handle_rxbuf { s with rxlog := s.rxlog ++
        [RxCall.mk s.type s.len ((s.rxbuf.getD []).take s.len)] } s.type s.len).2 with
          rxbuf := none } d z := by
  unfold recv_handle
  simp only []
  rw [if_neg h]

/-! # The claims -/

/-- C1. Started with `pt` in its initial state and the connection up, `recv_pt` called once
per chunk, for any cutting of a byte stream into non-empty chunks (one byte per chunk
included), ends in exactly the same client as one `recv_pt` call on the whole stream:
the same `rxlog` (the sequence of `(type, len, payload)` handed to `handle_rxbuf`) and the
same everything else, provided the stream holds no frame that is rejected (the run does not
leave through the error exit, which sets the state to `CLOSING`). The same holds when the
chunks go through `recv_cb`. -/
theorem recv_pt_chunk_independent (s : Client) (chunks : List (List Nat))
    (hlc : s.lc = LC.start) (hs : conn_open s) (hne : chunks ≠ [])
    (hc : ∀ c ∈ chunks, c ≠ [])
    (hok : (recv_pt s chunks.flatten chunks.flatten.length).state ≠ CLOSING) :
    feed s chunks = recv_pt s chunks.flatten chunks.flatten.length ∧
    (feed s chunks).rxlog = (recv_pt s chunks.flatten chunks.flatten.length).rxlog ∧
    feed_cb s chunks = recv_pt s chunks.flatten chunks.flatten.length := by
  have h1 := feed_flatten s hlc hs chunks hne hc hok
  refine ⟨h1, by rw [h1], ?_⟩
  rw [feed_cb_flatten s hlc chunks hne hc, recv_cb_eq_of_open hs]

/-- C1, witness: a QoS-1 PUBLISH followed by a PINGRESP, delivered one byte per call. -/
theorem recv_pt_chunk_independent_witness :
    feed (demo OPEN) [[0x32], [7], [0], [1], [0x61], [0x12], [0x34], [0x68], [0x69], [0xD0], [0]] =
      recv_pt (demo OPEN) [0x32, 7, 0, 1, 0x61, 0x12, 0x34, 0x68, 0x69, 0xD0, 0] 11 ∧
    (recv_pt (demo OPEN) [0x32, 7, 0, 1, 0x61, 0x12, 0x34, 0x68, 0x69, 0xD0, 0] 11).rxlog =
      [RxCall.mk 0x32 7 [0, 1, 0x61, 0x12, 0x34, 0x68, 0x69], RxCall.mk 0xD0 0 []] :=
  ⟨(recv_pt_chunk_independent (demo OPEN)
      [[0x32], [7], [0], [1], [0x61], [0x12], [0x34], [0x68], [0x69], [0xD0], [0]]
      rfl (Or.inr (Or.inl rfl)) (by decide) (by decide) (by decide)).1, by decide⟩

theorem cstr_of_zero (buf : List Nat) (off : Nat) (h : rd buf off = 0) : cstr buf off = [] := by
  unfold cstr
  unfold rd at h
  cases hd : buf.drop off with
  | nil => rfl
  | cons x l =>
    have hx : buf.getD off 0 = x := by
      rw [List.getD_eq_getElem?_getD, ← List.head?_drop, hd]; rfl
    rw [hx] at h
    subst h
    rfl

theorem rd_set_self (buf : List Nat) (i v : Nat) (h : i < buf.length) :
    rd (buf.set i v) i = v := by
  unfold rd
  simp [List.getD_eq_getElem?_getD, h]

theorem rd_set_zero (buf : List Nat) (i j : Nat) (h : rd buf j = 0) :
    rd (buf.set i 0) j = 0 := by
  unfold rd at h ⊢
  by_cases e : i = j
  · subst e
    by_cases hl : i < buf.length
    · simp [List.getD_eq_getElem?_getD, hl]
    · have hl' : (buf.set i 0).length ≤ i := by simpa using Nat.le_of_not_lt hl
      simp [List.getD_eq_getElem?_getD, List.getElem?_eq_none hl']
  · simpa [List.getD_eq_getElem?_getD, List.getElem?_set_ne e] using h

/-- For every QoS-0 PUBLISH that `handle_rxbuf` delivers, the message string handed to
`mqtt_publish_cb` is empty: the terminator of the topic is stored on the first byte of the
message (lines 239-240), the receive buffer having one spare byte, not two. -/
theorem handle_rxbuf_qos0_msg_empty (s : Client) (type len : Nat) (buf : List Nat)
    (hstate : s.state = OPEN ∨ s.state = DATA_SENT)
    (htype : type &&& 0xF0 = PUBLISH) (hdup : type &&& 0x08 = 0)
    (hqos : (type >>> 1) &&& 0x03 = 0) (hlen : 4 ≤ len)
    (hbuf : s.rxbuf = some buf) (hsize : buf.length = len + 1)
    (htl : ((rd buf 0 <<< 8) ||| rd buf 1) % 65536 ≤ len - 2) :
    (handle_rxbuf s type len).1 = 1 ∧
    (handle_rxbuf s type len).2.published = s.published ++
      [PublishCall.mk
        (cstr ((buf.set (2 + ((rd buf 0 <<< 8) ||| rd buf 1) % 65536) 0).set len 0) 2)
        [] 0 (type &&& 0x01)] := by
  have hst : ¬ ((s.state ≠ OPEN ∧ s.state ≠ DATA_SENT) ∨ len < 4) := by
    rcases hstate with h | h <;> simp [h] <;> omega
  have hne : PUBLISH ≠ CONNACK := by decide
  have h5 : ¬ (((rd buf 0 <<< 8) ||| rd buf 1) % 65536 > len - 2) := by omega
  have h6 : ¬ ((0 : Nat) > 0 ∧ len - 2 - ((rd buf 0 <<< 8) ||| rd buf 1) % 65536 < 2) := by
    omega
  have h7 : ¬ ((0 : Nat) > 0) := by omega
  unfold handle_rxbuf
  simp only [htype, hdup, hbuf, Option.getD_some, if_neg hne, if_true, if_neg hst,
    ne_eq, not_true_eq_false, if_false, hqos, if_neg h5, if_neg h6, if_neg h7]
  have e : 2 + ((rd buf 0 <<< 8) ||| rd buf 1) % 65536 +
      (len - 2 - ((rd buf 0 <<< 8) ||| rd buf 1) % 65536) = len := by omega
  rw [e]
  have hz : rd ((buf.set (2 + ((rd buf 0 <<< 8) ||| rd buf 1) % 65536) 0).set len 0)
      (2 + ((rd buf 0 <<< 8) ||| rd buf 1) % 65536) = 0 :=
    rd_set_zero _ _ _ (rd_set_self _ _ _ (by omega))
  rw [cstr_of_zero _ _ hz]
  exact ⟨trivial, rfl⟩

/-- C2, the code at the failing input: in state `OPEN` the QoS-0 frame
`30 05 00 01 61 68 69` (topic "a", message "hi") is accepted and `mqtt_publish_cb` is
called once, with topic "a" but with the empty message instead of "hi"; the same frame
with QoS 1 and packet id 0x1234 delivers "hi". -/
theorem handle_rxbuf_qos0_message_lost :
    (recv_cb (demo OPEN) [0x30, 5, 0, 1, 0x61, 0x68, 0x69] 7).published =
      [PublishCall.mk [0x61] [] 0 0] ∧
    (recv_cb (demo OPEN) [0x30, 5, 0, 1, 0x61, 0x68, 0x69] 7).state = OPEN ∧
    (handle_rxbuf { demo OPEN with rxbuf := some [0, 1, 0x61, 0x68, 0x69, 0] } 0x30 5).2.published =
      [PublishCall.mk [0x61] [] 0 0] ∧
    (recv_cb (demo OPEN) [0x32, 7, 0, 1, 0x61, 0x12, 0x34, 0x68, 0x69] 9).published =
      [PublishCall.mk [0x61] [0x68, 0x69] 1 0] := by
  decide

/-- C3, counterexample: with `q_max = 0` and an empty queue (depth 0 ≥ `q_max`) a
non-forced `enQ` succeeds and queues the frame. -/
theorem enQ_accepts_at_depth_zero_q_max_zero :
    demo_q0.sendQ.length ≥ demo_q0.cfg.q_max ∧
    (enQ demo_q0 [0xC0, 0] 2 0).1 = 1 ∧
    (enQ demo_q0 [0xC0, 0] 2 0).2.sendQ = [Q.mk [0xC0, 0] 2] := by
  decide

/-- C3, amended. For every queue depth `d`, every `q_max` and every frame, `enQ` returns 0
and leaves the client unchanged exactly when `force = 0`, `d ≥ 1` and `d ≥ q_max`; in every
other case (any forced call, an empty queue, `d < q_max`) it returns 1, links the frame at
the end of the queue and calls `sendFromQ`. With `q_max = 1` and one entry queued in state
`DATA_SENT`, a non-forced call fails leaving depth 1 and a forced one gives depth 2. -/
theorem enQ_depth_limit (s : Client) (data : List Nat) (len force : Nat) :
    enQ s data len force =
      (if force = 0 ∧ 1 ≤ s.sendQ.length ∧ s.cfg.q_max ≤ s.sendQ.length then (0, s)
       else (1, sendFromQ { s with sendQ := s.sendQ ++ [Q.mk data len] })) ∧
    (enQ s data len (force + 1)).1 = 1 ∧
    enQ demo_queued [0x30, 0] 2 0 = (0, demo_queued) ∧
    (enQ demo_queued [0x40, 2, 0, 1] 4 1).1 = 1 ∧
    (enQ demo_queued [0x40, 2, 0, 1] 4 1).2.sendQ.length = 2 := by
  refine ⟨enQ_eq s data len force, ?_, by decide, by decide, by decide⟩
  rw [enQ_eq]
  simp

/-- C6. For a PUBREC or PUBREL frame, `handle_rxbuf` called with `len = 2` returns 1 and
force-enqueues exactly one four-byte frame: `PUBREL` after PUBREC and `PUBCOMP` after
PUBREL, then 2, then the two payload bytes `rxbuf[0]`, `rxbuf[1]`; called with any other
`len` it returns 0 and enqueues and sends nothing, and `recv_pt` (at its `handle_rxbuf`
call) then leaves through the error exit with the state `CLOSING`, the queue and the
record of sent frames unchanged. -/
theorem handle_rxbuf_pubrec_pubrel (s : Client) (type len : Nat)
    (k : Client → List Nat → Nat → Client) (data : List Nat) (size : Nat)
    (htype : type &&& 0xF0 = PUBREC ∨ type &&& 0xF0 = PUBREL) :
    (handle_rxbuf s type len).1 = (if len = 2 then 1 else 0) ∧
    (handle_rxbuf s type len).2.sent ++ (handle_rxbuf s type len).2.sendQ =
      s.sent ++ s.sendQ ++
        (if len = 2 then
          [Q.mk [if type &&& 0xF0 = PUBREC then PUBREL else PUBCOMP, 2,
            rd (s.rxbuf.getD []) 0, rd (s.rxbuf.getD []) 1] 4]
         else []) ∧
    (len ≠ 2 →
      (recv_handle k { s with type := type, len := len } data size).state = CLOSING ∧
      (recv_handle k { s with type := type, len := len } data size).sendQ = s.sendQ ∧
      (recv_handle k { s with type := type, len := len } data size).sent = s.sent) := by
  have h1 : ¬ (type &&& 0xF0 = CONNACK) := by
    rcases htype with h | h <;> rw [h] <;> decide
  have h2 : ¬ (type &&& 0xF0 = PUBLISH) := by
    rcases htype with h | h <;> rw [h] <;> decide
  have key : ∀ s' : Client, handle_rxbuf s' type len =
      if len = 2 then
        (1, (enQ { s' with tmr_timeout := some (s'.cfg.keepalive * 1500) }
          [if type &&& 0xF0 = PUBREC then PUBREL else PUBCOMP, 2,
            rd (s'.rxbuf.getD []) 0, rd (s'.rxbuf.getD []) 1] 4 1).2)
      else (0, { s' with tmr_timeout := some (s'.cfg.keepalive * 1500) }) := by
    intro s'
    unfold handle_rxbuf
    simp only [if_neg h1, if_neg h2, if_pos htype]
  refine ⟨?_, ?_, ?_⟩
  · rw [key]; split_ifs <;> rfl
  · rw [key]
    by_cases h : len = 2
    · simp only [if_pos h, enQ_forced, sendFromQ_outflow]
      simp
    · simp only [if_neg h]
      simp
  · intro h
    unfold recv_handle
    simp only [key, if_neg h, if_true]
    exact ⟨rfl, rfl, rfl⟩

/-- C6, witness: PUBREL with id 0x0007 is answered by PUBCOMP `70 02 00 07`; a PUBREC
frame with a one-byte payload closes the connection without queueing anything. -/
theorem handle_rxbuf_pubrec_pubrel_witness :
    (handle_rxbuf { demo OPEN with rxbuf := some [0, 7, 0] } 0x62 2).2.sent =
      [Q.mk [0x70, 2, 0, 7] 4] ∧
    (recv_cb (demo OPEN) [0x50, 1, 7] 3).state = CLOSING ∧
    (recv_handle (recv_again 1) { demo OPEN with type := 0x50, len := 1 } [] 0).sendQ = [] :=
  ⟨by decide, by decide,
    ((handle_rxbuf_pubrec_pubrel (demo OPEN) 0x50 1 (recv_again 1) [] 0
      (Or.inl (by decide))).2.2 (by decide)).2.1⟩

/-- C9. Called in a state other than `OPEN` and `DATA_SENT`, each of `mqtt_publish`,
`mqtt_subscribe` and `mqtt_unsubscribe` returns 0 and leaves every global as it was (state,
queue, packet-id counter, timers) and records no call to the transport. -/
theorem api_rejected_when_not_open (s : Client) (topic msg : List Nat) (qos retain : Nat)
    (h : s.state ≠ OPEN ∧ s.state ≠ DATA_SENT) :
    mqtt_publish s topic msg qos retain = (0, s) ∧
    mqtt_subscribe s topic qos = (0, s) ∧
    mqtt_unsubscribe s topic = (0, s) := by
  unfold mqtt_publish mqtt_subscribe mqtt_unsubscribe
  simp only [if_pos h, and_self]

/-- C9, witness: a publish while `CONNECTING`. -/
theorem api_rejected_when_not_open_witness :
    mqtt_publish (demo CONNECTING) [0x74] [0x68] 1 0 = (0, demo CONNECTING) :=
  (api_rejected_when_not_open (demo CONNECTING) [0x74] [0x68] 1 0 (by decide)).1

/-- C5. For a PUBLISH without the DUP flag received in state `OPEN` or `DATA_SENT` whose
payload (4 to 255 bytes) is the topic length, the topic, the packet id `i` when the QoS
bits are not 0, and the message: `handle_rxbuf` returns 1 and, whatever the queue depth and
`q_max`, the frames sent and queued afterwards are those before plus exactly one new
four-byte frame, `40 02 (i >> 8) (i & 0xff)` (PUBACK) for QoS 1 and `50 02 ...` (PUBREC)
for QoS 2; for QoS 0 nothing is added. -/
theorem handle_rxbuf_publish_ack (s : Client) (type i z : Nat) (topic msg : List Nat)
    (hstate : s.state = OPEN ∨ s.state = DATA_SENT)
    (htype : type &&& 0xF0 = PUBLISH) (hdup : type &&& 0x08 = 0)
    (hi : i < 65536)
    (hmin : 4 ≤ 2 + topic.length + (if (type >>> 1) &&& 0x03 = 0 then 0 else 2) + msg.length)
    (hmax : 2 + topic.length + (if (type >>> 1) &&& 0x03 = 0 then 0 else 2) + msg.length ≤ 255)
    (hbuf : s.rxbuf = some (topic.length / 256 :: topic.length % 256 :: (topic ++
      ((if (type >>> 1) &&& 0x03 = 0 then [] else [i / 256, i % 256]) ++ (msg ++ [z]))))) :
    (handle_rxbuf s type
        (2 + topic.length + (if (type >>> 1) &&& 0x03 = 0 then 0 else 2) + msg.length)).1 = 1 ∧
    (handle_rxbuf s type
        (2 + topic.length + (if (type >>> 1) &&& 0x03 = 0 then 0 else 2) + msg.length)).2.sent ++
    (handle_rxbuf s type
        (2 + topic.length + (if (type >>> 1) &&& 0x03 = 0 then 0 else 2) + msg.length)).2.sendQ =
      s.sent ++ s.sendQ ++
        (if (type >>> 1) &&& 0x03 = 0 then []
         else [Q.mk [if (type >>> 1) &&& 0x03 = 1 then 0x40 else 0x50, 2, i >>> 8, i &&& 0xff] 4]) := by
  generalize hL : 2 + topic.length + (if (type >>> 1) &&& 0x03 = 0 then 0 else 2) + msg.length = L
    at hmin hmax ⊢
  generalize hB : (topic.length / 256 :: topic.length % 256 :: (topic ++
      ((if (type >>> 1) &&& 0x03 = 0 then [] else [i / 256, i % 256]) ++ (msg ++ [z])))) = buf
    at hbuf
  have htl : ((rd buf 0 <<< 8) ||| rd buf 1) % 65536 = topic.length := by
    have : topic.length < 65536 := by split_ifs at hL <;> omega
    rw [← hB]
    exact be16_eq topic.length this
  have hst : ¬ ((s.state ≠ OPEN ∧ s.state ≠ DATA_SENT) ∨ L < 4) := by
    rcases hstate with h | h <;> simp [h] <;> omega
  have hne : PUBLISH ≠ CONNACK := by decide
  unfold handle_rxbuf
  simp only [htype, hdup, hbuf, Option.getD_some, htl, if_neg hne, if_true, if_neg hst,
    ne_eq, not_true_eq_false, if_false]
  by_cases hq : (type >>> 1) &&& 0x03 = 0
  · simp only [hq, if_true] at hL
    have h5 : ¬ (topic.length > L - 2) := by omega
    simp [hq, h5]
  · simp only [hq, if_false] at hL hB
    have hid : ((rd buf (2 + topic.length) <<< 8) ||| rd buf (2 + topic.length + 1)) % 65536
        = i := by
      have e1 := rd_skip (topic.length / 256) (topic.length % 256) topic
        ([i / 256, i % 256] ++ (msg ++ [z])) 0
      have e2 := rd_skip (topic.length / 256) (topic.length % 256) topic
        ([i / 256, i % 256] ++ (msg ++ [z])) 1
      rw [hB] at e1 e2
      rw [Nat.add_zero] at e1
      rw [e1, e2]
      exact be16_eq i hi
    have h5 : ¬ (topic.length > L - 2) := by omega
    have h6 : (type >>> 1) &&& 0x03 > 0 := by omega
    have h7 : ¬ ((type >>> 1) &&& 0x03 > 0 ∧ L - 2 - topic.length < 2) := by omega
    simp only [if_neg h5, if_neg h7, if_pos h6, hid, if_neg hq]
    simp [enQ_forced, sendFromQ_outflow, PUBACK, PUBREC]

/-- C5, witness: the QoS-1 PUBLISH of topic "a", id 0x1234, message "hi", received with a
full queue (`q_max = 1`, one entry), is answered by the PUBACK `40 02 12 34`. -/
theorem handle_rxbuf_publish_ack_witness :
    (handle_rxbuf { demo_queued with rxbuf := some [0, 1, 0x61, 0x12, 0x34, 0x68, 0x69, 0] }
        0x32 7).2.sendQ = [Q.mk [0xC0, 0] 2, Q.mk [0x40, 2, 0x12, 0x34] 4] ∧
    (handle_rxbuf { demo_queued with rxbuf := some [0, 1, 0x61, 0x12, 0x34, 0x68, 0x69, 0] }
        0x32 7).1 = 1 :=
  ⟨by decide,
   (handle_rxbuf_publish_ack
      { demo_queued with rxbuf := some [0, 1, 0x61, 0x12, 0x34, 0x68, 0x69, 0] }
      0x32 0x1234 0 [0x61] [0x68, 0x69] (Or.inr rfl) (by decide) (by decide) (by decide)
      (by decide) (by decide) (by decide)).1⟩

theorem set_zeros (pre : List Nat) (k v : Nat) (hk : 1 ≤ k) :
    (pre ++ List.replicate k 0).set pre.length v = (pre ++ [v]) ++ List.replicate (k - 1) 0 := by
  obtain ⟨m, rfl⟩ : ∃ m, k = m + 1 := ⟨k - 1, by omega⟩
  simp [List.replicate_succ, List.set_append_right]

theorem set_zeros_at (pre : List Nat) (p k v : Nat) (hp : p = pre.length) (hk : 1 ≤ k) :
    (pre ++ List.replicate k 0).set p v = (pre ++ [v]) ++ List.replicate (k - 1) 0 := by
  subst hp; exact set_zeros pre k v hk

theorem memcpy_zeros (pre src : List Nat) (p k n : Nat) (hp : p = pre.length) (hn : n ≤ k)
    (hs : n ≤ src.length) :
    memcpy (pre ++ List.replicate k 0) p src n =
      (pre ++ src.take n) ++ List.replicate (k - n) 0 := by
  subst hp
  have e : src = src.take n ++ src.drop n := (List.take_append_drop n src).symm
  have hl : (src.take n).length = n := by simp; omega
  conv_lhs => rw [e]
  rw [memcpy_append_left n _ _ _ _ (by omega)]
  have h := memcpy_fill (src.take n) pre (List.replicate k 0) (by simp; omega)
  rw [hl] at h
  rw [h]
  simp [List.drop_replicate]

theorem put_header_zeros (pre : List Nat) (p k type len : Nat) (hp : p = pre.length)
    (hk : 3 ≤ k) :
    put_header (pre ++ List.replicate k 0) p type len =
      ((pre ++ header_bytes type len) ++
        List.replicate (k - (header_bytes type len).length) 0,
       (header_bytes type len).length) := by
  unfold put_header header_bytes
  by_cases h : len > 127
  · simp only [if_pos h]
    rw [set_zeros_at pre p k type hp (by omega),
      set_zeros_at (pre ++ [type]) (p + 1) (k - 1) _ (by simp [hp]) (by omega),
      set_zeros_at (pre ++ [type] ++ [0x80 + (len &&& 0x7f)]) (p + 2) (k - 1 - 1) _
        (by simp [hp]) (by omega)]
    simp
    omega
  · simp only [if_neg h]
    rw [set_zeros_at pre p k type hp (by omega),
      set_zeros_at (pre ++ [type]) (p + 1) (k - 1) _ (by simp [hp]) (by omega)]
    simp
    omega

theorem put_u16_zeros (pre : List Nat) (p k v : Nat) (hp : p = pre.length) (hk : 2 ≤ k) :
    put_u16 (pre ++ List.replicate k 0) p v =
      ((pre ++ [v >>> 8, v &&& 0xff]) ++ List.replicate (k - 2) 0, 2) := by
  unfold put_u16
  simp only []
  rw [set_zeros_at pre p k _ hp (by omega),
    set_zeros_at (pre ++ [v >>> 8]) (p + 1) (k - 1) _ (by simp [hp]) (by omega)]
  simp
  omega

theorem take_cstr (s : List Nat) : s.take (cstr s 0).length = cstr s 0 := by
  unfold cstr
  rw [List.drop_zero]
  exact (List.prefix_iff_eq_take.1 (List.takeWhile_prefix _)).symm

theorem cstr_length_le (s : List Nat) : (cstr s 0).length ≤ s.length := by
  unfold cstr
  rw [List.drop_zero]
  exact (List.takeWhile_prefix _).length_le

theorem put_string_zeros (pre : List Nat) (p k : Nat) (s : List Nat) (hp : p = pre.length)
    (hl : (cstr s 0).length < 65534) (hk : 2 + (cstr s 0).length ≤ k) :
    put_string (pre ++ List.replicate k 0) p s =
      ((pre ++ string_bytes (cstr s 0)) ++
        List.replicate (k - (string_bytes (cstr s 0)).length) 0,
       (string_bytes (cstr s 0)).length) := by
  unfold put_string string_bytes os_strlen
  have e1 : (cstr s 0).length % 65536 = (cstr s 0).length := Nat.mod_eq_of_lt (by omega)
  have e2 : (2 + (cstr s 0).length) % 65536 = 2 + (cstr s 0).length :=
    Nat.mod_eq_of_lt (by omega)
  simp only [e1, e2]
  rw [set_zeros_at pre p k _ hp (by omega),
    set_zeros_at (pre ++ [(cstr s 0).length >>> 8]) (p + 1) (k - 1) _ (by simp [hp]) (by omega),
    memcpy_zeros (pre ++ [(cstr s 0).length >>> 8] ++ [(cstr s 0).length &&& 0xff]) s (p + 2)
      (k - 1 - 1) _ (by simp [hp]) (by omega) (cstr_length_le s),
    take_cstr]
  simp
  constructor
  · omega
  · omega

theorem header_bytes_length (type len : Nat) :
    (header_bytes type len).length = if len < 128 then 2 else 3 := by
  unfold header_bytes
  by_cases h : len > 127
  · rw [if_pos h, if_neg (by omega)]; rfl
  · rw [if_neg h, if_pos (by omega)]; rfl

theorem string_bytes_length (t : List Nat) : (string_bytes t).length = 2 + t.length := by
  unfold string_bytes; simp; omega

/-- The buffer `mqtt_publish` builds, for strings short enough for the 16-bit lengths. -/
theorem mqtt_publish_buf_eq (s : Client) (topic msg : List Nat) (qos retain : Nat)
    (hfit : 2 + (cstr topic 0).length + (if qos > 0 then 2 else 0) + (cstr msg 0).length
      ≤ 65532) :
    mqtt_publish_buf s topic msg qos retain =
      (header_bytes ((PUBLISH ||| (qos <<< 1) ||| (if retain ≠ 0 then 0x01 else 0)) % 256)
          (2 + (cstr topic 0).length + (if qos > 0 then 2 else 0) + (cstr msg 0).length) ++
        string_bytes (cstr topic 0) ++
        (if qos > 0 then [next_id s.nextId >>> 8, next_id s.nextId &&& 0xff] else []) ++
        cstr msg 0,
       1 + (if 2 + (cstr topic 0).length + (if qos > 0 then 2 else 0) + (cstr msg 0).length
              < 128 then 1 else 2) +
         (2 + (cstr topic 0).length + (if qos > 0 then 2 else 0) + (cstr msg 0).length),
       if qos > 0 then { s with nextId := next_id s.nextId } else s) := by
  unfold mqtt_publish_buf os_strlen
  generalize hn : 2 + (cstr topic 0).length + (if qos > 0 then 2 else 0) + (cstr msg 0).length
    = n at hfit
  generalize (PUBLISH ||| (qos <<< 1) ||| (if retain ≠ 0 then 0x01 else 0)) % 256 = ty
  have hq : (if qos > 0 then 2 else 0) ≤ 2 := by split_ifs <;> omega
  have e1 : n % 65536 = n := Nat.mod_eq_of_lt (by omega)
  have e2 : (1 + (if n < 128 then 1 else 2) + n) % 65536 = 1 + (if n < 128 then 1 else 2) + n :=
    Nat.mod_eq_of_lt (by split_ifs <;> omega)
  simp only [e1, e2]
  have hH := header_bytes_length ty n
  have hS := string_bytes_length (cstr topic 0)
  generalize hk : 1 + (if n < 128 then 1 else 2) + n = k
  have hk' : k = (header_bytes ty n).length + n := by rw [hH, ← hk]; split_ifs <;> omega
  have w1 := put_header_zeros [] 0 k ty n rfl (by rw [hk', hH]; split_ifs <;> omega)
  rw [List.nil_append, List.nil_append] at w1
  rw [w1]
  simp only []
  have w2 := put_string_zeros (header_bytes ty n) (0 + (header_bytes ty n).length)
    (k - (header_bytes ty n).length) topic (by omega) (by omega) (by omega)
  rw [w2]
  simp only []
  by_cases h0 : qos > 0
  · simp only [if_pos h0] at hn ⊢
    have w3 := put_u16_zeros (header_bytes ty n ++ string_bytes (cstr topic 0))
      (0 + (header_bytes ty n).length + (string_bytes (cstr topic 0)).length)
      (k - (header_bytes ty n).length - (string_bytes (cstr topic 0)).length)
      (next_id s.nextId) (by simp) (by omega)
    rw [w3]
    simp only []
    have w4 := memcpy_zeros (header_bytes ty n ++ string_bytes (cstr topic 0) ++
        [next_id s.nextId >>> 8, next_id s.nextId &&& 0xff]) msg
      (0 + (header_bytes ty n).length + (string_bytes (cstr topic 0)).length + 2)
      (k - (header_bytes ty n).length - (string_bytes (cstr topic 0)).length - 2)
      (cstr msg 0).length (by simp; omega) (by omega) (cstr_length_le msg)
    rw [w4, take_cstr]
    have ez : k - (header_bytes ty n).length - (string_bytes (cstr topic 0)).length - 2 -
        (cstr msg 0).length = 0 := by omega
    rw [ez]
    simp
  · simp only [if_neg h0] at hn ⊢
    have w4 := memcpy_zeros (header_bytes ty n ++ string_bytes (cstr topic 0)) msg
      (0 + (header_bytes ty n).length + (string_bytes (cstr topic 0)).length + 0)
      (k - (header_bytes ty n).length - (string_bytes (cstr topic 0)).length)
      (cstr msg 0).length (by simp) (by omega) (cstr_length_le msg)
    rw [w4, take_cstr]
    have ez : k - (header_bytes ty n).length - (string_bytes (cstr topic 0)).length -
        (cstr msg 0).length = 0 := by omega
    rw [ez]
    simp

theorem shr8_eq (x : Nat) : x >>> 8 = x / 256 := Nat.shiftRight_eq_div_pow x 8

theorem and255_eq (x : Nat) : x &&& 0xff = x % 256 := Nat.and_pow_two_sub_one_eq_mod x 8

theorem and127_eq (x : Nat) : x &&& 0x7f = x % 128 := Nat.and_pow_two_sub_one_eq_mod x 7

theorem add128_eq_or (x : Nat) (h : x < 128) : 0x80 + x = 0x80 ||| x := by
  have := Nat.mul_add_lt_is_or (show x < 2 ^ 7 from h) 1
  simpa using this

theorem cstr_of_nonzero (t : List Nat) (h : ∀ b ∈ t, b ≠ 0) : cstr t 0 = t := by
  unfold cstr
  rw [List.drop_zero, List.takeWhile_eq_self_iff]
  intro b hb
  simpa using h b hb

theorem header_bytes_small (type n : Nat) (hn : n ≤ 16383) :
    header_bytes type n = type :: (if n < 128 then [n] else [0x80 ||| (n % 128), n / 128]) := by
  unfold header_bytes
  by_cases h : n > 127
  · rw [if_pos h, if_neg (by omega), and127_eq, add128_eq_or _ (Nat.mod_lt _ (by decide)),
      Nat.shiftRight_eq_div_pow]
    have : n / 2 ^ 7 % 256 = n / 128 := by
      have h1 : n / 128 < 256 := by omega
      show n / 128 % 256 = n / 128
      exact Nat.mod_eq_of_lt h1
    rw [this]
  · rw [if_neg h, if_pos (by omega)]

theorem publish_type_byte (qos retain : Nat) (hq : qos ≤ 2) :
    (PUBLISH ||| (qos <<< 1) ||| (if retain ≠ 0 then 0x01 else 0)) % 256 =
      0x30 ||| (qos <<< 1) ||| (if retain ≠ 0 then 1 else 0) := by
  interval_cases qos <;> split_ifs <;> decide

/-- C10. For a topic `t` and a message `m` without zero bytes, `qos ≤ 2` and
`n = 2 + |t| + (2 if qos > 0) + |m| ≤ 16383`, the buffer `mqtt_publish` builds is: the byte
`0x30 | (qos << 1) | retain-bit`; `n` as the one byte `n` when `n < 128`, else as
`0x80 | (n mod 128)`, `n div 128`; `|t|` as two big-endian bytes; `t`; when `qos > 0` the
newly issued packet id as two big-endian bytes; then `m`. Its length is the allocated
`buflen = 1 + (1 or 2) + n`; the counter moves to the issued id when `qos > 0` and stays
otherwise; in state `OPEN` or `DATA_SENT` this buffer is what `mqtt_publish` passes to
`enQ` unforced. In particular `publish("t/1", "hi", 0, false)` in state `OPEN` with an
empty queue sends the one frame `30 07 00 03 74 2F 31 68 69`. -/
theorem mqtt_publish_frame (s : Client) (t m : List Nat) (qos retain n : Nat)
    (hstate : s.state = OPEN ∨ s.state = DATA_SENT)
    (ht : ∀ b ∈ t, b ≠ 0) (hm : ∀ b ∈ m, b ≠ 0) (hq : qos ≤ 2)
    (hn : n = 2 + t.length + (if qos > 0 then 2 else 0) + m.length) (hmax : n ≤ 16383) :
    (mqtt_publish_buf s t m qos retain).1 =
      [0x30 ||| (qos <<< 1) ||| (if retain ≠ 0 then 1 else 0)] ++
      (if n < 128 then [n] else [0x80 ||| (n % 128), n / 128]) ++
      [t.length / 256, t.length % 256] ++ t ++
      (if qos > 0 then [next_id s.nextId / 256, next_id s.nextId % 256] else []) ++ m ∧
    (mqtt_publish_buf s t m qos retain).2.1 = 1 + (if n < 128 then 1 else 2) + n ∧
    (mqtt_publish_buf s t m qos retain).1.length = (mqtt_publish_buf s t m qos retain).2.1 ∧
    (mqtt_publish_buf s t m qos retain).2.2 =
      (if qos > 0 then { s with nextId := next_id s.nextId } else s) ∧
    mqtt_publish s t m qos retain =
      enQ (mqtt_publish_buf s t m qos retain).2.2 (mqtt_publish_buf s t m qos retain).1
        (mqtt_publish_buf s t m qos retain).2.1 0 ∧
    mqtt_publish (demo OPEN) [0x74, 0x2F, 0x31] [0x68, 0x69] 0 0 =
      (1, { demo OPEN with
            sent := [Q.mk [0x30, 0x07, 0x00, 0x03, 0x74, 0x2F, 0x31, 0x68, 0x69] 9]
            state := DATA_SENT
            tmr_keepalive := some 60000 }) := by
  have hfit : 2 + (cstr t 0).length + (if qos > 0 then 2 else 0) + (cstr m 0).length ≤ 65532 := by
    rw [cstr_of_nonzero t ht, cstr_of_nonzero m hm, ← hn]; omega
  have hb := mqtt_publish_buf_eq s t m qos retain hfit
  rw [cstr_of_nonzero t ht, cstr_of_nonzero m hm, ← hn, publish_type_byte qos retain hq,
    header_bytes_small _ n hmax] at hb
  have e1 : (mqtt_publish_buf s t m qos retain).1 =
      [0x30 ||| (qos <<< 1) ||| (if retain ≠ 0 then 1 else 0)] ++
      (if n < 128 then [n] else [0x80 ||| (n % 128), n / 128]) ++
      [t.length / 256, t.length % 256] ++ t ++
      (if qos > 0 then [next_id s.nextId / 256, next_id s.nextId % 256] else []) ++ m := by
    rw [hb]
    simp only [string_bytes, shr8_eq, and255_eq]
    simp
  refine ⟨e1, by rw [hb], ?_, by rw [hb], ?_, by decide⟩
  · rw [e1, hb]
    clear hfit hb e1
    by_cases h0 : qos > 0 <;> by_cases h1 : n < 128 <;>
      simp only [h0, h1, if_true, if_false, List.length_append, List.length_cons,
        List.length_nil] at hn ⊢ <;> omega
  · unfold mqtt_publish
    rw [if_neg (by rcases hstate with h | h <;> simp [h])]

/-- C10, witness: the frame of `publish("t/1", "hi", 0, false)`. -/
theorem mqtt_publish_frame_witness :
    (mqtt_publish_buf (demo OPEN) [0x74, 0x2F, 0x31] [0x68, 0x69] 0 0).1 =
      [0x30, 0x07, 0x00, 0x03, 0x74, 0x2F, 0x31, 0x68, 0x69] :=
  (mqtt_publish_frame (demo OPEN) [0x74, 0x2F, 0x31] [0x68, 0x69] 0 0 7 (Or.inl rfl)
    (by decide) (by decide) (by decide) (by decide) (by decide)).1

/-- The buffer `mqtt_subscribe` builds, for a topic short enough for the 16-bit lengths. -/
theorem mqtt_subscribe_buf_eq (s : Client) (topic : List Nat) (qos : Nat)
    (hfit : (cstr topic 0).length ≤ 65527) :
    mqtt_subscribe_buf s topic qos =
      (header_bytes (SUBSCRIBE ||| 0x02) (2 + 2 + (cstr topic 0).length + 1) ++
        [next_id s.nextId >>> 8, next_id s.nextId &&& 0xff] ++
        string_bytes (cstr topic 0) ++ [qos],
       1 + (if 2 + 2 + (cstr topic 0).length + 1 < 128 then 1 else 2) +
         (2 + 2 + (cstr topic 0).length + 1),
       { s with nextId := next_id s.nextId }) := by
  unfold mqtt_subscribe_buf os_strlen
  generalize hn : 2 + 2 + (cstr topic 0).length + 1 = n
  generalize SUBSCRIBE ||| 0x02 = ty
  have e1 : n % 65536 = n := Nat.mod_eq_of_lt (by omega)
  have e2 : (1 + (if n < 128 then 1 else 2) + n) % 65536 = 1 + (if n < 128 then 1 else 2) + n :=
    Nat.mod_eq_of_lt (by split_ifs <;> omega)
  simp only [e1, e2]
  have hH := header_bytes_length ty n
  have hS := string_bytes_length (cstr topic 0)
  generalize hk : 1 + (if n < 128 then 1 else 2) + n = k
  have hk' : k = (header_bytes ty n).length + n := by rw [hH, ← hk]; split_ifs <;> omega
  have w1 := put_header_zeros [] 0 k ty n rfl (by rw [hk', hH]; split_ifs <;> omega)
  rw [List.nil_append, List.nil_append] at w1
  rw [w1]
  simp only []
  have w3 := put_u16_zeros (header_bytes ty n) (0 + (header_bytes ty n).length)
    (k - (header_bytes ty n).length) (next_id s.nextId) (by omega) (by omega)
  rw [w3]
  simp only []
  have w2 := put_string_zeros (header_bytes ty n ++
      [next_id s.nextId >>> 8, next_id s.nextId &&& 0xff])
    (0 + (header_bytes ty n).length + 2) (k - (header_bytes ty n).length - 2) topic
    (by simp) (by omega) (by omega)
  rw [w2]
  simp only []
  rw [set_zeros_at _ _ _ qos (by simp; omega) (by omega)]
  have ez : k - (header_bytes ty n).length - 2 - (string_bytes (cstr topic 0)).length - 1 = 0 := by
    omega
  rw [ez]
  simp

/-- The buffer `mqtt_unsubscribe` builds, for a topic short enough for the 16-bit lengths. -/
theorem mqtt_unsubscribe_buf_eq (s : Client) (topic : List Nat)
    (hfit : (cstr topic 0).length ≤ 65528) :
    mqtt_unsubscribe_buf s topic =
      (header_bytes (UNSUBSCRIBE ||| 0x02) (2 + 2 + (cstr topic 0).length) ++
        [next_id s.nextId >>> 8, next_id s.nextId &&& 0xff] ++
        string_bytes (cstr topic 0),
       1 + (if 2 + 2 + (cstr topic 0).length < 128 then 1 else 2) +
         (2 + 2 + (cstr topic 0).length),
       { s with nextId := next_id s.nextId }) := by
  unfold mqtt_unsubscribe_buf os_strlen
  generalize hn : 2 + 2 + (cstr topic 0).length = n
  generalize UNSUBSCRIBE ||| 0x02 = ty
  have e1 : n % 65536 = n := Nat.mod_eq_of_lt (by omega)
  have e2 : (1 + (if n < 128 then 1 else 2) + n) % 65536 = 1 + (if n < 128 then 1 else 2) + n :=
    Nat.mod_eq_of_lt (by split_ifs <;> omega)
  simp only [e1, e2]
  have hH := header_bytes_length ty n
  have hS := string_bytes_length (cstr topic 0)
  generalize hk : 1 + (if n < 128 then 1 else 2) + n = k
  have hk' : k = (header_bytes ty n).length + n := by rw [hH, ← hk]; split_ifs <;> omega
  have w1 := put_header_zeros [] 0 k ty n rfl (by rw [hk', hH]; split_ifs <;> omega)
  rw [List.nil_append, List.nil_append] at w1
  rw [w1]
  simp only []
  have w3 := put_u16_zeros (header_bytes ty n) (0 + (header_bytes ty n).length)
    (k - (header_bytes ty n).length) (next_id s.nextId) (by omega) (by omega)
  rw [w3]
  simp only []
  have w2 := put_string_zeros (header_bytes ty n ++
      [next_id s.nextId >>> 8, next_id s.nextId &&& 0xff])
    (0 + (header_bytes ty n).length + 2) (k - (header_bytes ty n).length - 2) topic
    (by simp) (by omega) (by omega)
  rw [w2]
  have ez : k - (header_bytes ty n).length - 2 - (string_bytes (cstr topic 0)).length = 0 := by
    omega
  rw [ez]
  simp

theorem next_id_spec (a : Nat) (h : a < 65536) :
    next_id a ≠ 0 ∧ next_id a = (if a = 65535 then 1 else a + 1) ∧ next_id a < 65536 := by
  unfold next_id
  by_cases e : a = 65535
  · subst e; decide
  · have h1 : (a + 1) % 65536 = a + 1 := Nat.mod_eq_of_lt (by omega)
    simp only [h1, if_neg e]
    rw [if_neg (by omega)]
    omega

theorem enQ_keeps (s : Client) (data : List Nat) (len force : Nat)
    (h : s.state = OPEN ∨ s.state = DATA_SENT) :
    (enQ s data len force).2.nextId = s.nextId ∧
    ((enQ s data len force).2.state = OPEN ∨ (enQ s data len force).2.state = DATA_SENT) := by
  rw [enQ_eq]
  split_ifs
  · exact ⟨rfl, h⟩
  · have hn : ∀ x : Client, (sendFromQ x).nextId = x.nextId := by
      intro x; unfold sendFromQ; split
      · rfl
      · split_ifs <;> rfl
    refine ⟨hn _, ?_⟩
    rcases sendFromQ_state { s with sendQ := s.sendQ ++ [Q.mk data len] } with e | ⟨_, e⟩
    · rw [e]; exact h
    · exact Or.inr e

theorem rd_id (pre rest : List Nat) (hi lo p : Nat) (hp : p = pre.length) :
    rd (pre ++ [hi, lo] ++ rest) p = hi ∧ rd (pre ++ [hi, lo] ++ rest) (p + 1) = lo := by
  subst hp
  have h0 := rd_append_right pre ([hi, lo] ++ rest) 0
  have h1 := rd_append_right pre ([hi, lo] ++ rest) 1
  rw [List.append_assoc]
  rw [Nat.add_zero] at h0
  rw [h0, h1]
  exact ⟨rfl, rfl⟩

theorem be_value (x : Nat) : (x >>> 8) * 256 + (x &&& 0xff) = x := by
  rw [shr8_eq, and255_eq]
  have := Nat.div_add_mod x 256
  omega

theorem api_call_step (s : Client) (c : ApiCall) (hstate : s.state = OPEN ∨ s.state = DATA_SENT)
    (hfits : c.fits) :
    c.written_id s = next_id s.nextId ∧ (c.run s).2.nextId = next_id s.nextId ∧
    ((c.run s).2.state = OPEN ∨ (c.run s).2.state = DATA_SENT) := by
  have hgate : ¬ (s.state ≠ OPEN ∧ s.state ≠ DATA_SENT) := by
    rcases hstate with h | h <;> simp [h]
  cases c with
  | publish topic msg qos retain =>
    obtain ⟨hq, hl⟩ := hfits
    unfold os_strlen at hl
    have hb := mqtt_publish_buf_eq s topic msg qos retain (by rw [if_pos hq]; omega)
    simp only [if_pos hq] at hb
    refine ⟨?_, ?_, ?_⟩
    · unfold ApiCall.written_id ApiCall.frame ApiCall.id_pos os_strlen
      simp only [hb]
      have hp : (if 2 + (cstr topic 0).length + 2 + (cstr msg 0).length > 127 then 3 else 2) +
          (2 + (cstr topic 0).length) =
          (header_bytes ((PUBLISH ||| (qos <<< 1) ||| (if retain ≠ 0 then 0x01 else 0)) % 256)
            (2 + (cstr topic 0).length + 2 + (cstr msg 0).length) ++
            string_bytes (cstr topic 0)).length := by
        rw [List.length_append, header_bytes_length, string_bytes_length]
        split_ifs <;> omega
      obtain ⟨r1, r2⟩ := rd_id _ (cstr msg 0) (next_id s.nextId >>> 8)
        (next_id s.nextId &&& 0xff) _ hp
      rw [r1, r2, be_value]
    · show (mqtt_publish s topic msg qos retain).2.nextId = _
      unfold mqtt_publish
      rw [if_neg hgate]
      simp only [hb]
      exact (enQ_keeps { s with nextId := next_id s.nextId } _ _ _ hstate).1
    · show (mqtt_publish s topic msg qos retain).2.state = OPEN ∨ (mqtt_publish s topic msg qos retain).2.state = DATA_SENT
      unfold mqtt_publish
      rw [if_neg hgate]
      simp only [hb]
      exact (enQ_keeps { s with nextId := next_id s.nextId } _ _ _ hstate).2
  | subscribe topic qos =>
    have hl : (cstr topic 0).length ≤ 65527 := hfits
    have hb := mqtt_subscribe_buf_eq s topic qos hl
    refine ⟨?_, ?_, ?_⟩
    · unfold ApiCall.written_id ApiCall.frame ApiCall.id_pos os_strlen
      simp only [hb]
      have hp : (if 2 + 2 + (cstr topic 0).length + 1 > 127 then 3 else 2) =
          (header_bytes (SUBSCRIBE ||| 0x02) (2 + 2 + (cstr topic 0).length + 1)).length := by
        rw [header_bytes_length]
        split_ifs <;> omega
      have e : header_bytes (SUBSCRIBE ||| 0x02) (2 + 2 + (cstr topic 0).length + 1) ++
          [next_id s.nextId >>> 8, next_id s.nextId &&& 0xff] ++
          string_bytes (cstr topic 0) ++ [qos] =
          header_bytes (SUBSCRIBE ||| 0x02) (2 + 2 + (cstr topic 0).length + 1) ++
          [next_id s.nextId >>> 8, next_id s.nextId &&& 0xff] ++
          (string_bytes (cstr topic 0) ++ [qos]) := by simp
      rw [e]
      obtain ⟨r1, r2⟩ := rd_id _ (string_bytes (cstr topic 0) ++ [qos])
        (next_id s.nextId >>> 8) (next_id s.nextId &&& 0xff) _ hp
      rw [r1, r2, be_value]
    · show (mqtt_subscribe s topic qos).2.nextId = _
      unfold mqtt_subscribe
      rw [if_neg hgate]
      simp only [hb]
      exact (enQ_keeps { s with nextId := next_id s.nextId } _ _ _ hstate).1
    · show (mqtt_subscribe s topic qos).2.state = OPEN ∨ (mqtt_subscribe s topic qos).2.state = DATA_SENT
      unfold mqtt_subscribe
      rw [if_neg hgate]
      simp only [hb]
      exact (enQ_keeps { s with nextId := next_id s.nextId } _ _ _ hstate).2
  | unsubscribe topic =>
    have hl : (cstr topic 0).length ≤ 65528 := hfits
    have hb := mqtt_unsubscribe_buf_eq s topic hl
    refine ⟨?_, ?_, ?_⟩
    · unfold ApiCall.written_id ApiCall.frame ApiCall.id_pos os_strlen
      simp only [hb]
      have hp : (if 2 + 2 + (cstr topic 0).length > 127 then 3 else 2) =
          (header_bytes (UNSUBSCRIBE ||| 0x02) (2 + 2 + (cstr topic 0).length)).length := by
        rw [header_bytes_length]
        split_ifs <;> omega
      obtain ⟨r1, r2⟩ := rd_id _ (string_bytes (cstr topic 0))
        (next_id s.nextId >>> 8) (next_id s.nextId &&& 0xff) _ hp
      rw [r1, r2, be_value]
    · show (mqtt_unsubscribe s topic).2.nextId = _
      unfold mqtt_unsubscribe
      rw [if_neg hgate]
      simp only [hb]
      exact (enQ_keeps { s with nextId := next_id s.nextId } _ _ _ hstate).1
    · show (mqtt_unsubscribe s topic).2.state = OPEN ∨ (mqtt_unsubscribe s topic).2.state = DATA_SENT
      unfold mqtt_unsubscribe
      rw [if_neg hgate]
      simp only [hb]
      exact (enQ_keeps { s with nextId := next_id s.nextId } _ _ _ hstate).2

/-- C4. From any value of the 16-bit counter `nextId`, for any sequence of `mqtt_publish`
(QoS > 0), `mqtt_subscribe` and `mqtt_unsubscribe` calls made in state `OPEN` or
`DATA_SENT`, the identifiers read back from the built frames form a chain: each is non-zero
and is the previous one (for the first call: the starting counter) plus one, except that
65535 is followed by 1. -/
theorem packet_ids_chain (calls : List ApiCall) :
    ∀ s : Client, (s.state = OPEN ∨ s.state = DATA_SENT) → s.nextId < 65536 →
      (∀ c ∈ calls, c.fits) →
      List.Chain (fun a b => b ≠ 0 ∧ b = (if a = 65535 then 1 else a + 1)) s.nextId
        (issued_ids s calls) := by
  induction calls with
  | nil => intro s _ _ _; exact List.Chain.nil
  | cons c cs ih =>
    intro s hstate hid hfits
    obtain ⟨h1, h2, h3⟩ := api_call_step s c hstate (hfits c (by simp))
    obtain ⟨n1, n2, n3⟩ := next_id_spec s.nextId hid
    unfold issued_ids
    refine List.Chain.cons ?_ ?_
    · rw [h1]; exact ⟨n1, n2⟩
    · have := ih (c.run s).2 h3 (by rw [h2]; exact n3) (fun x hx => hfits x (by simp [hx]))
      rw [h2, ← h1] at this
      exact this

/-- C4, witness: from the counter 65534 a subscribe, two QoS-1 publishes and an unsubscribe
(the last two refused by the full queue) are given the identifiers 65535, 1, 2 and 3. -/
theorem packet_ids_chain_witness :
    issued_ids demo_wrap
      [ApiCall.subscribe [0x61] 1, ApiCall.publish [0x61] [0x68] 1 0,
       ApiCall.publish [0x61] [0x68] 1 0, ApiCall.unsubscribe [0x61]] = [65535, 1, 2, 3] ∧
    List.Chain (fun a b => b ≠ 0 ∧ b = (if a = 65535 then 1 else a + 1)) 65534
      (issued_ids demo_wrap
        [ApiCall.subscribe [0x61] 1, ApiCall.publish [0x61] [0x68] 1 0,
         ApiCall.publish [0x61] [0x68] 1 0, ApiCall.unsubscribe [0x61]]) :=
  ⟨by decide,
   packet_ids_chain _ demo_wrap (Or.inl rfl) (by decide)
     (by
      intro c hc
      simp only [List.mem_cons, List.mem_singleton, List.mem_nil_iff, or_false] at hc
      rcases hc with rfl | rfl | rfl | rfl <;> simp [ApiCall.fits, os_strlen, cstr])⟩

theorem sendFromQ_scheduled (s : Client) : (sendFromQ s).scheduled = s.scheduled := by
  unfold sendFromQ
  split
  · rfl
  · split_ifs <;> rfl

theorem opened_is_sendFromQ {c : Nat} {s : Client} (h : opened_is c s) :
    opened_is c (sendFromQ s) := by
  obtain ⟨h1, h2⟩ := h
  refine ⟨?_, ?_⟩
  · rcases sendFromQ_state s with e | ⟨_, e⟩
    · rw [e]; exact h1
    · rw [e]; decide
  · unfold opened; rw [sendFromQ_scheduled]; exact h2

theorem opened_is_enQ {c : Nat} {s : Client} (h : opened_is c s) (data : List Nat)
    (len force : Nat) : opened_is c (enQ s data len force).2 := by
  rw [enQ_eq]
  split_ifs
  · exact h
  · exact opened_is_sendFromQ h

theorem opened_is_handle {c : Nat} (s : Client) (t l : Nat) (h : opened_is c s) :
    opened_is c (handle_rxbuf s t l).2 := by
  apply handle_rxbuf_cases (fun r => opened_is c r.2)
  · exact h
  · exact h
  · intro hs _; exact absurd hs h.1
  · intro _ _ _ _; exact h
  · intro _ _ _ _ _; exact opened_is_sendFromQ h
  · intro _ _; exact opened_is_sendFromQ h

theorem opened_is_error {c : Nat} {s : Client} (h : opened_is c s) :
    opened_is c (recv_error s) := by
  refine ⟨by simp [recv_error], ?_⟩
  have := h.2
  unfold opened at this ⊢
  simp [recv_error, List.count_append, this]

theorem recv_spec_opened (c : Nat) : recv_spec (opened_is c) (opened_is c) where
  upd := fun _ _ _ _ _ _ _ h => h
  handle := fun s t l h _ => opened_is_handle s t l h
  reject := fun s t l h _ => opened_is_error (opened_is_handle s t l h)
  error := fun _ h => opened_is_error h
  yield := fun _ _ h _ => h

theorem opened_is_dns {c : Nat} {s : Client} (h : opened_is c s) :
    opened_is c (dns_cb s true) :=
  ⟨by simp [dns_cb], h.2⟩

theorem opened_is_open {c : Nat} {s : Client} (h : opened_is c s) :
    opened_is c { s with state := OPEN } :=
  ⟨by simp, h.2⟩

theorem opened_is_step {c : Nat} (s : Client) (e : Event) (he : e ≠ Event.connected)
    (h : opened_is c s) : opened_is c (step s e) := by
  cases e with
  | connect r =>
    simp only [step, mqtt_connect]
    split_ifs
    · exact h
    · cases r
      · exact opened_is_dns h
      · exact h
      · exact h
  | dns ipaddr =>
    cases ipaddr
    · refine ⟨h.1, ?_⟩
      have := h.2
      unfold opened at this ⊢
      simp [step, dns_cb, List.count_append, this]
    · exact opened_is_dns h
  | connected => exact absurd rfl he
  | received data size =>
    simp only [step, recv_cb]
    split_ifs
    · exact h
    · exact recv_pt_spec (recv_spec_opened c) s data size h
  | sent =>
    simp only [step, sent_cb]
    split_ifs
    · exact opened_is_sendFromQ (opened_is_open h)
    · exact h
  | disconnected =>
    refine ⟨by simp [step, discon_cb, removeQ], ?_⟩
    have := h.2
    unfold opened at this ⊢
    simp [step, discon_cb, removeQ, List.count_append, this]
  | reconnect_failed =>
    refine ⟨by simp [step, recon_cb, discon_cb, removeQ], ?_⟩
    have := h.2
    unfold opened at this ⊢
    simp [step, recon_cb, discon_cb, removeQ, List.count_append, this]
  | timeout =>
    simp only [step]
    split
    · exact h
    · refine ⟨by simp [timeout_cb], ?_⟩
      have := h.2
      unfold opened at this ⊢
      simp [timeout_cb, List.count_append, this]
  | keepalive =>
    simp only [step]
    split
    · exact h
    · exact h
  | publish topic msg qos retain =>
    simp only [step, mqtt_publish]
    split_ifs
    · exact h
    · refine opened_is_enQ ?_ _ _ _
      unfold mqtt_publish_buf
      simp only []
      split_ifs <;> exact h
  | subscribe topic qos =>
    simp only [step, mqtt_subscribe]
    split_ifs
    · exact h
    · exact opened_is_enQ (show opened_is c (mqtt_subscribe_buf s topic qos).2.2 from h) _ _ _
  | unsubscribe topic =>
    simp only [step, mqtt_unsubscribe]
    split_ifs
    · exact h
    · exact opened_is_enQ (show opened_is c (mqtt_unsubscribe_buf s topic).2.2 from h) _ _ _

theorem opened_is_run {c : Nat} (es : List Event) : ∀ s : Client,
    (∀ e ∈ es, e ≠ Event.connected) → opened_is c s → opened_is c (run s es) := by
  induction es with
  | nil => intro s _ h; exact h
  | cons e es ih =>
    intro s he h
    exact ih (step s e) (fun x hx => he x (by simp [hx]))
      (opened_is_step s e (he e (by simp)) h)

theorem known_type_connack {t : Nat} (h : t &&& 0xF0 = CONNACK) : known_type t := Or.inl h

theorem handle_rxbuf_connack (s : Client) (type len : Nat) (ht : type &&& 0xF0 = CONNACK) :
    handle_rxbuf s type len =
      if s.state = CONNECTING ∧ len = 2 ∧ rd (s.rxbuf.getD []) 1 = 0 then
        (1, { s with
              tmr_timeout := some (s.cfg.keepalive * 1500)
              state := OPEN
              scheduled := s.scheduled ++ [Sched.mqtt_open_cb]
              tmr_keepalive := some (s.cfg.keepalive * 1000) })
      else (0, { s with tmr_timeout := some (s.cfg.keepalive * 1500) }) := by
  unfold handle_rxbuf
  simp only [if_pos ht]

/-- The CONNACK `t 02 x 00` received right after `connect_cb`: the complete outcome. -/
theorem recv_cb_connack (s : Client) (t x : Nat) (hlc : s.lc = LC.start)
    (ht : t &&& 0xF0 = CONNACK) :
    recv_cb (connect_cb s) [t, 2, x, 0] 4 =
      { connect_cb s with
        state := OPEN
        lc := LC.y_type
        type := t
        b := 2
        len := 2
        pos := 2
        rxbuf := none
        tmr_timeout := some (s.cfg.keepalive * 1500)
        tmr_keepalive := some (s.cfg.keepalive * 1000)
        scheduled := s.scheduled ++ [Sched.mqtt_open_cb]
        rxlog := s.rxlog ++ [RxCall.mk t 2 [x, 0]] } := by
  have hopen : conn_open (connect_cb s) := Or.inl rfl
  rw [recv_cb_eq_of_open hopen, recv_pt_boundary (connect_cb s) (Or.inl hlc) t [2, x, 0] 3]
  have h := recv_type_frame (recv_again 4) 2 { connect_cb s with type := t }
    (known_type_connack ht) [x, 0] []
    (by simp)
  have e : (recv_type (recv_again 4) 4 { connect_cb s with type := t } [2, x, 0] 3) =
      recv_type (recv_again 4) (2 + 2) { connect_cb s with type := t }
        (([x, 0] : List Nat).length :: ([x, 0] ++ []))
        (([x, 0] : List Nat).length + ([] : List Nat).length + 1) := rfl
  rw [e, h]
  unfold recv_handle frame_state
  simp only [List.length_cons, List.length_nil, Nat.zero_add, Nat.reduceAdd,
    OfNat.ofNat_ne_zero, if_false]
  rw [handle_rxbuf_connack _ _ _ ht]
  have hc : (connect_cb s).state = CONNECTING ∧ (2 : Nat) = 2 ∧
      rd ((some ([x, 0] ++ [0]) : Option (List Nat)).getD []) 1 = 0 := ⟨rfl, rfl, rfl⟩
  simp only [if_pos hc]
  rfl

/-- C7. After `dns_cb` and `connect_cb` the state is `CONNECTING`; the CONNACK frame
`t 02 x 00` (payload length 2, return code 0) received then leaves the state `OPEN`,
schedules `mqtt_open_cb` once more than before and arms the keepalive timer for
`keepalive * 1000` ms; and whatever happens afterwards short of a new `connect_cb` (any
chunks received, send completions, timers, API calls, a disconnect, a new `mqtt_connect`)
schedules no further `mqtt_open_cb`; in particular a CONNACK handled in state `OPEN` or
`DATA_SENT` is rejected and schedules nothing. -/
theorem connack_opens_once (s : Client) (t x : Nat) (es : List Event)
    (ht : t &&& 0xF0 = CONNACK) (hes : ∀ e ∈ es, e ≠ Event.connected) :
    (connect_cb (dns_cb s true)).state = CONNECTING ∧
    (recv_cb (connect_cb (dns_cb s true)) [t, 2, x, 0] 4).state = OPEN ∧
    (recv_cb (connect_cb (dns_cb s true)) [t, 2, x, 0] 4).scheduled =
      s.scheduled ++ [Sched.mqtt_open_cb] ∧
    (recv_cb (connect_cb (dns_cb s true)) [t, 2, x, 0] 4).tmr_keepalive =
      some (s.cfg.keepalive * 1000) ∧
    opened (run (recv_cb (connect_cb (dns_cb s true)) [t, 2, x, 0] 4) es) = opened s + 1 ∧
    (∀ (s' : Client) (type len : Nat), s'.state = OPEN ∨ s'.state = DATA_SENT →
      type &&& 0xF0 = CONNACK →
      (handle_rxbuf s' type len).1 = 0 ∧
      (handle_rxbuf s' type len).2.scheduled = s'.scheduled) := by
  have hr := recv_cb_connack (dns_cb s true) t x rfl ht
  refine ⟨rfl, by rw [hr], by rw [hr]; rfl, by rw [hr]; rfl, ?_, ?_⟩
  · have h0 : opened_is (opened s + 1) (recv_cb (connect_cb (dns_cb s true)) [t, 2, x, 0] 4) := by
      rw [hr]
      refine ⟨by simp, ?_⟩
      show List.count Sched.mqtt_open_cb (s.scheduled ++ [Sched.mqtt_open_cb]) = opened s + 1
      simp [opened, List.count_append]
    exact (opened_is_run es _ hes h0).2
  · intro s' type len hs' htype
    rw [handle_rxbuf_connack _ _ _ htype]
    have hn : ¬ (s'.state = CONNECTING ∧ len = 2 ∧ rd (s'.rxbuf.getD []) 1 = 0) := by
      rcases hs' with h | h <;> simp [h]
    rw [if_neg hn]
    exact ⟨rfl, rfl⟩

/-- C7, witness: connect, CONNACK `20 02 00 00`, then a publish, its send completion, a
ping, a second CONNACK and the disconnect: `mqtt_open_cb` was scheduled exactly once. -/
theorem connack_opens_once_witness :
    opened (run (recv_cb (connect_cb (dns_cb (demo CLOSED) true)) [0x20, 2, 0, 0] 4)
      [Event.publish [0x74] [0x68] 0 0, Event.sent, Event.keepalive,
       Event.received [0x20, 2, 0, 0] 4, Event.disconnected]) = 1 :=
  (connack_opens_once (demo CLOSED) 0x20 0
    [Event.publish [0x74] [0x68] 0 0, Event.sent, Event.keepalive,
     Event.received [0x20, 2, 0, 0] 4, Event.disconnected] (by decide) (by decide)).2.2.2.2.1

theorem recv_handle_connack_bad (k : Client → List Nat → Nat → Client) (s : Client)
    (d : List Nat) (z : Nat) (ht : s.type &&& 0xF0 = CONNACK)
    (hbad : ¬ (s.state = CONNECTING ∧ s.len = 2 ∧ rd (s.rxbuf.getD []) 1 = 0)) :
    closed_by_error s (recv_handle k s d z) := by
  have h0 : handle_rxbuf { s with rxlog := s.rxlog ++
        [RxCall.mk s.type s.len ((s.rxbuf.getD []).take s.len)] } s.type s.len =
      (0, { s with
            rxlog := s.rxlog ++ [RxCall.mk s.type s.len ((s.rxbuf.getD []).take s.len)]
            tmr_timeout := some (s.cfg.keepalive * 1500) }) := by
    rw [handle_rxbuf_connack _ _ _ ht]
    exact if_neg hbad
  rw [recv_handle_reject k s d z (by rw [h0]), h0]
  exact ⟨rfl, rfl, rfl, rfl, rfl, rfl, rfl, rfl, rfl⟩

theorem frame_state_fields (s : Client) (t b : Nat) (pl : List Nat) :
    (frame_state s t b pl).state = s.state ∧ (frame_state s t b pl).type = t ∧
    (frame_state s t b pl).len = pl.length ∧
    (frame_state s t b pl).scheduled = s.scheduled ∧
    (frame_state s t b pl).published = s.published ∧
    (frame_state s t b pl).sendQ = s.sendQ ∧ (frame_state s t b pl).sent = s.sent ∧
    (frame_state s t b pl).nextId = s.nextId ∧
    (pl.length ≠ 0 → (frame_state s t b pl).rxbuf = some (pl ++ [0])) := by
  unfold frame_state
  by_cases h : pl.length = 0
  · rw [if_pos h]
    exact ⟨rfl, rfl, h.symm, rfl, rfl, rfl, rfl, rfl, fun h' => absurd h h'⟩
  · rw [if_neg h]
    exact ⟨rfl, rfl, rfl, rfl, rfl, rfl, rfl, rfl, fun _ => rfl⟩

theorem closed_by_error_frame (k : Client → List Nat → Nat → Client) (s : Client)
    (t b : Nat) (pl d : List Nat) (z : Nat) (ht : t &&& 0xF0 = CONNACK)
    (hbad : ¬ (s.state = CONNECTING ∧ pl.length = 2 ∧ rd pl 1 = 0)) :
    closed_by_error s (recv_handle k (frame_state s t b pl) d z) := by
  obtain ⟨f1, f2, f3, f4, f5, f6, f7, f8, f9⟩ := frame_state_fields s t b pl
  have hb : ¬ ((frame_state s t b pl).state = CONNECTING ∧ (frame_state s t b pl).len = 2 ∧
      rd ((frame_state s t b pl).rxbuf.getD []) 1 = 0) := by
    rintro ⟨h1, h2, h3⟩
    rw [f1] at h1
    rw [f3] at h2
    rw [f9 (by omega)] at h3
    apply hbad
    refine ⟨h1, h2, ?_⟩
    rw [← rd_append_left pl [0] 1 (by omega)]
    exact h3
  have h := recv_handle_connack_bad k (frame_state s t b pl) d z (by rw [f2]; exact ht) hb
  unfold closed_by_error at h ⊢
  rw [f4, f5, f6, f7, f8] at h
  exact h

/-- C8. A CONNACK frame (type byte `t`, length field `hdr` decoding to `L`, payload `pl`)
that starts a chunk delivered while the connection is up and that is not (state
`CONNECTING`, `L = 2`, second payload byte 0) takes `recv_cb` through the error exit:
state `CLOSING`, both timers disarmed, a transport disconnect scheduled and nothing else,
so neither `mqtt_open_cb` nor `mqtt_publish_cb`; queue and sent frames are untouched. And
in state `CLOSED` or `CLOSING` `recv_cb` returns the client unchanged for every chunk. -/
theorem connack_rejected (s : Client) (t L : Nat) (hdr pl rest : List Nat)
    (hopen : conn_open s) (hlc : s.lc = LC.start ∨ s.lc = LC.y_type)
    (ht : t &&& 0xF0 = CONNACK) (hhdr : length_field hdr L) (hpl : L < 256 → pl.length = L)
    (hbad : ¬ (s.state = CONNECTING ∧ L = 2 ∧ rd pl 1 = 0)) :
    closed_by_error s
      (recv_cb s (t :: (hdr ++ (pl ++ rest))) (hdr.length + pl.length + rest.length + 1)) ∧
    (∀ (s' : Client) (data : List Nat) (size : Nat),
      s'.state = CLOSED ∨ s'.state = CLOSING → recv_cb s' data size = s') := by
  constructor
  · rw [recv_cb_eq_of_open hopen, recv_pt_boundary s hlc t]
    have hk : known_type ({ s with type := t } : Client).type := known_type_connack ht
    rcases hhdr with ⟨rfl, hL⟩ | ⟨b1, b2, rfl, hb1, hlen⟩
    · have hp := hpl (by omega)
      subst hp
      have e : ([pl.length] : List Nat).length + pl.length + rest.length =
          pl.length + rest.length + 1 := by simp only [List.length_cons, List.length_nil]; omega
      rw [e]
      have h := recv_type_frame (recv_again (pl.length + rest.length + 1 + 1))
        (pl.length + rest.length) { s with type := t } hk pl rest hL
      rw [show ([pl.length] ++ (pl ++ rest) : List Nat) = pl.length :: (pl ++ rest) from rfl, h]
      exact closed_by_error_frame _ s t _ pl _ _ ht hbad
    · have e : ([b1, b2] : List Nat).length + pl.length + rest.length =
          pl.length + rest.length + 2 := by simp only [List.length_cons, List.length_nil]; omega
      rw [e, show ([b1, b2] ++ (pl ++ rest) : List Nat) = b1 :: b2 :: (pl ++ rest) from rfl]
      by_cases h256 : L < 256
      · have hp := hpl h256
        subst hp
        have h := recv_type_frame2 (recv_again (pl.length + rest.length + 2 + 1))
          (pl.length + rest.length + 1) { s with type := t } hk b1 b2 pl rest hb1 hlen h256
        rw [h]
        exact closed_by_error_frame _ s t _ pl _ _ ht hbad
      · rw [recv_type_oversize _ _ { s with type := t } hk b1 b2 (pl ++ rest)
          (pl.length + rest.length) hb1 (by omega)]
        exact ⟨rfl, rfl, rfl, rfl, rfl, rfl, rfl, rfl, rfl⟩
  · intro s' data size h
    apply recv_cb_eq_of_not_open
    unfold conn_open
    rcases h with h | h <;> rw [h] <;> decide

/-- C8, witness: the CONNACK `20 02 00 05` (return code 5) received while `CONNECTING`. -/
theorem connack_rejected_witness :
    closed_by_error (demo CONNECTING) (recv_cb (demo CONNECTING) [0x20, 2, 0, 5] 4) :=
  (connack_rejected (demo CONNECTING) 0x20 2 [2] [0, 5] [] (Or.inl rfl) (Or.inl rfl)
    (by decide) (Or.inl ⟨rfl, by decide⟩) (fun _ => rfl) (by decide)).1

/-- C11, the code at the failing input: in the session `ping_race` every send is confirmed
by a send-complete event of its own, yet after its eighth event two queue entries (the two
PUBLISH frames) are with the transport unconfirmed: the completion of the PINGREQ that
`keepalive_cb` sent directly made `sent_cb` dispatch the second while the first was still
in flight. -/
theorem keepalive_breaks_single_in_flight :
    confirms_own (Client.init cfg_demo) [] (ping_race ++ [Event.sent, Event.sent]) = true ∧
    in_flight (Client.init cfg_demo) [] (ping_race ++ [Event.sent, Event.sent]) = [] ∧
    in_flight (Client.init cfg_demo) [] ping_race = [true, true] ∧
    (in_flight (Client.init cfg_demo) [] ping_race).count true = 2 ∧
    (run (Client.init cfg_demo) ping_race).sent.drop 2 =
      [Q.mk [0x30, 4, 0, 1, 0x74, 0x31] 6, Q.mk [0x30, 4, 0, 1, 0x74, 0x32] 6] := by
  decide

theorem sent_cb_outflow (s : Client) :
    (sent_cb s).sent ++ (sent_cb s).sendQ = s.sent ++ s.sendQ := by
  unfold sent_cb
  split
  · rw [sendFromQ_outflow]
  · rfl

theorem enQ_outflow (s : Client) (data : List Nat) (len force : Nat) :
    (enQ s data len force).2.sent ++ (enQ s data len force).2.sendQ =
      s.sent ++ s.sendQ ++ (if (enQ s data len force).1 = 1 then [Q.mk data len] else []) := by
  rw [enQ_eq]
  split
  · simp
  · simp only [sendFromQ_outflow, if_true]
    simp

theorem qrun_outflow (ops : List QOp) : ∀ s : Client,
    (qrun s ops).sent ++ (qrun s ops).sendQ = s.sent ++ s.sendQ ++ accepted s ops := by
  induction ops with
  | nil => intro s; simp [qrun, accepted]
  | cons op ops ih =>
    intro s
    cases op with
    | enq data len force =>
      have h := ih (enQ s data len force).2
      simp only [qrun, List.foldl_cons, QOp.step, accepted] at h ⊢
      rw [h, enQ_outflow]
      simp
    | sent =>
      have h := ih (sent_cb s)
      simp only [qrun, List.foldl_cons, QOp.step, accepted] at h ⊢
      rw [h, sent_cb_outflow]

/-- C12. `sendFromQ` returns the client as it is unless the state is `OPEN` and the queue
is non-empty; with the state `OPEN` and the queue `q :: rest` it passes exactly `q` (its
`data` with its `len`) to `espconn_send`, leaves `rest` as the queue, sets the state to
`DATA_SENT` and arms `tmr_keepalive` for `keepalive * 1000` ms, and changes nothing else. -/
theorem sendFromQ_dispatch (s : Client) :
    (s.state ≠ OPEN ∨ s.sendQ = [] → sendFromQ s = s) ∧
    (∀ (q : Q) (rest : List Q), s.state = OPEN → s.sendQ = q :: rest →
      sendFromQ s = { s with
        sent := s.sent ++ [Q.mk q.data q.len]
        sendQ := rest
        state := DATA_SENT
        tmr_keepalive := some (s.cfg.keepalive * 1000) }) := by
  constructor
  · intro h
    unfold sendFromQ
    split
    · rfl
    · rename_i q next hq
      rcases h with h | h
      · rw [if_pos h]
      · rw [h] at hq; exact absurd hq (by simp)
  · intro q rest hst hq
    unfold sendFromQ
    rw [hq]
    simp only [hst, ne_eq, not_true_eq_false, if_false]

/-- C12, witness: in state `OPEN` with two queued frames the first is sent and the second
stays; in state `DATA_SENT` nothing happens. -/
theorem sendFromQ_dispatch_witness :
    sendFromQ { demo OPEN with sendQ := [Q.mk [0xC0, 0] 2, Q.mk [0x40, 2, 0, 1] 4] } =
      { demo OPEN with
        sent := [Q.mk [0xC0, 0] 2]
        sendQ := [Q.mk [0x40, 2, 0, 1] 4]
        state := DATA_SENT
        tmr_keepalive := some 60000 } ∧
    sendFromQ demo_queued = demo_queued :=
  ⟨(sendFromQ_dispatch { demo OPEN with sendQ := [Q.mk [0xC0, 0] 2, Q.mk [0x40, 2, 0, 1] 4] }).2
      (Q.mk [0xC0, 0] 2) [Q.mk [0x40, 2, 0, 1] 4] rfl rfl,
   (sendFromQ_dispatch demo_queued).1 (Or.inl (by decide))⟩

/-- C13. Starting with nothing sent and nothing queued, after any sequence of `enQ` calls
(forced or not) and send completions the frames passed to `espconn_send`, followed by the
frames still queued, are exactly the frames `enQ` accepted, in the order of the calls: what
was sent is an initial segment of what was accepted, nothing twice, skipped or overtaken. -/
theorem sendQ_fifo (s : Client) (ops : List QOp) (hq : s.sendQ = []) (hs : s.sent = []) :
    (qrun s ops).sent ++ (qrun s ops).sendQ = accepted s ops ∧
    (qrun s ops).sent <+: accepted s ops := by
  have h := qrun_outflow ops s
  rw [hq, hs] at h
  simp only [List.append_nil, List.nil_append] at h
  exact ⟨h, ⟨_, h⟩⟩

/-- C13, witness: with `q_max = 1`, frames A, B, C offered unforced and D forced, then two
send completions: C is refused, and A, B, D leave in that order. -/
theorem sendQ_fifo_witness :
    (qrun (demo OPEN)
      [QOp.enq [0xA] 1 0, QOp.enq [0xB] 1 0, QOp.enq [0xC] 1 0, QOp.enq [0xD] 1 1,
       QOp.sent, QOp.sent]).sent = [Q.mk [0xA] 1, Q.mk [0xB] 1, Q.mk [0xD] 1] ∧
    (qrun (demo OPEN)
      [QOp.enq [0xA] 1 0, QOp.enq [0xB] 1 0, QOp.enq [0xC] 1 0, QOp.enq [0xD] 1 1,
       QOp.sent, QOp.sent]).sent <+:
    accepted (demo OPEN)
      [QOp.enq [0xA] 1 0, QOp.enq [0xB] 1 0, QOp.enq [0xC] 1 0, QOp.enq [0xD] 1 1,
       QOp.sent, QOp.sent] :=
  ⟨by decide,
   (sendQ_fifo (demo OPEN)
      [QOp.enq [0xA] 1 0, QOp.enq [0xB] 1 0, QOp.enq [0xC] 1 0, QOp.enq [0xD] 1 1,
       QOp.sent, QOp.sent] rfl rfl).2⟩

/-- C15. A PUBLISH with the DUP bit set, handled in state `OPEN` or `DATA_SENT` with
`len ≥ 4`, whatever its QoS bits and payload: `handle_rxbuf` returns 1 and only re-arms
the receive timeout; no `mqtt_publish_cb` call, nothing queued or sent, the state as it
was; and `recv_pt` goes on with the next frame instead of taking its error exit. -/
theorem handle_rxbuf_dup_ignored (s : Client) (type len : Nat)
    (k : Client → List Nat → Nat → Client) (data : List Nat) (size : Nat)
    (hstate : s.state = OPEN ∨ s.state = DATA_SENT)
    (htype : type &&& 0xF0 = PUBLISH) (hdup : type &&& 0x08 ≠ 0) (hlen : 4 ≤ len) :
    handle_rxbuf s type len = (1, { s with tmr_timeout := some (s.cfg.keepalive * 1500) }) ∧
    (handle_rxbuf s type len).2.published = s.published ∧
    (handle_rxbuf s type len).2.sendQ = s.sendQ ∧
    (handle_rxbuf s type len).2.sent = s.sent ∧
    (handle_rxbuf s type len).2.state = s.state ∧
    recv_handle k { s with type := type, len := len } data size =
      k { s with type := type, len := len, rxbuf := none,
                 tmr_timeout := some (s.cfg.keepalive * 1500),
                 rxlog := s.rxlog ++ [RxCall.mk type len ((s.rxbuf.getD []).take len)] }
        data size := by
  have hne : PUBLISH ≠ CONNACK := by decide
  have key : ∀ s' : Client, s'.state = s.state → handle_rxbuf s' type len =
      (1, { s' with tmr_timeout := some (s'.cfg.keepalive * 1500) }) := by
    intro s' hs'
    have hst : ¬ ((s'.state ≠ OPEN ∧ s'.state ≠ DATA_SENT) ∨ len < 4) := by
      rw [hs']
      rcases hstate with h | h <;> simp [h] <;> omega
    unfold handle_rxbuf
    simp only [htype, if_neg hne, if_true, if_neg hst, if_pos hdup]
  refine ⟨key s rfl, by rw [key s rfl], by rw [key s rfl], by rw [key s rfl],
    by rw [key s rfl], ?_⟩
  have hk := key { s with type := type, len := len, rxlog := s.rxlog ++
    [RxCall.mk type len ((s.rxbuf.getD []).take len)] } rfl
  show (if (handle_rxbuf { s with type := type, len := len, rxlog := s.rxlog ++
      [RxCall.mk type len ((s.rxbuf.getD []).take len)] } type len).1 = 0 then _ else _) = _
  rw [if_neg (by rw [hk]; exact Nat.one_ne_zero)]
  show k { (handle_rxbuf { s with type := type, len := len, rxlog := s.rxlog ++
      [RxCall.mk type len ((s.rxbuf.getD []).take len)] } type len).2 with rxbuf := none }
      data size = _
  rw [hk]

/-- C15, witness: the QoS-1 PUBLISH of C5 with the DUP bit set (`3A`). -/
theorem handle_rxbuf_dup_ignored_witness :
    (recv_cb (demo OPEN) [0x3A, 7, 0, 1, 0x61, 0x12, 0x34, 0x68, 0x69] 9).published = [] ∧
    (recv_cb (demo OPEN) [0x3A, 7, 0, 1, 0x61, 0x12, 0x34, 0x68, 0x69] 9).sent = [] ∧
    (recv_cb (demo OPEN) [0x3A, 7, 0, 1, 0x61, 0x12, 0x34, 0x68, 0x69] 9).state = OPEN ∧
    (handle_rxbuf { demo OPEN with rxbuf := some [0, 1, 0x61, 0x12, 0x34, 0x68, 0x69, 0] }
      0x3A 7).1 = 1 :=
  ⟨by decide, by decide, by decide,
   by rw [(handle_rxbuf_dup_ignored
      { demo OPEN with rxbuf := some [0, 1, 0x61, 0x12, 0x34, 0x68, 0x69, 0] } 0x3A 7
      (recv_again 1) [] 0 (Or.inl rfl) (by decide) (by decide) (by decide)).1]⟩

/-- After a type byte that is none of the nine codes `recv_pt` takes its error exit at once:
the length field is not looked at. -/
theorem recv_type_unknown (k : Client → List Nat → Nat → Client) (n : Nat) (s : Client)
    (d : List Nat) (z : Nat) (h : ¬ known_type s.type) :
    recv_type k n s d z = recv_error { s with b := s.type &&& 0xF0 } := by
  unfold recv_type
  simp only []
  rw [if_pos (not_not.1 ((known_type_iff s.type).not.1 h))]

theorem closed_by_error_upd (s : Client) (b type len : Nat) :
    closed_by_error s (recv_error { s with b := b, type := type, len := len }) :=
  ⟨rfl, rfl, rfl, rfl, rfl, rfl, rfl, rfl, rfl⟩

/-- C14. At a frame boundary with the connection up, for a header made of the type byte
`t` and a length field `hdr` that decodes to `L` (one byte below 128, or two bytes with
bit 7 of the first set): when `t` has one of the nine codes and `L < 256`, `recv_cb` reads
the `L` payload bytes `pl` and reaches its `handle_rxbuf` call with type `t`, length `L`
and those bytes in `rxbuf`, the rest of the chunk still unread; for every other header it
takes the error exit without calling `handle_rxbuf`: state `CLOSING`, no receive buffer,
both timers disarmed, a disconnect scheduled, the result the same whatever follows the
header, and later chunks ignored. -/
theorem recv_pt_header_gate (s : Client) (t L : Nat) (hdr pl rest : List Nat)
    (hopen : conn_open s) (hlc : s.lc = LC.start ∨ s.lc = LC.y_type)
    (hhdr : length_field hdr L) (hpl : L < 256 → pl.length = L) :
    (known_type t ∧ L < 256 →
      recv_cb s (t :: (hdr ++ (pl ++ rest))) (hdr.length + pl.length + rest.length + 1) =
        recv_handle (recv_again (hdr.length + pl.length + rest.length + 1))
          (frame_state s t (hdr.getLastD 0) pl) rest rest.length ∧
      (frame_state s t (hdr.getLastD 0) pl).type = t ∧
      (frame_state s t (hdr.getLastD 0) pl).len = L ∧
      (L ≠ 0 → (frame_state s t (hdr.getLastD 0) pl).rxbuf = some (pl ++ [0]))) ∧
    (¬ (known_type t ∧ L < 256) →
      closed_by_error s
        (recv_cb s (t :: (hdr ++ (pl ++ rest))) (hdr.length + pl.length + rest.length + 1)) ∧
      (recv_cb s (t :: (hdr ++ (pl ++ rest)))
        (hdr.length + pl.length + rest.length + 1)).rxlog = s.rxlog ∧
      recv_cb s (t :: (hdr ++ (pl ++ rest))) (hdr.length + pl.length + rest.length + 1) =
        recv_cb s (t :: hdr) (hdr.length + 1) ∧
      (∀ (data : List Nat) (size : Nat),
        recv_cb (recv_cb s (t :: (hdr ++ (pl ++ rest)))
          (hdr.length + pl.length + rest.length + 1)) data size =
        recv_cb s (t :: (hdr ++ (pl ++ rest))) (hdr.length + pl.length + rest.length + 1))) := by
  constructor
  · rintro ⟨hk, h256⟩
    have hp := hpl h256
    subst hp
    obtain ⟨f1, f2, f3, f4, f5, f6, f7, f8, f9⟩ := frame_state_fields s t (hdr.getLastD 0) pl
    refine ⟨?_, f2, f3, f9⟩
    have hk' : known_type ({ s with type := t } : Client).type := hk
    rw [recv_cb_eq_of_open hopen, recv_pt_boundary s hlc t]
    rcases hhdr with ⟨rfl, hL⟩ | ⟨b1, b2, rfl, hb1, hlen⟩
    · have e : ([pl.length] : List Nat).length + pl.length + rest.length =
          pl.length + rest.length + 1 := by simp only [List.length_cons, List.length_nil]; omega
      rw [e]
      have h := recv_type_frame (recv_again (pl.length + rest.length + 1 + 1))
        (pl.length + rest.length) { s with type := t } hk' pl rest hL
      rw [show ([pl.length] ++ (pl ++ rest) : List Nat) = pl.length :: (pl ++ rest) from rfl, h]
      unfold frame_state
      rfl
    · have e : ([b1, b2] : List Nat).length + pl.length + rest.length =
          pl.length + rest.length + 2 := by simp only [List.length_cons, List.length_nil]; omega
      rw [e, show ([b1, b2] ++ (pl ++ rest) : List Nat) = b1 :: b2 :: (pl ++ rest) from rfl]
      have h := recv_type_frame2 (recv_again (pl.length + rest.length + 2 + 1))
        (pl.length + rest.length + 1) { s with type := t } hk' b1 b2 pl rest hb1 hlen h256
      rw [h]
      unfold frame_state
      rfl
  · intro hbad
    have key : ∃ b len : Nat, ∀ (d : List Nat) (z : Nat),
        recv_cb s (t :: (hdr ++ d)) (hdr.length + z + 1) =
          recv_error { s with type := t, b := b, len := len } := by
      by_cases hk : known_type t
      · have h256 : ¬ L < 256 := fun h => hbad ⟨hk, h⟩
        have hk' : known_type ({ s with type := t } : Client).type := hk
        rcases hhdr with ⟨rfl, hL⟩ | ⟨b1, b2, rfl, hb1, hlen⟩
        · omega
        · refine ⟨b2, ((b1 &&& 0x7f) ||| (b2 <<< 7)) % 65536, fun d z => ?_⟩
          have e : ([b1, b2] : List Nat).length + z = z + 2 := by
            simp only [List.length_cons, List.length_nil]; omega
          rw [recv_cb_eq_of_open hopen, recv_pt_boundary s hlc t,
            e, show ([b1, b2] ++ d : List Nat) = b1 :: b2 :: d from rfl,
            recv_type_oversize _ _ { s with type := t } hk' b1 b2 d z hb1 (by omega)]
      · have hk' : ¬ known_type ({ s with type := t } : Client).type := hk
        refine ⟨t &&& 0xF0, s.len, fun d z => ?_⟩
        rw [recv_cb_eq_of_open hopen, recv_pt_boundary s hlc t,
          recv_type_unknown _ _ _ _ _ hk']
    obtain ⟨b, len, key⟩ := key
    have e1 : hdr.length + pl.length + rest.length + 1 =
        hdr.length + (pl.length + rest.length) + 1 := by omega
    have h1 := key (pl ++ rest) (pl.length + rest.length)
    have h2 := key [] 0
    rw [List.append_nil, Nat.add_zero] at h2
    rw [e1, h1, h2]
    refine ⟨closed_by_error_upd s _ _ _, rfl, rfl, ?_⟩
    intro data size
    exact recv_cb_eq_of_not_open (not_conn_open_closing rfl) data size

/-- C14, witness: a DISCONNECT header (`E0 00`, not one of the nine inbound types) closes
the connection, and the PINGRESP behind it is not looked at. -/
theorem recv_pt_header_gate_witness :
    closed_by_error (demo OPEN) (recv_cb (demo OPEN) [0xE0, 0, 0xD0, 0] 4) ∧
    (recv_cb (demo OPEN) [0xE0, 0, 0xD0, 0] 4).rxlog = [] ∧
    (recv_cb (demo OPEN) [0x30, 0x80, 0x02] 3).state = CLOSING ∧
    (recv_cb (demo OPEN) [0xD0, 0] 2).rxlog = [RxCall.mk 0xD0 0 []] :=
  ⟨((recv_pt_header_gate (demo OPEN) 0xE0 0 [0] [] [0xD0, 0] (Or.inr (Or.inl rfl)) (Or.inl rfl)
      (Or.inl ⟨rfl, by decide⟩) (fun _ => rfl)).2 (by unfold known_type; decide)).1,
   by decide, by decide, by decide⟩

set_option maxRecDepth 100000 in
/-- C16, counterexample: `mqtt_publish` with a one-byte topic and a 253-byte message in
state `OPEN` sends a frame of 259 bytes whose header is `30 80 02`: remaining length 256. -/
theorem mqtt_publish_emits_length_256 :
    (mqtt_publish (demo OPEN) [0x74] (List.replicate 253 0x61) 0 0).1 = 1 ∧
    (mqtt_publish (demo OPEN) [0x74] (List.replicate 253 0x61) 0 0).2.sent.map
      (fun q => (q.data.take 3, q.data.length, q.len, decoded_len q.data)) =
      [([0x30, 0x80, 0x02], 259, 259, 256)] ∧
    ¬ ((mqtt_publish (demo OPEN) [0x74] (List.replicate 253 0x61) 0 0).2.sent.all
      (fun q => decide (decoded_len q.data < 256))) := by
  decide

theorem flag_bit_low : ∀ a : Nat, a < 128 →
    (0x80 ||| a) &&& 0x80 ≠ 0 ∧ (0x80 ||| a) &&& 0x7f = a := by decide

theorem decoded_len_header (ty n : Nat) (body : List Nat) (hn : n ≤ 16383) :
    decoded_len (header_bytes ty n ++ body) = n := by
  rw [header_bytes_small ty n hn]
  unfold decoded_len rd
  by_cases h : n < 128
  · simp only [if_pos h, List.cons_append, List.getD_cons_succ, List.getD_cons_zero,
      List.singleton_append]
    rw [if_pos (and_128_of_lt n h)]
  · have ha : n % 128 < 128 := Nat.mod_lt _ (by decide)
    obtain ⟨f1, f2⟩ := flag_bit_low (n % 128) ha
    simp only [if_neg h, List.cons_append, List.getD_cons_succ, List.getD_cons_zero,
      List.nil_append]
    rw [if_neg f1, f2, Nat.shiftLeft_eq, Nat.lor_comm, Nat.mul_comm,
      ← Nat.mul_add_lt_is_or (show n % 128 < 2 ^ 7 from ha)]
    have : 2 ^ 7 * (n / 128) + n % 128 = n := by
      have := Nat.div_add_mod n 128
      omega
    rw [this]
    exact Nat.mod_eq_of_lt (by omega)

theorem enQ_on_idle (s : Client) (data : List Nat) (len : Nat) (h1 : s.state = OPEN)
    (h2 : s.sendQ = []) :
    (enQ s data len 0).1 = 1 ∧ (enQ s data len 0).2.sent = s.sent ++ [Q.mk data len] := by
  rw [enQ_eq, if_neg (by rw [h2]; simp)]
  unfold sendFromQ
  simp [h1, h2]

/-- The frame a call builds is its header followed by `len` bytes, in a buffer of `buflen`
bytes, and the client handed to `enQ` differs from `s` at most in `nextId`. -/
theorem api_frame_shape (s : Client) (c : ApiCall) (hn : c.len ≤ 65532) :
    (∃ (ty : Nat) (body : List Nat), c.frame s = header_bytes ty c.len ++ body ∧
      body.length = c.len) ∧
    c.buflen s = 1 + (if c.len < 128 then 1 else 2) + c.len := by
  cases c with
  | publish topic msg qos retain =>
    have hl : 2 + (cstr topic 0).length + (if qos > 0 then 2 else 0) + (cstr msg 0).length
        ≤ 65532 := hn
    have hb := mqtt_publish_buf_eq s topic msg qos retain hl
    unfold ApiCall.frame ApiCall.buflen ApiCall.len os_strlen
    simp only [hb]
    refine ⟨⟨(PUBLISH ||| (qos <<< 1) ||| (if retain ≠ 0 then 0x01 else 0)) % 256,
      string_bytes (cstr topic 0) ++
      (if qos > 0 then [next_id s.nextId >>> 8, next_id s.nextId &&& 0xff] else []) ++
      cstr msg 0, by simp only [List.append_assoc], ?_⟩, trivial⟩
    rw [List.length_append, List.length_append, string_bytes_length]
    split_ifs <;> simp
  | subscribe topic qos =>
    have hl : (cstr topic 0).length ≤ 65527 := by
      have : 2 + 2 + (cstr topic 0).length + 1 ≤ 65532 := hn
      omega
    have hb := mqtt_subscribe_buf_eq s topic qos hl
    unfold ApiCall.frame ApiCall.buflen ApiCall.len os_strlen
    simp only [hb]
    refine ⟨⟨SUBSCRIBE ||| 0x02, [next_id s.nextId >>> 8, next_id s.nextId &&& 0xff] ++
      string_bytes (cstr topic 0) ++ [qos], by simp only [List.append_assoc], ?_⟩, trivial⟩
    rw [List.length_append, List.length_append, string_bytes_length]
    simp; omega
  | unsubscribe topic =>
    have hl : (cstr topic 0).length ≤ 65528 := by
      have : 2 + 2 + (cstr topic 0).length ≤ 65532 := hn
      omega
    have hb := mqtt_unsubscribe_buf_eq s topic hl
    unfold ApiCall.frame ApiCall.buflen ApiCall.len os_strlen
    simp only [hb]
    refine ⟨⟨UNSUBSCRIBE ||| 0x02, [next_id s.nextId >>> 8, next_id s.nextId &&& 0xff] ++
      string_bytes (cstr topic 0), by simp only [List.append_assoc], ?_⟩, trivial⟩
    rw [List.length_append, string_bytes_length]
    simp; omega

theorem api_after_eq (s : Client) (c : ApiCall) (hn : c.len ≤ 65532) :
    ∃ id : Nat, c.after s = { s with nextId := id } := by
  cases c with
  | publish topic msg qos retain =>
    have hl : 2 + (cstr topic 0).length + (if qos > 0 then 2 else 0) + (cstr msg 0).length
        ≤ 65532 := hn
    have hb := mqtt_publish_buf_eq s topic msg qos retain hl
    unfold ApiCall.after
    simp only [hb]
    by_cases hq : qos > 0
    · exact ⟨next_id s.nextId, by rw [if_pos hq]⟩
    · exact ⟨s.nextId, by rw [if_neg hq]⟩
  | subscribe topic qos =>
    have hl : (cstr topic 0).length ≤ 65527 := by
      have : 2 + 2 + (cstr topic 0).length + 1 ≤ 65532 := hn
      omega
    have hb := mqtt_subscribe_buf_eq s topic qos hl
    unfold ApiCall.after
    simp only [hb]
    exact ⟨next_id s.nextId, rfl⟩
  | unsubscribe topic =>
    have hl : (cstr topic 0).length ≤ 65528 := by
      have : 2 + 2 + (cstr topic 0).length ≤ 65532 := hn
      omega
    have hb := mqtt_unsubscribe_buf_eq s topic hl
    unfold ApiCall.after
    simp only [hb]
    exact ⟨next_id s.nextId, rfl⟩

theorem api_run_eq (s : Client) (c : ApiCall) (hstate : s.state = OPEN ∨ s.state = DATA_SENT) :
    c.run s = enQ (c.after s) (c.frame s) (c.buflen s) 0 := by
  have hgate : ¬ (s.state ≠ OPEN ∧ s.state ≠ DATA_SENT) := by
    rcases hstate with h | h <;> simp [h]
  cases c with
  | publish topic msg qos retain =>
    show mqtt_publish s topic msg qos retain = _
    unfold mqtt_publish
    rw [if_neg hgate]
    rfl
  | subscribe topic qos =>
    show mqtt_subscribe s topic qos = _
    unfold mqtt_subscribe
    rw [if_neg hgate]
    rfl
  | unsubscribe topic =>
    show mqtt_unsubscribe s topic = _
    unfold mqtt_unsubscribe
    rw [if_neg hgate]
    rfl

/-- C16, amended. For a call of `mqtt_publish`, `mqtt_subscribe` or `mqtt_unsubscribe`
whose body size `len` (`2 + |topic| + (2 if qos > 0) + |msg|`, `5 + |topic|`,
`4 + |topic|`) is at most 16383, the frame built carries exactly `len` as its remaining
length, in one byte below 128 and in two bytes from 128 on, and is `1 + (1 or 2) + len`
bytes long, which is `buflen`; no cap is applied: in state `OPEN` with an empty queue the
frame is sent as built, whether `len` is below 256 or not. -/
theorem api_frame_remaining_length (s : Client) (c : ApiCall) (hn : c.len ≤ 16383) :
    decoded_len (c.frame s) = c.len ∧
    (c.frame s).length = 1 + (if c.len < 128 then 1 else 2) + c.len ∧
    c.buflen s = (c.frame s).length ∧
    (s.state = OPEN → s.sendQ = [] →
      (c.run s).1 = 1 ∧ (c.run s).2.sent = s.sent ++ [Q.mk (c.frame s) (c.buflen s)]) := by
  obtain ⟨⟨ty, body, hf, hbody⟩, hbl⟩ := api_frame_shape s c (by omega)
  have hlen : (c.frame s).length = 1 + (if c.len < 128 then 1 else 2) + c.len := by
    rw [hf, List.length_append, header_bytes_length, hbody]
    split_ifs <;> omega
  refine ⟨by rw [hf]; exact decoded_len_header ty _ body hn, hlen, by rw [hbl, hlen], ?_⟩
  intro hst hq
  obtain ⟨id, hid⟩ := api_after_eq s c (by omega)
  rw [api_run_eq s c (Or.inl hst)]
  have h := enQ_on_idle (c.after s) (c.frame s) (c.buflen s) (by rw [hid]; exact hst)
    (by rw [hid]; exact hq)
  rw [hid] at h ⊢
  exact h

set_option maxRecDepth 100000 in
/-- C16, witness: a subscribe to a 200-byte topic is sent with remaining length 205, in the
two-byte form `CD 01`. -/
theorem api_frame_remaining_length_witness :
    decoded_len ((ApiCall.subscribe (List.replicate 200 0x61) 1).frame (demo OPEN)) = 205 :=
  (api_frame_remaining_length (demo OPEN) (ApiCall.subscribe (List.replicate 200 0x61) 1)
    (by decide)).1

/-- C17, the code at the failing input: with a will topic configured, `will_qos = 0` and
`will_qos = 1` give the same connect-flags byte `0A`, in `connect_flags` and in the CONNECT
frame `connect_cb` sends (offset 9): the will-topic bit `0x08` is bit 3, the low bit of the
will-QoS field `will_qos << 3`. Without a will topic, `will_qos = 1` gives `0A` as well. -/
theorem connect_flags_will_bit_collides :
    cfg_will 0 ≠ cfg_will 1 ∧
    connect_flags (cfg_will 0) = 0x0A ∧
    connect_flags (cfg_will 1) = 0x0A ∧
    connect_flags { cfg_demo with will_qos := 1 } = 0x0A ∧
    (connect_cb (Client.init (cfg_will 0))).sent.map (fun q => rd q.data 9) = [0x0A] ∧
    (connect_cb (Client.init (cfg_will 1))).sent.map (fun q => rd q.data 9) = [0x0A] ∧
    (connect_cb (Client.init (cfg_will 0))).sent = (connect_cb (Client.init (cfg_will 1))).sent := by
  decide

/-- C18, the code at the failing input: the PUBREC `50 02 00 07` received in state `OPEN`
is answered by `60 02 00 07`, first byte `0x60` and not `0x62`; `mqtt_subscribe` and
`mqtt_unsubscribe` do send `0x82` and `0xA2`. -/
theorem pubrel_reply_flags_missing :
    (recv_cb (demo OPEN) [0x50, 2, 0, 7] 4).sent = [Q.mk [0x60, 2, 0, 7] 4] ∧
    (mqtt_subscribe (demo OPEN) [0x61] 1).2.sent = [Q.mk [0x82, 6, 0, 1, 0, 1, 0x61, 1] 8] ∧
    (mqtt_unsubscribe (demo OPEN) [0x61]).2.sent = [Q.mk [0xA2, 5, 0, 1, 0, 1, 0x61] 7] := by
  decide

set_option maxRecDepth 100000 in
/-- C20, the code at the failing input: after the chunk `D0 00` (a whole PINGRESP) in state
`OPEN` the receiver waits in `BYTE(type)`. An empty chunk delivered then does not wait: the
byte at `data` is taken as the type byte although `size` is 0 (a zero byte closes the
connection), and `size--` wraps, so that a PUBLISH lying in memory behind the empty chunk is
decoded and delivered to `mqtt_publish_cb`. The same happens inside the length field; only
an empty chunk in the middle of a payload is without effect. -/
theorem recv_pt_empty_chunk_reads :
    (recv_cb (demo OPEN) [0xD0, 0] 2).lc = LC.y_type ∧
    (recv_cb (demo OPEN) [0xD0, 0] 2).state = OPEN ∧
    (recv_cb (recv_cb (demo OPEN) [0xD0, 0] 2) [] 0).state = CLOSING ∧
    (recv_cb (recv_cb (demo OPEN) [0xD0, 0] 2) [] 0).lc = LC.start ∧
    (recv_cb (recv_cb (demo OPEN) [0xD0, 0] 2) [0x32, 7, 0, 1, 0x61, 0x12, 0x34, 0x68, 0x69] 0).published =
      [PublishCall.mk [0x61] [0x68, 0x69] 1 0] ∧
    (recv_cb (recv_cb (demo OPEN) [0x30] 1) [] 0).state = CLOSING ∧
    (recv_cb (recv_cb (demo OPEN) [0x30, 0x85] 2) [] 0).len = 5 ∧
    recv_cb (recv_cb (demo OPEN) [0x30, 5, 0] 3) [] 0 = recv_cb (demo OPEN) [0x30, 5, 0] 3 := by
  decide

/-- C19. For a PUBLISH handled in state `OPEN` or `DATA_SENT` with `4 ≤ len` and a receive
buffer of `len + 1` bytes, whatever the payload and the flag bits: every offset
`handle_rxbuf` touches lies inside the buffer. A frame whose topic length exceeds
`len - 2`, or whose `qos > 0` leaves fewer than 2 bytes behind the topic, is rejected
having read offsets 0 and 1 only; any other frame without DUP is accepted, its packet id
(when `qos > 0`) read at `2 + topic_len` and the next offset, both below `len`, the topic
terminator stored at `2 + topic_len ≤ len` and the message terminator at `len`. -/
theorem handle_rxbuf_accesses_in_bounds (s : Client) (type len : Nat) (buf : List Nat)
    (hstate : s.state = OPEN ∨ s.state = DATA_SENT) (htype : type &&& 0xF0 = PUBLISH)
    (hlen : 4 ≤ len) (hbuf : s.rxbuf = some buf) (hsize : buf.length = len + 1) :
    (∀ off ∈ handle_rxbuf_accesses s type len, off < buf.length) ∧
    (type &&& 0x08 = 0 →
      (((rd buf 0 <<< 8) ||| rd buf 1) % 65536 > len - 2 ∨
        ((type >>> 1) &&& 0x03 > 0 ∧ len - 2 - ((rd buf 0 <<< 8) ||| rd buf 1) % 65536 < 2)) →
      (handle_rxbuf s type len).1 = 0 ∧ handle_rxbuf_accesses s type len = [0, 1]) ∧
    (type &&& 0x08 = 0 →
      ¬ (((rd buf 0 <<< 8) ||| rd buf 1) % 65536 > len - 2 ∨
        ((type >>> 1) &&& 0x03 > 0 ∧ len - 2 - ((rd buf 0 <<< 8) ||| rd buf 1) % 65536 < 2)) →
      (handle_rxbuf s type len).1 = 1 ∧
      handle_rxbuf_accesses s type len =
        [0, 1] ++
        (if (type >>> 1) &&& 0x03 > 0 then
          [2 + ((rd buf 0 <<< 8) ||| rd buf 1) % 65536,
           2 + ((rd buf 0 <<< 8) ||| rd buf 1) % 65536 + 1]
         else []) ++
        [2 + ((rd buf 0 <<< 8) ||| rd buf 1) % 65536, len] ∧
      2 + ((rd buf 0 <<< 8) ||| rd buf 1) % 65536 ≤ len ∧
      ((type >>> 1) &&& 0x03 > 0 → 2 + ((rd buf 0 <<< 8) ||| rd buf 1) % 65536 + 1 < len)) := by
  generalize htl : ((rd buf 0 <<< 8) ||| rd buf 1) % 65536 = tl
  generalize hqos : (type >>> 1) &&& 0x03 = qos
  have hst : ¬ ((s.state ≠ OPEN ∧ s.state ≠ DATA_SENT) ∨ len < 4) := by
    rcases hstate with h | h <;> simp [h] <;> omega
  have hne : PUBLISH ≠ CONNACK := by decide
  have hacc : handle_rxbuf_accesses s type len =
      if type &&& 0x08 ≠ 0 then []
      else if tl > len - 2 then [0, 1]
      else if qos > 0 ∧ len - 2 - tl < 2 then [0, 1]
      else [0, 1] ++ (if qos > 0 then [2 + tl, 2 + tl + 1] else []) ++
        [2 + tl, (if qos > 0 then 2 + tl + 2 else 2 + tl) +
          (if qos > 0 then len - 2 - tl - 2 else len - 2 - tl)] := by
    unfold handle_rxbuf_accesses
    simp only [hbuf, Option.getD_some, htl, hqos, if_neg hst]
  refine ⟨?_, ?_, ?_⟩
  · rw [hacc, hsize]
    intro off hoff
    by_cases hd : type &&& 0x08 ≠ 0
    · rw [if_pos hd] at hoff; simp at hoff
    · rw [if_neg hd] at hoff
      by_cases h5 : tl > len - 2
      · rw [if_pos h5] at hoff
        simp at hoff
        omega
      · rw [if_neg h5] at hoff
        by_cases h6 : qos > 0 ∧ len - 2 - tl < 2
        · rw [if_pos h6] at hoff
          simp at hoff
          omega
        · rw [if_neg h6] at hoff
          by_cases hq : qos > 0
          · simp only [if_pos hq] at hoff
            simp at hoff
            omega
          · simp only [if_neg hq] at hoff
            simp at hoff
            omega
  · intro hd hbad
    have hd' : ¬ (type &&& 0x08 ≠ 0) := by simp [hd]
    constructor
    · unfold handle_rxbuf
      simp only [htype, if_neg hne, if_true, if_neg hst, if_neg hd', hbuf, Option.getD_some,
        htl, hqos]
      by_cases h5 : tl > len - 2
      · rw [if_pos h5]
      · rw [if_neg h5]
        have h6 : qos > 0 ∧ len - 2 - tl < 2 := by
          rcases hbad with h | h
          · exact absurd h h5
          · exact h
        rw [if_pos h6]
    · rw [hacc, if_neg hd']
      by_cases h5 : tl > len - 2
      · rw [if_pos h5]
      · rw [if_neg h5]
        have h6 : qos > 0 ∧ len - 2 - tl < 2 := by
          rcases hbad with h | h
          · exact absurd h h5
          · exact h
        rw [if_pos h6]
  · intro hd hok
    have hd' : ¬ (type &&& 0x08 ≠ 0) := by simp [hd]
    have h5 : ¬ (tl > len - 2) := fun h => hok (Or.inl h)
    have h6 : ¬ (qos > 0 ∧ len - 2 - tl < 2) := fun h => hok (Or.inr h)
    refine ⟨?_, ?_, by omega, by omega⟩
    · unfold handle_rxbuf
      simp only [htype, if_neg hne, if_true, if_neg hst, if_neg hd', hbuf, Option.getD_some,
        htl, hqos, if_neg h5, if_neg h6]
      by_cases hq : qos > 0
      · rw [if_pos hq]
      · rw [if_neg hq]
    · rw [hacc, if_neg hd', if_neg h5, if_neg h6]
      by_cases hq : qos > 0
      · simp only [if_pos hq]
        have : 2 + tl + 2 + (len - 2 - tl - 2) = len := by omega
        rw [this]
      · simp only [if_neg hq]
        have : 2 + tl + (len - 2 - tl) = len := by omega
        rw [this]

/-- C19, witness: the QoS-1 PUBLISH of topic "a", id 0x1234, message "hi" (`len = 7`, an
8-byte buffer) is handled with accesses at offsets 0, 1, 3, 4, 3 and 7. -/
theorem handle_rxbuf_accesses_in_bounds_witness :
    handle_rxbuf_accesses
      { demo OPEN with rxbuf := some [0, 1, 0x61, 0x12, 0x34, 0x68, 0x69, 0] } 0x32 7 =
      [0, 1, 3, 4, 3, 7] ∧
    ∀ off ∈ handle_rxbuf_accesses
      { demo OPEN with rxbuf := some [0, 1, 0x61, 0x12, 0x34, 0x68, 0x69, 0] } 0x32 7,
      off < 8 :=
  ⟨by decide,
   (handle_rxbuf_accesses_in_bounds
      { demo OPEN with rxbuf := some [0, 1, 0x61, 0x12, 0x34, 0x68, 0x69, 0] } 0x32 7
      [0, 1, 0x61, 0x12, 0x34, 0x68, 0x69, 0] (Or.inl rfl) (by decide) (by decide) rfl rfl).1⟩

end Mqtt
